import Mathlib

/-!
# Chart configuration layer of the SAVI dashboard (`static/js/charts.js`)

A shallow embedding of the chart helpers: the page is an explicit state
(elements in document order, the `chart` property of each element, the charts
constructed so far and the log of `destroy()` calls), every chart constructor
is a function from a page to a result and a new page, and JavaScript numbers
are IEEE-754 doubles given by their exact rational value.
-/

namespace SaviCharts

/-! ## JavaScript numbers -/

/-- A JavaScript Number: `NaN`, the two infinities, or a finite double given by
its exact value. The model has a single zero; no operation below is applied to
a negative zero. -/
inductive JSNumber where
  | nan
  | posInf
  | negInf
  | fin (q : ℚ)
deriving DecidableEq

/-! ## The palette -/

/-- The three parallel colour tables of `chartColors`. -/
structure Palette where
  primary : List String
  background : List String
  border : List String

/-- The constant `chartColors` (charts.js, lines 4-8). -/
def chartColors : Palette where
  primary := ["#007bff", "#6610f2", "#6f42c1", "#e83e8c", "#dc3545",
    "#fd7e14", "#ffc107", "#28a745", "#20c997", "#17a2b8"]
  background := ["rgba(0, 123, 255, 0.1)", "rgba(102, 16, 242, 0.1)",
    "rgba(111, 66, 193, 0.1)", "rgba(232, 62, 140, 0.1)", "rgba(220, 53, 69, 0.1)",
    "rgba(253, 126, 20, 0.1)", "rgba(255, 193, 7, 0.1)", "rgba(40, 167, 69, 0.1)",
    "rgba(32, 201, 151, 0.1)", "rgba(23, 162, 184, 0.1)"]
  border := ["#007bff", "#6610f2", "#6f42c1", "#e83e8c", "#dc3545",
    "#fd7e14", "#ffc107", "#28a745", "#20c997", "#17a2b8"]

/-! ## Chart requests and chart configurations -/

/-- One entry of `data.datasets` of a line-chart request; a field that the
caller left out is `none`. -/
structure Series where
  label : Option String
  data : Option (List JSNumber)

/-- The `data` argument of the chart constructors: an object whose fields may
each be missing (`none` stands for `undefined`). -/
structure ChartData where
  labels : Option (List String) := none
  data : Option (List JSNumber) := none
  datasets : Option (List Series) := none
  formatted_data : Option (List (Option String)) := none

/-- A colour option of a dataset: one colour for the whole dataset or one per
data index. -/
inductive ColorSpec where
  | single (c : String)
  | perIndex (cs : List String)
deriving DecidableEq

/-- A dataset of a chart configuration. Colours, labels and data are kept;
numeric style constants (widths, radii, tension) are not part of the model. -/
structure Dataset where
  label : Option String
  data : List JSNumber
  backgroundColor : ColorSpec
  borderColor : ColorSpec
  hoverBackgroundColor : Option String := none
  hoverBorderColor : Option String := none
  pointBackgroundColor : Option String := none
  pointBorderColor : Option String := none
  pointHoverBackgroundColor : Option String := none
  pointHoverBorderColor : Option String := none
  cutout : Option String := none
deriving DecidableEq

/-- Which tooltip label callback a configuration carries. -/
inductive TooltipKind where
  | percentage
  | barValue
  | seriesValue
  | comparison
deriving DecidableEq

/-- The configuration object handed to `new Chart(ctx, config)`. -/
structure ChartConfig where
  type : String
  labels : List String
  datasets : List Dataset
  titleDisplay : Bool
  titleText : String
  tooltip : TooltipKind
deriving DecidableEq

/-- JavaScript truthiness of a string: `!!title`. -/
def truthyString (s : String) : Bool := s != ""

/-- The `config` literal of `createPieChart` (lines 43-103). -/
def pieConfig (data : ChartData) (title : String) : ChartConfig where
  type := "pie"
  labels := data.labels.getD []
  datasets := [{
    label := some title
    data := data.data.getD []
    backgroundColor := .perIndex (chartColors.background.take (data.labels.getD []).length)
    borderColor := .perIndex (chartColors.border.take (data.labels.getD []).length)
    hoverBorderColor := some "#ffffff" }]
  titleDisplay := truthyString title
  titleText := title
  tooltip := .percentage

/-- The `config` literal of `createBarChart` (lines 129-204). -/
def barConfig (data : ChartData) (title : String) : ChartConfig where
  type := "bar"
  labels := data.labels.getD []
  datasets := [{
    label := some title
    data := data.data.getD []
    backgroundColor := .single (chartColors.background.getD 0 "undefined")
    borderColor := .single (chartColors.border.getD 0 "undefined")
    hoverBackgroundColor := chartColors.primary.get? 0
    hoverBorderColor := some "#ffffff" }]
  titleDisplay := truthyString title
  titleText := title
  tooltip := .barValue

/-- The dataset that `createLineChart` builds for the series at position
`index` (lines 234-249). -/
def lineDataset (dataset : Series) (index : Nat) : Dataset where
  label := some (match dataset.label with
    | some l => if truthyString l then l else "Dataset " ++ toString (index + 1)
    | none => "Dataset " ++ toString (index + 1))
  data := dataset.data.getD []
  borderColor := .single
    (chartColors.primary.getD (index % chartColors.primary.length) "undefined")
  backgroundColor := .single
    (chartColors.background.getD (index % chartColors.background.length) "undefined")
  pointBackgroundColor := chartColors.primary.get? (index % chartColors.primary.length)
  pointBorderColor := some "#ffffff"
  pointHoverBackgroundColor := some "#ffffff"
  pointHoverBorderColor := chartColors.primary.get? (index % chartColors.primary.length)

/-- The callback of `Array.prototype.map` receives the element and its index. -/
def mapWithIndex {α β : Type} (f : α → Nat → β) : List α → Nat → List β
  | [], _ => []
  | x :: xs, i => f x i :: mapWithIndex f xs (i + 1)

/-- The `config` literal of `createLineChart` (lines 230-310). -/
def lineConfig (data : ChartData) (title : String) : ChartConfig where
  type := "line"
  labels := data.labels.getD []
  datasets := match data.datasets with
    | some ds => mapWithIndex lineDataset ds 0
    | none => []
  titleDisplay := truthyString title
  titleText := title
  tooltip := .seriesValue

/-- The `config` literal of `createDoughnutChart` (lines 336-389). -/
def doughnutConfig (data : ChartData) (title : String) : ChartConfig where
  type := "doughnut"
  labels := data.labels.getD []
  datasets := [{
    label := some title
    data := data.data.getD []
    backgroundColor := .perIndex (chartColors.background.take (data.labels.getD []).length)
    borderColor := .perIndex (chartColors.border.take (data.labels.getD []).length)
    hoverBorderColor := some "#ffffff"
    cutout := some "60%" }]
  titleDisplay := truthyString title
  titleText := title
  tooltip := .percentage

/-- The `config` literal of `createDivinopolisComparisonChart` (lines 489-546). -/
def comparisonConfig (data : ChartData) : ChartConfig where
  type := "doughnut"
  labels := data.labels.getD ["Divinópolis", "BH/Contagem"]
  datasets := [{
    label := none
    data := data.data.getD [.fin 0, .fin 0]
    backgroundColor := .perIndex ["#28a745", "#0d6efd"]
    borderColor := .perIndex ["#28a745", "#0d6efd"]
    hoverBorderColor := some "#ffffff"
    cutout := some "60%" }]
  titleDisplay := false
  titleText := ""
  tooltip := .comparison

/-! ## Double-precision arithmetic -/

/-- Powers of two with an integer exponent. -/
def pow2 (e : ℤ) : ℚ :=
  if 0 ≤ e then ((2 ^ e.toNat : ℕ) : ℚ) else 1 / ((2 ^ (-e).toNat : ℕ) : ℚ)

/-- Rounds to the nearest integer, a tie going to the even neighbour. -/
def roundHalfEven (x : ℚ) : ℤ :=
  let f := ⌊x⌋
  if x - f < 1 / 2 then f
  else if 1 / 2 < x - f then f + 1
  else if f % 2 = 0 then f else f + 1

/-- The number of binary digits of `n`, computed with `fuel` halvings. -/
def bitLength : Nat → Nat → Nat
  | 0, _ => 0
  | fuel + 1, n => if n = 0 then 0 else bitLength fuel (n / 2) + 1

/-- The binary exponent of a positive rational `a`: the `e` with
`2 ^ e ≤ a < 2 ^ (e + 1)`, found from the bit lengths of numerator and
denominator. -/
def binaryExponent (a : ℚ) : ℤ :=
  let e0 : ℤ := (bitLength a.num.natAbs a.num.natAbs : ℤ) - (bitLength a.den a.den : ℤ)
  if a < pow2 e0 then e0 - 1 else e0

/-- The spacing of the doubles around a positive rational `a`: `2 ^ (e - 52)`
for the binary exponent `e` of `a`, and `2 ^ -1074` below `2 ^ -1022`. -/
def ulpOf (a : ℚ) : ℚ :=
  pow2 (max (binaryExponent a) (-1022) - 52)

/-- Rounds an exact result to binary64 with round-to-nearest, ties-to-even:
53 significant bits, least exponent -1022 (below it the spacing stays
`2 ^ -1074`), and overflow to an infinity from `2 ^ 1024` on. -/
def roundToDouble (q : ℚ) : JSNumber :=
  if q = 0 then .fin 0
  else
    let a := |q|
    let r := (roundHalfEven (a / ulpOf a) : ℚ) * ulpOf a
    if pow2 1024 ≤ r then (if q < 0 then .negInf else .posInf)
    else .fin (if q < 0 then -r else r)

/-- The numeric literal `137.508` (line 425): the double nearest to it. -/
def goldenAngle : JSNumber := roundToDouble (137508 / 1000)

/-- Implements the operator `+` on Numbers. -/
def jsAdd : JSNumber → JSNumber → JSNumber
  | .nan, _ => .nan
  | _, .nan => .nan
  | .posInf, .negInf => .nan
  | .negInf, .posInf => .nan
  | .posInf, _ => .posInf
  | _, .posInf => .posInf
  | .negInf, _ => .negInf
  | _, .negInf => .negInf
  | .fin a, .fin b => roundToDouble (a + b)

/-- The infinity with the given sign. -/
def signedInf (negative : Bool) : JSNumber :=
  if negative then .negInf else .posInf

/-- Implements the operator `*` on Numbers. -/
def jsMul : JSNumber → JSNumber → JSNumber
  | .nan, _ => .nan
  | _, .nan => .nan
  | .fin a, .fin b => roundToDouble (a * b)
  | .fin a, .posInf => if a = 0 then .nan else signedInf (decide (a < 0))
  | .fin a, .negInf => if a = 0 then .nan else signedInf (decide (0 < a))
  | .posInf, .fin b => if b = 0 then .nan else signedInf (decide (b < 0))
  | .negInf, .fin b => if b = 0 then .nan else signedInf (decide (0 < b))
  | .posInf, .posInf => .posInf
  | .negInf, .negInf => .posInf
  | .posInf, .negInf => .negInf
  | .negInf, .posInf => .negInf

/-- Implements the operator `/` on Numbers. -/
def jsDiv : JSNumber → JSNumber → JSNumber
  | .nan, _ => .nan
  | _, .nan => .nan
  | .fin a, .fin b =>
    if b = 0 then (if a = 0 then .nan else signedInf (decide (a < 0)))
    else roundToDouble (a / b)
  | .fin _, .posInf => .fin 0
  | .fin _, .negInf => .fin 0
  | .posInf, .fin b => signedInf (decide (b < 0))
  | .negInf, .fin b => signedInf (decide (0 ≤ b))
  | .posInf, .posInf => .nan
  | .posInf, .negInf => .nan
  | .negInf, .posInf => .nan
  | .negInf, .negInf => .nan

/-- Truncation towards zero. -/
def truncate (x : ℚ) : ℤ := if 0 ≤ x then ⌊x⌋ else -⌊-x⌋

/-- Implements the operator `%` on Numbers: the remainder has the sign of the
dividend and is computed without rounding error. -/
def jsMod : JSNumber → JSNumber → JSNumber
  | .nan, _ => .nan
  | _, .nan => .nan
  | .posInf, _ => .nan
  | .negInf, _ => .nan
  | .fin a, .posInf => .fin a
  | .fin a, .negInf => .fin a
  | .fin a, .fin b => if b = 0 then .nan else roundToDouble (a - b * truncate (a / b))

/-- Implements `x || 0` on a Number: `NaN` and zero are falsy. -/
def orZero : JSNumber → JSNumber
  | .nan => .fin 0
  | x => x

/-! ## Number to text -/

/-- The decimal digits of a natural number. -/
def natDigits (n : Nat) : List Char := (Nat.repr n).data

/-- The `k` least significant decimal digits of `f`, most significant first. -/
def fixedDigits : Nat → Nat → List Char
  | 0, _ => []
  | k + 1, f => fixedDigits k (f / 10) ++ [Nat.digitChar (f % 10)]

/-- The least `j` from the given one upwards with `1 ≤ a * 10 ^ j`, within
`fuel` steps. -/
def leadingShift (a : ℚ) : Nat → Nat → Nat
  | 0, j => j
  | fuel + 1, j => if 1 ≤ a * 10 ^ j then j else leadingShift a fuel (j + 1)

/-- The decimal exponent `n` of a positive rational: `10 ^ (n - 1) ≤ a < 10 ^ n`. -/
def decimalExponent (a : ℚ) : ℤ :=
  if 1 ≤ a then ((natDigits ⌊a⌋₊).length : ℤ) else 1 - (leadingShift a 400 1 : ℤ)

/-- Powers of ten with an integer exponent. -/
def pow10 (e : ℤ) : ℚ :=
  if 0 ≤ e then ((10 ^ e.toNat : ℕ) : ℚ) else 1 / ((10 ^ (-e).toNat : ℕ) : ℚ)

/-- The `k`-digit decimal that reads back as the double `a`, if there is one:
`s × 10 ^ (n - k)` with `s` the floor of `a / 10 ^ (n - k)` or one more. When
both read back as `a`, the closer one is taken (the even one on a tie). -/
def shortestCandidate (a : ℚ) (n : ℤ) (k : Nat) : Option Nat :=
  let unit := pow10 (n - k)
  let lo := ⌊a / unit⌋₊
  let okLo := decide (roundToDouble (lo * unit) = .fin a)
  let okHi := decide (roundToDouble ((lo + 1 : ℕ) * unit) = .fin a)
  if okLo && okHi then
    (if a - lo * unit < (lo + 1 : ℕ) * unit - a then some lo
     else if (lo + 1 : ℕ) * unit - a < a - lo * unit then some (lo + 1)
     else if lo % 2 = 0 then some lo else some (lo + 1))
  else if okLo then some lo
  else if okHi then some (lo + 1)
  else none

/-- Searches the digit counts `k, k + 1, ...` for the shortest decimal that reads
back as `a`; seventeen digits always suffice for a double. -/
def shortestDigits (a : ℚ) (n : ℤ) : Nat → Nat → Nat × Nat
  | 0, k => (⌊a / pow10 (n - k)⌋₊, k)
  | fuel + 1, k =>
    match shortestCandidate a n k with
    | some s => (s, k)
    | none => shortestDigits a n fuel (k + 1)

/-- Implements Number::toString for a positive finite double (ECMA-262, radix 10). -/
def positiveToString (a : ℚ) : String :=
  let n0 := decimalExponent a
  let (s0, k) := shortestDigits a n0 17 1
  -- a candidate that reached the next power of ten has one digit more
  let (s, n) := if s0 = 10 ^ k then (10 ^ (k - 1), n0 + 1) else (s0, n0)
  let digits := natDigits s
  if (k : ℤ) ≤ n ∧ n ≤ 21 then
    String.mk (digits ++ List.replicate (n - k).toNat '0')
  else if 0 < n ∧ n ≤ 21 then
    String.mk (digits.take n.toNat ++ ['.'] ++ digits.drop n.toNat)
  else if -6 < n ∧ n ≤ 0 then
    String.mk (['0', '.'] ++ List.replicate (-n).toNat '0' ++ digits)
  else
    let e := n - 1
    let sign := if 0 ≤ e then "+" else "-"
    let mantissa := if k = 1 then String.mk digits
      else String.mk (digits.take 1 ++ ['.'] ++ digits.drop 1)
    mantissa ++ "e" ++ sign ++ Nat.repr e.natAbs

/-- Implements Number::toString, the conversion that a template literal applies
to a Number. Trailing zeros of the shortest digit string are not produced
because the search starts from one digit. -/
def numberToString : JSNumber → String
  | .nan => "NaN"
  | .posInf => "Infinity"
  | .negInf => "-Infinity"
  | .fin q =>
    if q = 0 then "0"
    else if q < 0 then "-" ++ positiveToString (-q)
    else positiveToString q

/-- The integer `n` for which `n / 10 ^ f` is closest to `a`, the larger one on
a tie (`a` is not negative). -/
def roundHalfUp (a : ℚ) (f : Nat) : Nat := ⌊a * 10 ^ f + 1 / 2⌋₊

/-- Implements `Number.prototype.toFixed(1)`. -/
def toFixed1 : JSNumber → String
  | .nan => "NaN"
  | .posInf => "Infinity"
  | .negInf => "-Infinity"
  | .fin q =>
    if 10 ^ 21 ≤ |q| then numberToString (.fin q)
    else
      let n := roundHalfUp |q| 1
      (if q < 0 then "-" else "") ++
        String.mk (natDigits (n / 10) ++ ['.'] ++ fixedDigits 1 n)

/-- Groups digits in threes from the right: a full stop follows every digit
that has a positive multiple of three digits after it. -/
def groupDigits : List Char → List Char
  | [] => []
  | c :: cs =>
    if cs.length % 3 = 0 ∧ cs ≠ [] then c :: '.' :: groupDigits cs
    else c :: groupDigits cs

/-- The pt-BR grouping of an integer: groups of three digits from the right,
separated by a full stop. -/
def groupThousands (n : Nat) : List Char :=
  groupDigits (natDigits n)

/-- Drops up to `k` leading zeros. -/
def dropZeros : Nat → List Char → List Char
  | k + 1, c :: rest => if c = '0' then dropZeros k rest else c :: rest
  | _, l => l

/-- Removes trailing zeros of a fraction while it is longer than `minDigits`. -/
def stripTrailingZeros (minDigits : Nat) (digits : List Char) : List Char :=
  (dropZeros (digits.length - minDigits) digits.reverse).reverse

/-- The text of a non-negative value in pt-BR with between `minDigits` and
`maxDigits` fraction digits (ECMA-402 FormatNumericToString, rounding mode
half-expand on the exact value). -/
def formatDecimalPtBR (minDigits maxDigits : Nat) (a : ℚ) : List Char :=
  let n := roundHalfUp a maxDigits
  let fraction := stripTrailingZeros minDigits (fixedDigits maxDigits n)
  groupThousands (n / 10 ^ maxDigits) ++ (if fraction = [] then [] else ',' :: fraction)

/-- Implements `value.toLocaleString('pt-BR', {minimumFractionDigits: minDigits})`.
ECMA-402 sets the maximum number of fraction digits of the decimal style to the
larger of `minDigits` and 3 when only the minimum is given. -/
def toLocaleStringPtBR (minDigits : Nat) : JSNumber → String
  | .nan => "NaN"
  | .posInf => "∞"
  | .negInf => "-∞"
  | .fin q =>
    (if q < 0 then "-" else "") ++ String.mk (formatDecimalPtBR minDigits (max minDigits 3) |q|)

/-- Implements `formatCurrency` (lines 401-406): `Intl.NumberFormat('pt-BR',
{style: 'currency', currency: 'BRL'})`. The currency BRL has two fraction
digits, and the pt-BR pattern puts a no-break space (U+00A0) between the symbol
and the amount. -/
def formatCurrency : JSNumber → String
  | .nan => "R$\xa0NaN"
  | .posInf => "R$\xa0∞"
  | .negInf => "-R$\xa0∞"
  | .fin q =>
    (if q < 0 then "-" else "") ++ "R$\xa0" ++ String.mk (formatDecimalPtBR 2 2 |q|)

/-! ## Tooltip, tick and legend callbacks -/

/-- Implements `s || ''` for a string that may be missing. -/
def orEmpty : Option String → String
  | some s => s
  | none => ""

/-- The `total` of the percentage tooltips:
`context.dataset.data.reduce((a, b) => a + b, 0)`. -/
def datasetTotal (data : List JSNumber) : JSNumber :=
  data.foldl jsAdd (.fin 0)

/-- The number `(value / total) * 100` of the percentage tooltips, with
`value = context.parsed || 0`. -/
def slicePercentage (parsed : JSNumber) (data : List JSNumber) : JSNumber :=
  jsMul (jsDiv (orZero parsed) (datasetTotal data)) (.fin 100)

/-- The tooltip label callback of `createPieChart` (lines 82-88). -/
def pieTooltipLabel (label : Option String) (parsed : JSNumber) (data : List JSNumber) :
    String :=
  let percentage := toFixed1 (slicePercentage parsed data)
  orEmpty label ++ ": R$ " ++ toLocaleStringPtBR 2 (orZero parsed) ++ " (" ++ percentage ++ "%)"

/-- The tooltip label callback of `createDoughnutChart` (lines 373-379). -/
def doughnutTooltipLabel (label : Option String) (parsed : JSNumber) (data : List JSNumber) :
    String :=
  let percentage := toFixed1 (slicePercentage parsed data)
  orEmpty label ++ ": R$ " ++ toLocaleStringPtBR 2 (orZero parsed) ++ " (" ++ percentage ++ "%)"

/-- The tooltip label callback of `createBarChart` (lines 164-167);
`parsedY` is `context.parsed.y`. -/
def barTooltipLabel (label : String) (parsedY : JSNumber) : String :=
  label ++ ": R$ " ++ toLocaleStringPtBR 2 (orZero parsedY)

/-- The tooltip label callback of `createLineChart` (lines 275-278);
`datasetLabel` is `context.dataset.label`. -/
def lineTooltipLabel (datasetLabel : String) (parsedY : JSNumber) : String :=
  datasetLabel ++ ": R$ " ++ toLocaleStringPtBR 2 (orZero parsedY)

/-- The tick callback of the vertical axis of `createBarChart` (lines 178-180). -/
def barTickLabel (value : JSNumber) : String :=
  "R$ " ++ toLocaleStringPtBR 0 value

/-- The tick callback of the vertical axis of `createLineChart` (lines 289-291). -/
def lineTickLabel (value : JSNumber) : String :=
  "R$ " ++ toLocaleStringPtBR 0 value

/-- Implements `formattedData[index]` followed by a truthiness test: the string
at `index` when there is one and it is not empty. -/
def formattedAt (data : ChartData) (index : Nat) : Option String :=
  match ((data.formatted_data.getD []).get? index).join with
  | some s => if truthyString s then some s else none
  | none => none

/-- The tooltip label callback of `createDivinopolisComparisonChart`
(lines 531-536). -/
def comparisonTooltipLabel (data : ChartData) (label : Option String) (dataIndex : Nat)
    (parsed : JSNumber) : String :=
  let value := match formattedAt data dataIndex with
    | some s => s
    | none => formatCurrency parsed
  orEmpty label ++ ": " ++ value

/-- A legend item as produced by the charting library; `text` may be
`undefined`. -/
structure LegendItem where
  text : Option String
  datasetIndex : Nat
deriving DecidableEq

/-- The text that a template literal produces for a string that may be
`undefined`. -/
def templateText : Option String → String
  | some s => s
  | none => "undefined"

/-- The `generateLabels` callback of `createDivinopolisComparisonChart`
(lines 516-526); `originalLabels` is what the library's default
`generateLabels` returns for the chart. -/
def comparisonGenerateLabels (data : ChartData) (originalLabels : List LegendItem) :
    List LegendItem :=
  mapWithIndex (fun label index =>
    match formattedAt data index with
    | some s => { label with text := some (templateText label.text ++ ": " ++ s) }
    | none => label) originalLabels 0

/-! ## Palette generation -/

/-- The result object of `generateColors`. -/
structure ColorSets where
  colors : List String
  backgrounds : List String
  borders : List String
deriving DecidableEq

/-- The hue `(i * 137.508) % 360` of line 425, in double precision. The loop
counter `i` is an exact double (arrays hold fewer than `2 ^ 32` entries). -/
def hue (i : Nat) : JSNumber :=
  jsMod (jsMul (.fin i) goldenAngle) (.fin 360)

/-- One iteration of the loop of `generateColors` (lines 419-431). -/
def generateColorsStep (acc : ColorSets) (i : Nat) : ColorSets :=
  if i < chartColors.primary.length then
    { colors := acc.colors ++ [chartColors.primary.getD i "undefined"]
      backgrounds := acc.backgrounds ++ [chartColors.background.getD i "undefined"]
      borders := acc.borders ++ [chartColors.border.getD i "undefined"] }
  else
    let color := "hsl(" ++ numberToString (hue i) ++ ", 70%, 50%)"
    let background := "hsla(" ++ numberToString (hue i) ++ ", 70%, 50%, 0.1)"
    { colors := acc.colors ++ [color]
      backgrounds := acc.backgrounds ++ [background]
      borders := acc.borders ++ [color] }

/-- Implements `generateColors` (lines 413-439): the loop
`for (let i = 0; i < count; i++)` over three arrays that start empty. -/
def generateColors (count : Nat) : ColorSets :=
  (List.range count).foldl generateColorsStep { colors := [], backgrounds := [], borders := [] }

/-! ## The page -/

/-- A DOM element: its `id`, whether it is a `canvas`, and its `chart`
property (a handle of a Chart instance; `none` for `undefined` or `null`). -/
structure Element where
  id : String
  isCanvas : Bool
  chart : Option Nat
deriving DecidableEq

/-- The page state the chart helpers act on. A Chart instance is identified by
a handle; `new Chart` takes the next unused handle. -/
structure Page where
  elements : List Element
  charts : List (Nat × ChartConfig)
  destroyed : List Nat
  nextChart : Nat
  console : List String

/-- Implements `document.getElementById`: the first element, in document order,
with the given id. -/
def getElementById (pg : Page) (canvasId : String) : Option Element :=
  pg.elements.find? (fun e => e.id == canvasId)

/-- Implements `console.error(msg)`. -/
def consoleError (pg : Page) (msg : String) : Page :=
  { pg with console := pg.console ++ [msg] }

/-- Implements `chart.destroy()` on the chart with handle `c`. -/
def destroyChart (pg : Page) (c : Nat) : Page :=
  { pg with destroyed := pg.destroyed ++ [c] }

/-- Implements `new Chart(ctx, config)`: a fresh Chart instance. -/
def newChart (pg : Page) (config : ChartConfig) : Nat × Page :=
  (pg.nextChart,
    { pg with charts := pg.charts ++ [(pg.nextChart, config)], nextChart := pg.nextChart + 1 })

/-- Assignment to the `chart` property of the element that
`getElementById` returns for `canvasId`. -/
def assignChart (canvasId : String) (c : Option Nat) : List Element → List Element
  | [] => []
  | e :: es =>
    if e.id == canvasId then { e with chart := c } :: es
    else e :: assignChart canvasId c es

/-- Implements `ctx.chart = chart` for `ctx = getElementById(canvasId)`. -/
def setChart (pg : Page) (canvasId : String) (c : Nat) : Page :=
  { pg with elements := assignChart canvasId (some c) pg.elements }

/-- The text logged when the canvas is missing. -/
def notFoundMessage (canvasId : String) : String :=
  "Canvas element with ID '" ++ canvasId ++ "' not found"

/-- Implements `createPieChart` (lines 31-108). -/
def createPieChart (canvasId : String) (data : ChartData) (title : String) (pg : Page) :
    Option Nat × Page :=
  match getElementById pg canvasId with
  | none => (none, consoleError pg (notFoundMessage canvasId))
  | some ctx =>
    let pg1 := match ctx.chart with
      | some old => destroyChart pg old
      | none => pg
    let (chart, pg2) := newChart pg1 (pieConfig data title)
    (some chart, setChart pg2 canvasId chart)

/-- Implements `createBarChart` (lines 117-209). -/
def createBarChart (canvasId : String) (data : ChartData) (title : String) (pg : Page) :
    Option Nat × Page :=
  match getElementById pg canvasId with
  | none => (none, consoleError pg (notFoundMessage canvasId))
  | some ctx =>
    let pg1 := match ctx.chart with
      | some old => destroyChart pg old
      | none => pg
    let (chart, pg2) := newChart pg1 (barConfig data title)
    (some chart, setChart pg2 canvasId chart)

/-- Implements `createLineChart` (lines 218-315). -/
def createLineChart (canvasId : String) (data : ChartData) (title : String) (pg : Page) :
    Option Nat × Page :=
  match getElementById pg canvasId with
  | none => (none, consoleError pg (notFoundMessage canvasId))
  | some ctx =>
    let pg1 := match ctx.chart with
      | some old => destroyChart pg old
      | none => pg
    let (chart, pg2) := newChart pg1 (lineConfig data title)
    (some chart, setChart pg2 canvasId chart)

/-- Implements `createDoughnutChart` (lines 324-394). -/
def createDoughnutChart (canvasId : String) (data : ChartData) (title : String) (pg : Page) :
    Option Nat × Page :=
  match getElementById pg canvasId with
  | none => (none, consoleError pg (notFoundMessage canvasId))
  | some ctx =>
    let pg1 := match ctx.chart with
      | some old => destroyChart pg old
      | none => pg
    let (chart, pg2) := newChart pg1 (doughnutConfig data title)
    (some chart, setChart pg2 canvasId chart)

/-- Implements `createDivinopolisComparisonChart` (lines 477-551). -/
def createDivinopolisComparisonChart (canvasId : String) (data : ChartData) (pg : Page) :
    Option Nat × Page :=
  match getElementById pg canvasId with
  | none => (none, consoleError pg (notFoundMessage canvasId))
  | some ctx =>
    let pg1 := match ctx.chart with
      | some old => destroyChart pg old
      | none => pg
    let (chart, pg2) := newChart pg1 (comparisonConfig data)
    (some chart, setChart pg2 canvasId chart)

/-- The five chart constructors exported through `window.chartUtils`. -/
inductive Constructor where
  | pie
  | bar
  | line
  | doughnut
  | comparison
deriving DecidableEq

/-- A call of one of the five constructors. -/
def Constructor.call : Constructor → String → ChartData → String → Page → Option Nat × Page
  | .pie, canvasId, data, title => createPieChart canvasId data title
  | .bar, canvasId, data, title => createBarChart canvasId data title
  | .line, canvasId, data, title => createLineChart canvasId data title
  | .doughnut, canvasId, data, title => createDoughnutChart canvasId data title
  | .comparison, canvasId, data, _ => createDivinopolisComparisonChart canvasId data

/-- The chart bound to the surface `canvasId`: the `chart` property of the
element that `getElementById` returns. -/
def boundChart (pg : Page) (canvasId : String) : Option Nat :=
  (getElementById pg canvasId).bind (fun e => e.chart)

/-- A chart is live when it has been constructed and never destroyed. -/
def Live (pg : Page) (c : Nat) : Prop :=
  c ∈ pg.charts.map Prod.fst ∧ c ∉ pg.destroyed

/-- Handles are allocated consistently: every handle that the page mentions was
handed out before `nextChart`. -/
def Page.Consistent (pg : Page) : Prop :=
  (∀ e ∈ pg.elements, ∀ c, e.chart = some c → c < pg.nextChart) ∧
  (∀ c ∈ pg.destroyed, c < pg.nextChart) ∧
  (∀ p ∈ pg.charts, p.1 < pg.nextChart)

/-- The configuration that a constructor hands to `new Chart`. -/
def Constructor.config : Constructor → ChartData → String → ChartConfig
  | .pie, data, title => pieConfig data title
  | .bar, data, title => barConfig data title
  | .line, data, title => lineConfig data title
  | .doughnut, data, title => doughnutConfig data title
  | .comparison, data, _ => comparisonConfig data

/-- A page with two canvases, the first of which already shows a chart. -/
def samplePage : Page where
  elements := [⟨"revenueChart", true, some 0⟩, ⟨"cityChart", true, none⟩]
  charts := [(0, barConfig {} "")]
  destroyed := []
  nextChart := 1
  console := []

/-- The colour that `generateColors` gives to index `i`, in closed form. -/
def colorAt (i : Nat) : String :=
  if i < 10 then chartColors.primary.getD i "undefined"
  else "hsl(" ++ numberToString (hue i) ++ ", 70%, 50%)"

/-- The background that `generateColors` gives to index `i`, in closed form. -/
def backgroundAt (i : Nat) : String :=
  if i < 10 then chartColors.background.getD i "undefined"
  else "hsla(" ++ numberToString (hue i) ++ ", 70%, 50%, 0.1)"

/-- The border that `generateColors` gives to index `i`, in closed form. -/
def borderAt (i : Nat) : String :=
  if i < 10 then chartColors.border.getD i "undefined"
  else "hsl(" ++ numberToString (hue i) ++ ", 70%, 50%)"

/-- A pie request with eleven labels. -/
def elevenSlices : ChartData where
  labels := some ["a", "b", "c", "d", "e", "f", "g", "h", "i", "j", "k"]
  data := some (List.replicate 11 (.fin 1))

/-- A comparison request whose first formatted string is empty. -/
def emptyFormatted : ChartData where
  labels := some ["Divinópolis", "BH/Contagem"]
  data := some [.fin 10, .fin 5]
  formatted_data := some [some "", some "R$ 5.000,00"]

/-- A comparison request with both formatted strings. -/
def bothFormatted : ChartData where
  labels := some ["Divinópolis", "BH/Contagem"]
  data := some [.fin 10000, .fin 5000]
  formatted_data := some [some "R$ 10.000,00", some "R$ 5.000,00"]

/-- The text `s` shows `digits` grouped in threes from the right: a first group
of one to three digits, then groups of exactly three digits, each preceded by
a full stop. -/
def GroupedInThrees (s digits : List Char) : Prop :=
  ∃ first : List Char, ∃ rest : List (List Char),
    digits = first ++ rest.flatten ∧
    s = first ++ (rest.map (fun g => '.' :: g)).flatten ∧
    first.length ≤ 3 ∧ (digits ≠ [] → 1 ≤ first.length) ∧ ∀ g ∈ rest, g.length = 3

/-- The value of a finite Number (zero for `NaN` and the infinities). -/
def finiteValue : JSNumber → ℚ
  | .fin q => q
  | _ => 0

/-- The percentages that the tooltips of a pie or doughnut chart compute for the
slices of a dataset, before `toFixed(1)`. -/
def slicePercentages (values : List ℚ) : List ℚ :=
  values.map (fun v => finiteValue (slicePercentage (.fin v) (values.map JSNumber.fin)))

/-- The same percentages as `toFixed(1)` shows them, in tenths of a percent. -/
def roundedTenths (values : List ℚ) : List ℕ :=
  (slicePercentages values).map (fun p => roundHalfUp p 1)

/-- A non-negative multiple of `2 ^ -1074`, the least positive double. Every
non-negative finite double is one. -/
def OnDoubleGrid (x : ℚ) : Prop :=
  ∃ k : ℕ, x = k * (2 : ℚ) ^ (-1074 : ℤ)

/-- The candidate result of rounding a positive rational, before the overflow
test. -/
def roundedValue (a : ℚ) : ℚ :=
  (roundHalfEven (a / ulpOf a) : ℚ) * ulpOf a

/-- A line request with twelve series. -/
def twelveSeries : ChartData where
  labels := some ["jan", "fev"]
  datasets := some (List.replicate 12 ⟨some "Filial", some [.fin 1, .fin 2]⟩)

/-- The loop of `destroyAllCharts` over the elements in document order, of which
`querySelectorAll('canvas')` selects the canvases: a canvas whose `chart`
property is set has that chart destroyed and the property set to `null`. -/
def destroyCanvases : List Element → List Nat → List Element × List Nat
  | [], destroyed => ([], destroyed)
  | e :: es, destroyed =>
    if e.isCanvas then
      match e.chart with
      | some c =>
        let r := destroyCanvases es (destroyed ++ [c])
        ({ e with chart := none } :: r.1, r.2)
      | none =>
        let r := destroyCanvases es destroyed
        (e :: r.1, r.2)
    else
      let r := destroyCanvases es destroyed
      (e :: r.1, r.2)

/-- Implements `destroyAllCharts` (lines 444-452). -/
def destroyAllCharts (pg : Page) : Page :=
  { pg with
    elements := (destroyCanvases pg.elements pg.destroyed).1
    destroyed := (destroyCanvases pg.elements pg.destroyed).2 }

/-- The chart bound to a canvas; `none` for an element that is not a canvas. -/
def canvasChart (e : Element) : Option Nat :=
  if e.isCanvas then e.chart else none

/-- Every chart instance bound to an element is bound to that element only and
has not been destroyed: the state in which the constructors and
`destroyAllCharts` leave the bindings. -/
def Page.Owned (pg : Page) : Prop :=
  (pg.elements.filterMap (fun e => e.chart)).Nodup ∧
  ∀ c ∈ pg.elements.filterMap (fun e => e.chart), c ∉ pg.destroyed

/-- A page on which no chart has been constructed yet. -/
def freshPage (elements : List Element) : Page where
  elements := elements.map (fun e => { e with chart := none })
  charts := []
  destroyed := []
  nextChart := 0
  console := []

/-- A page with three canvases, two of them with a chart, and a heading. -/
def dashboardPage : Page where
  elements := [⟨"revenueChart", true, some 0⟩, ⟨"title", false, none⟩,
    ⟨"cityChart", true, none⟩, ⟨"trendChart", true, some 2⟩]
  charts := [(0, barConfig {} ""), (1, pieConfig {} ""), (2, lineConfig {} "")]
  destroyed := [1]
  nextChart := 3
  console := []

/-! ## Page utilities (`static/js/main.js`) -/

/-- Implements `classList.remove(...tokens)`. -/
def classListRemove (classList tokens : List String) : List String :=
  classList.filter (fun c => decide (c ∉ tokens))

/-- Implements `classList.add(token)`: a token that is present is not added again. -/
def classListAdd (classList : List String) (token : String) : List String :=
  if token ∈ classList then classList else classList ++ [token]

/-- A status badge: its class list and its content. -/
structure Badge where
  classList : List String
  innerHTML : String
deriving DecidableEq

/-- Implements `updateStatusBadge` (lines 317-341). The closing `feather.replace()`
swaps icon placeholders for drawings and leaves the classes alone; it is not
part of the model. -/
def updateStatusBadge (badge : Badge) (status : String) : Badge :=
  let classes := classListRemove badge.classList
    ["bg-primary", "bg-success", "bg-warning", "bg-danger", "bg-info"]
  if status = "completed" then
    { classList := classListAdd classes "bg-success"
      innerHTML := "<i data-feather=\"check\" width=\"12\" height=\"12\" class=\"me-1\"></i>Concluída" }
  else if status = "processing" then
    { classList := classListAdd classes "bg-warning"
      innerHTML := "<i data-feather=\"clock\" width=\"12\" height=\"12\" class=\"me-1\"></i>Processando" }
  else if status = "error" then
    { classList := classListAdd classes "bg-danger"
      innerHTML := "<i data-feather=\"x\" width=\"12\" height=\"12\" class=\"me-1\"></i>Erro" }
  else
    { classList := classListAdd classes "bg-secondary"
      innerHTML := "<i data-feather=\"help-circle\" width=\"12\" height=\"12\" class=\"me-1\"></i>Desconhecido" }

/-- The status background classes that `updateStatusBadge` adds. -/
def statusClasses : List String := ["bg-success", "bg-warning", "bg-danger", "bg-secondary"]

/-- The status background classes that a badge carries. -/
def Badge.statusClasses (badge : Badge) : List String :=
  badge.classList.filter (fun c => decide (c ∈ SaviCharts.statusClasses))

/-- A button: its content, whether it is disabled, and `dataset.originalText`
(`none` while the attribute is not set). -/
structure Button where
  innerHTML : String
  disabled : Bool
  originalText : Option String
deriving DecidableEq

/-- Implements `showButtonLoading` (lines 413-418); `text` is `none` when the
caller leaves the argument out, and the default text is used. -/
def showButtonLoading (button : Button) (text : Option String) : Button :=
  { innerHTML := "<span class=\"spinner-border spinner-border-sm me-2\"></span>" ++
      text.getD "Carregando..."
    disabled := true
    originalText := some button.innerHTML }

/-- Implements `hideButtonLoading` (lines 424-430): the saved text is restored
when it is truthy, that is, set and not empty. -/
def hideButtonLoading (button : Button) : Button :=
  match button.originalText with
  | some originalText =>
    if truthyString originalText then
      { button with innerHTML := originalText, disabled := false }
    else button
  | none => button

/-! ## Form validation (`static/js/main.js`) -/

/-- The characters that `\s` matches and that `String.prototype.trim` removes:
the white space and line terminator code points of ECMA-262. -/
def isJsWhitespace (c : Char) : Bool :=
  decide (c.toNat ∈ [0x9, 0xA, 0xB, 0xC, 0xD, 0x20, 0xA0, 0x1680, 0x2028, 0x2029, 0x202F,
    0x205F, 0x3000, 0xFEFF]) || (decide (0x2000 ≤ c.toNat) && decide (c.toNat ≤ 0x200A))

/-- One item of a regular expression that is a sequence of character classes: a
class matched once, or a class under `+`. -/
inductive RegexItem where
  | one (cls : Char → Bool)
  | plus (cls : Char → Bool)

/-- Whether a sequence of items, anchored by `^` and `$`, matches the whole
input. -/
def matchItems : List RegexItem → List Char → Bool
  | [], cs => cs.isEmpty
  | _ :: _, [] => false
  | .one cls :: rest, c :: cs => cls c && matchItems rest cs
  | .plus cls :: rest, c :: cs =>
    cls c && (matchItems rest cs || matchItems (.plus cls :: rest) cs)

/-- The class `[^\s@]`. -/
def notSpaceOrAt (c : Char) : Bool :=
  !isJsWhitespace c && c != '@'

/-- The regular expression `/^[^\s@]+@[^\s@]+\.[^\s@]+$/` (line 255). -/
def emailRegex : List RegexItem :=
  [.plus notSpaceOrAt, .one (fun c => c == '@'), .plus notSpaceOrAt, .one (fun c => c == '.'),
    .plus notSpaceOrAt]

/-- Implements `isValidEmail` (lines 254-257). -/
def isValidEmail (email : String) : Bool :=
  matchItems emailRegex email.data

/-- Implements `String.prototype.trim`. -/
def jsTrim (s : String) : String :=
  String.mk ((s.data.dropWhile isJsWhitespace).reverse.dropWhile isJsWhitespace).reverse

/-- A field of a form, as the loops of `validateForm` read it: whether it matches
`[required]`, whether it matches `input[type="email"]`, and its value. The
fields of a form are listed in document order; a field is named by its
position in that list. -/
structure Field where
  required : Bool
  isEmail : Bool
  value : String
deriving DecidableEq

/-- The children of an element of the form, in document order. A child is a
field (named by its position in the list of fields), an element of class
`invalid-feedback` with its text, or any other element with its own children.
`Dom.nil` ends the list. The children of the form itself are the whole tree. -/
inductive Dom where
  | nil : Dom
  | input (i : Nat) (rest : Dom) : Dom
  | feedback (text : String) (rest : Dom) : Dom
  | box (children : Dom) (rest : Dom) : Dom
deriving DecidableEq

/-- Whether `querySelector('.invalid-feedback')` on the parent of these children
finds an element: the search covers all descendants. -/
def Dom.hasFeedback : Dom → Bool
  | .nil => false
  | .input _ rest => rest.hasFeedback
  | .feedback _ _ => true
  | .box children rest => children.hasFeedback || rest.hasFeedback

/-- The texts of the `.invalid-feedback` descendants, in document order. -/
def Dom.feedbacks : Dom → List String
  | .nil => []
  | .input _ rest => rest.feedbacks
  | .feedback text rest => text :: rest.feedbacks
  | .box children rest => children.feedbacks ++ rest.feedbacks

/-- Sets `textContent` of the first `.invalid-feedback` descendant in document
order, the one that `querySelector` returns. -/
def Dom.setFirstFeedback (message : String) : Dom → Dom
  | .nil => .nil
  | .input i rest => .input i (rest.setFirstFeedback message)
  | .feedback _ rest => .feedback message rest
  | .box children rest =>
    if children.hasFeedback then .box (children.setFirstFeedback message) rest
    else .box children (rest.setFirstFeedback message)

/-- Removes the first `.invalid-feedback` descendant in document order
(`feedback.remove()` on the element that `querySelector` returns). -/
def Dom.removeFirstFeedback : Dom → Dom
  | .nil => .nil
  | .input i rest => .input i rest.removeFirstFeedback
  | .feedback _ rest => rest
  | .box children rest =>
    if children.hasFeedback then .box children.removeFirstFeedback rest
    else .box children rest.removeFirstFeedback

/-- Implements `appendChild` of a new feedback element: it becomes the last child. -/
def Dom.appendFeedback (message : String) : Dom → Dom
  | .nil => .feedback message .nil
  | .input i rest => .input i (rest.appendFeedback message)
  | .feedback text rest => .feedback text (rest.appendFeedback message)
  | .box children rest => .box children (rest.appendFeedback message)

/-- Lines 228-234 of `showFieldError`, on the children of `field.parentNode`: the
first feedback element among the descendants receives the message; when there
is none, a new one is appended to the parent. -/
def Dom.showFeedback (message : String) (children : Dom) : Dom :=
  if children.hasFeedback then children.setFirstFeedback message
  else children.appendFeedback message

/-- Whether field `i` is one of these children (not a deeper descendant). -/
def Dom.hasInput (i : Nat) : Dom → Bool
  | .nil => false
  | .input j rest => j == i || rest.hasInput i
  | .feedback _ rest => rest.hasInput i
  | .box _ rest => rest.hasInput i

/-- The children of the box of rank `k` among the boxes of this list. -/
def Dom.nthBox : Dom → Nat → Option Dom
  | .nil, _ => none
  | .input _ rest, k => rest.nthBox k
  | .feedback _ rest, k => rest.nthBox k
  | .box children _, 0 => some children
  | .box _ rest, k + 1 => rest.nthBox k

/-- Applies `f` to the children of the box of rank `k`. -/
def Dom.modifyBox (f : Dom → Dom) : Dom → Nat → Dom
  | .nil, _ => .nil
  | .input i rest, k => .input i (rest.modifyBox f k)
  | .feedback text rest, k => .feedback text (rest.modifyBox f k)
  | .box children rest, 0 => .box (f children) rest
  | .box children rest, k + 1 => .box children (rest.modifyBox f k)

/-- The children of the element at `path`: a path names an element by the rank
of the box to enter at each level, from the form down; the empty path is the
form. -/
def Dom.getAt : Dom → List Nat → Option Dom
  | d, [] => some d
  | d, k :: path => (d.nthBox k).bind (fun children => children.getAt path)

/-- Applies `op` to the children of the element at `path`. -/
def Dom.modifyAt (op : Dom → Dom) : Dom → List Nat → Dom
  | d, [] => op d
  | d, k :: path => d.modifyBox (fun children => children.modifyAt op path) k

/-- Searches the boxes of a list, the first of which has rank `k`, for the element
that has field `i` as a child. -/
def Dom.findPath (i : Nat) : Dom → Nat → Option (List Nat)
  | .nil, _ => none
  | .input _ rest, k => rest.findPath i k
  | .feedback _ rest, k => rest.findPath i k
  | .box children rest, k =>
    if children.hasInput i then some [k]
    else
      match children.findPath i 0 with
      | some path => some (k :: path)
      | none => rest.findPath i (k + 1)

/-- The path of `field.parentNode` for field `i`; `none` when the tree does not
hold the field. -/
def Dom.parentPath (d : Dom) (i : Nat) : Option (List Nat) :=
  if d.hasInput i then some [] else d.findPath i 0

/-- Applies `op` to the children of the parent of field `i`. -/
def Dom.atParent (d : Dom) (i : Nat) (op : Dom → Dom) : Dom :=
  match d.parentPath i with
  | some path => d.modifyAt op path
  | none => d

/-- The texts of the feedback elements among the descendants of the parent of
field `i`, in document order: the messages attached next to the field. -/
def Dom.messages (d : Dom) (i : Nat) : List String :=
  match d.parentPath i with
  | some path =>
    match d.getAt path with
    | some children => children.feedbacks
    | none => []
  | none => []

/-- Whether the element at path `p` is the element at path `q` or an ancestor
of it. -/
def isAncestorOrSelf : List Nat → List Nat → Bool
  | [], _ => true
  | _ :: _, [] => false
  | a :: p, b :: q => a == b && isAncestorOrSelf p q

/-- Whether the parents of fields `i` and `j` are different elements of which
neither lies inside the other. It holds as well when one of the fields is not
in the tree. -/
def Dom.apart (d : Dom) (i j : Nat) : Bool :=
  match d.parentPath i, d.parentPath j with
  | some p, some q => !isAncestorOrSelf p q && !isAncestorOrSelf q p
  | _, _ => true

/-- The tree without its feedback elements. -/
def Dom.skeleton : Dom → Dom
  | .nil => .nil
  | .input i rest => .input i rest.skeleton
  | .feedback _ rest => rest.skeleton
  | .box children rest => .box children.skeleton rest.skeleton

/-- The marks that validation leaves on a form: for each field whether it has the
class `is-invalid`, the tree of the form with its feedback elements, and
whether the form has the class `was-validated`. -/
structure FormState where
  invalid : Nat → Bool
  dom : Dom
  wasValidated : Bool

/-- The messages attached next to field `i`. -/
def FormState.messages (st : FormState) (i : Nat) : List String :=
  st.dom.messages i

/-- Implements `showFieldError` (lines 225-235) for the field at position `i`. -/
def showFieldError (st : FormState) (i : Nat) (message : String) : FormState :=
  { st with
    invalid := Function.update st.invalid i true
    dom := st.dom.atParent i (Dom.showFeedback message) }

/-- Implements `clearFieldError` (lines 241-247): the first feedback element
among the descendants of the parent, if any, is removed. -/
def clearFieldError (st : FormState) (i : Nat) : FormState :=
  { st with
    invalid := Function.update st.invalid i false
    dom := st.dom.atParent i Dom.removeFirstFeedback }

/-- The first loop of `validateForm` (lines 197-206), over the fields from
position `i` on; fields that are not required are not in `requiredFields`. -/
def validateRequired : List Field → Nat → FormState → Bool → FormState × Bool
  | [], _, st, isValid => (st, isValid)
  | field :: rest, i, st, isValid =>
    if field.required then
      if jsTrim field.value = "" then
        validateRequired rest (i + 1) (showFieldError st i "Este campo é obrigatório") false
      else
        validateRequired rest (i + 1) (clearFieldError st i) isValid
    else validateRequired rest (i + 1) st isValid

/-- The second loop of `validateForm` (lines 209-215), over the email fields. -/
def validateEmails : List Field → Nat → FormState → Bool → FormState × Bool
  | [], _, st, isValid => (st, isValid)
  | field :: rest, i, st, isValid =>
    if field.isEmail then
      if field.value ≠ "" ∧ isValidEmail field.value = false then
        validateEmails rest (i + 1) (showFieldError st i "Email inválido") false
      else validateEmails rest (i + 1) st isValid
    else validateEmails rest (i + 1) st isValid

/-- Implements `validateForm` (lines 195-218): the result and the marks it leaves. -/
def validateForm (fields : List Field) (st : FormState) : Bool × FormState :=
  let afterRequired := validateRequired fields 0 st true
  let afterEmails := validateEmails fields 0 afterRequired.1 afterRequired.2
  (afterEmails.2, afterEmails.1)

/-- The submit listener of `initializeFormValidations` (lines 179-186): whether
the event was prevented, and the marks on the form. -/
def submitHandler (fields : List Field) (st : FormState) : Bool × FormState :=
  let result := validateForm fields st
  (!result.1, { result.2 with wasValidated := true })

/-- The marks after `passes` validation passes over the same form. -/
def validatePasses (fields : List Field) : Nat → FormState → FormState
  | 0, st => st
  | passes + 1, st => validatePasses fields passes (validateForm fields st).2

/-- A form without marks. -/
def unmarked (dom : Dom) : FormState where
  invalid := fun _ => false
  dom := dom
  wasValidated := false

/-- Two required fields, the first one empty, the second one filled. -/
def twoRequired : List Field :=
  [⟨true, false, ""⟩, ⟨true, false, "Ana"⟩]

/-- Both fields are children of one `div`. -/
def sharedParent : Dom :=
  .box (.input 0 (.input 1 .nil)) .nil

/-- The first field in a `div` of its own, the second a child of the form. -/
def nestedParent : Dom :=
  .box (.input 0 .nil) (.input 1 .nil)

/-- A blank required field next to an optional email field. -/
def signupForm : List Field :=
  [⟨true, false, "  "⟩, ⟨false, true, "ana@example.com"⟩]

/-- Each field in a `div` of its own. -/
def ownParents : Dom :=
  .box (.input 0 .nil) (.box (.input 1 .nil) .nil)

/-! ## File sizes (`static/js/main.js`) -/

/-- The functions of the `Math` object that `formatFileSize` calls and whose
results ECMA-262 leaves implementation-approximated: `Math.log` and `Math.pow`.
The page does not define them; they are parameters of the model. -/
structure MathObject where
  log : JSNumber → JSNumber
  pow : JSNumber → JSNumber → JSNumber

/-- Implements `Math.floor`. -/
def mathFloor : JSNumber → JSNumber
  | .fin q => .fin (⌊q⌋ : ℤ)
  | x => x

/-- The array `sizes` (line 166). -/
def sizes : List String := ["Bytes", "KB", "MB", "GB"]

/-- The text that `' ' + sizes[i]` appends after the space: the element at `i`
when `i` is an index of the array, and `undefined` otherwise. -/
def sizeAt : JSNumber → String
  | .fin q => if q.den = 1 ∧ 0 ≤ q then sizes.getD q.num.toNat "undefined" else "undefined"
  | _ => "undefined"

/-- Implements `Number.prototype.toFixed(2)`. -/
def toFixed2 : JSNumber → String
  | .nan => "NaN"
  | .posInf => "Infinity"
  | .negInf => "-Infinity"
  | .fin q =>
    if 10 ^ 21 ≤ |q| then numberToString (.fin q)
    else
      let n := roundHalfUp |q| 2
      (if q < 0 then "-" else "") ++
        String.mk (natDigits (n / 100) ++ ['.'] ++ fixedDigits 2 n)

/-- The number that a list of decimal digits denotes, after the digits that gave
`value`. -/
def digitsValue (value : Nat) (digits : List Char) : Nat :=
  digits.foldl (fun v c => 10 * v + (c.toNat - '0'.toNat)) value

/-- The exponent part of a decimal literal: `e` or `E`, an optional sign, and
digits; it counts as absent when no digit follows. -/
def exponentValue : List Char → ℤ
  | c :: rest =>
    if c = 'e' ∨ c = 'E' then
      match rest with
      | '-' :: ds => if (ds.takeWhile Char.isDigit) = [] then 0
          else -(digitsValue 0 (ds.takeWhile Char.isDigit) : ℤ)
      | '+' :: ds => (digitsValue 0 (ds.takeWhile Char.isDigit) : ℤ)
      | ds => (digitsValue 0 (ds.takeWhile Char.isDigit) : ℤ)
    else 0
  | [] => 0

/-- Implements `parseFloat`: leading white space is skipped, the longest prefix
that is a decimal literal is read (an optional sign, then `Infinity` or digits
with an optional fraction and an optional exponent), and its value is rounded
to the nearest double; the result is `NaN` when there is no such prefix. (For a
literal of more than 20 significant digits ECMA-262 allows the digits after
the twentieth to be replaced first; the model rounds the exact value.) -/
def parseFloat (s : String) : JSNumber :=
  let trimmed := s.data.dropWhile isJsWhitespace
  let negative := trimmed.head? = some '-'
  let unsigned := if trimmed.head? = some '-' ∨ trimmed.head? = some '+' then trimmed.tail
    else trimmed
  if unsigned.take 8 = "Infinity".data then signedInf negative
  else
    let whole := unsigned.takeWhile Char.isDigit
    let afterWhole := unsigned.dropWhile Char.isDigit
    let fraction := match afterWhole with
      | '.' :: rest => rest.takeWhile Char.isDigit
      | _ => []
    let afterFraction := match afterWhole with
      | '.' :: rest => rest.dropWhile Char.isDigit
      | _ => afterWhole
    if whole = [] ∧ fraction = [] then .nan
    else
      let value : ℚ := (digitsValue 0 (whole ++ fraction) : ℚ) / 10 ^ fraction.length *
        pow10 (exponentValue afterFraction)
      roundToDouble (if negative then -value else value)

/-- Implements `formatFileSize` (lines 162-170). -/
def formatFileSize (math : MathObject) (bytes : JSNumber) : String :=
  if bytes = .fin 0 then "0 Bytes"
  else
    let k := JSNumber.fin 1024
    let i := mathFloor (jsDiv (math.log bytes) (math.log k))
    numberToString (parseFloat (toFixed2 (jsDiv bytes (math.pow k i)))) ++ " " ++ sizeAt i

/-- A stand-in for `Math.log` on the numbers from 1 on: the position of the
leading binary digit, that is, the logarithm to base 2 rounded down. -/
def binaryLog : JSNumber → JSNumber
  | .fin q => if 1 ≤ q then .fin (bitLength ⌊q⌋₊ ⌊q⌋₊ - 1 : ℕ) else .nan
  | x => x

/-- A stand-in for `Math.pow` that is exact for a natural exponent. -/
def exactPow : JSNumber → JSNumber → JSNumber
  | .fin a, .fin e => if e.den = 1 ∧ 0 ≤ e then roundToDouble (a ^ e.num.toNat) else .nan
  | _, _ => .nan

/-- A `Math` object built from the two stand-ins. -/
def sampleMath : MathObject := ⟨binaryLog, exactPow⟩

/-! ## Theorems: surfaces and chart bindings -/

theorem getElementById_eq_none {pg : Page} {canvasId : String}
    (h : ∀ e ∈ pg.elements, e.id ≠ canvasId) : getElementById pg canvasId = none := by
  unfold getElementById
  rw [List.find?_eq_none]
  intro e he
  simpa using h e he

theorem getElementById_isSome {pg : Page} {canvasId : String}
    (h : ∃ e ∈ pg.elements, e.id = canvasId) : ∃ ctx, getElementById pg canvasId = some ctx := by
  obtain ⟨e, he, hid⟩ := h
  cases hf : getElementById pg canvasId with
  | some ctx => exact ⟨ctx, rfl⟩
  | none =>
    unfold getElementById at hf
    rw [List.find?_eq_none] at hf
    have := hf e he
    simp [hid] at this

theorem call_missing (k : Constructor) (pg : Page) (canvasId : String) (data : ChartData)
    (title : String) (h : getElementById pg canvasId = none) :
    k.call canvasId data title pg = (none, consoleError pg (notFoundMessage canvasId)) := by
  cases k <;>
    simp [Constructor.call, createPieChart, createBarChart, createLineChart,
      createDoughnutChart, createDivinopolisComparisonChart, h]

/-- The page after a constructor call on an existing surface. -/
theorem call_existing (k : Constructor) (pg : Page) (canvasId : String) (data : ChartData)
    (title : String) (ctx : Element) (h : getElementById pg canvasId = some ctx) :
    k.call canvasId data title pg =
      (some pg.nextChart,
        { elements := assignChart canvasId (some pg.nextChart) pg.elements
          charts := pg.charts ++ [(pg.nextChart, k.config data title)]
          destroyed := pg.destroyed ++ ctx.chart.toList
          nextChart := pg.nextChart + 1
          console := pg.console }) := by
  cases k <;> cases hc : ctx.chart <;>
    simp [Constructor.call, Constructor.config, createPieChart, createBarChart,
      createLineChart, createDoughnutChart, createDivinopolisComparisonChart, h, hc,
      newChart, setChart, destroyChart]

theorem find?_assignChart (canvasId : String) (c : Option Nat) (es : List Element) :
    (assignChart canvasId c es).find? (fun e => e.id == canvasId) =
      (es.find? (fun e => e.id == canvasId)).map (fun e => { e with chart := c }) := by
  induction es with
  | nil => rfl
  | cons e es ih =>
    by_cases he : e.id = canvasId
    · simp [assignChart, he, List.find?_cons]
    · simp [assignChart, he, List.find?_cons, ih]

/-- C1. For each of the five chart constructors, a call on a surface identifier
that no element of the page carries returns `null` (the model is total, so the
call does not throw), constructs no chart, destroys none and leaves every
element, hence every chart binding, as it was. -/
theorem missing_surface_returns_null (pg : Page) (canvasId : String) (data : ChartData)
    (title : String) (h : ∀ e ∈ pg.elements, e.id ≠ canvasId) :
    ∀ r ∈ [createPieChart canvasId data title pg, createBarChart canvasId data title pg,
        createLineChart canvasId data title pg, createDoughnutChart canvasId data title pg,
        createDivinopolisComparisonChart canvasId data pg],
      r.1 = none ∧ r.2.elements = pg.elements ∧ r.2.charts = pg.charts ∧
        r.2.destroyed = pg.destroyed ∧ r.2.nextChart = pg.nextChart := by
  have hn := getElementById_eq_none h
  intro r hr
  simp only [List.mem_cons, List.mem_singleton, List.not_mem_nil, or_false] at hr
  rcases hr with rfl | rfl | rfl | rfl | rfl <;>
    simp [createPieChart, createBarChart, createLineChart, createDoughnutChart,
      createDivinopolisComparisonChart, hn, consoleError]

theorem missing_surface_returns_null_witness :
    (∀ e ∈ samplePage.elements, e.id ≠ "missingChart") ∧
    ∀ r ∈ [createPieChart "missingChart" {} "" samplePage,
        createBarChart "missingChart" {} "" samplePage,
        createLineChart "missingChart" {} "" samplePage,
        createDoughnutChart "missingChart" {} "" samplePage,
        createDivinopolisComparisonChart "missingChart" {} samplePage],
      r.1 = none ∧ r.2.elements = samplePage.elements ∧ r.2.charts = samplePage.charts ∧
        r.2.destroyed = samplePage.destroyed ∧ r.2.nextChart = samplePage.nextChart :=
  ⟨by decide, missing_surface_returns_null samplePage "missingChart" {} "" (by decide)⟩

/-- C2. On an existing surface of a page whose chart handles are consistent, two
consecutive constructor calls (any two of the five) both return a chart; after
the second call the surface is bound to the chart of the second call, that
chart is live, and the chart of the first call has been destroyed exactly once
and is no longer live. -/
theorem second_construction_replaces_first (k1 k2 : Constructor) (pg : Page)
    (canvasId : String) (d1 d2 : ChartData) (t1 t2 : String)
    (hc : pg.Consistent) (hex : ∃ e ∈ pg.elements, e.id = canvasId) :
    ∃ c1 c2, (k1.call canvasId d1 t1 pg).1 = some c1 ∧
      (k2.call canvasId d2 t2 (k1.call canvasId d1 t1 pg).2).1 = some c2 ∧
      c1 ≠ c2 ∧
      boundChart (k2.call canvasId d2 t2 (k1.call canvasId d1 t1 pg).2).2 canvasId = some c2 ∧
      Live (k2.call canvasId d2 t2 (k1.call canvasId d1 t1 pg).2).2 c2 ∧
      (k2.call canvasId d2 t2 (k1.call canvasId d1 t1 pg).2).2.destroyed.count c1 = 1 ∧
      ¬ Live (k2.call canvasId d2 t2 (k1.call canvasId d1 t1 pg).2).2 c1 := by
  obtain ⟨ctx, hctx⟩ := getElementById_isSome hex
  obtain ⟨hel, hde, _⟩ := hc
  have hmem : ctx ∈ pg.elements := List.mem_of_find?_eq_some hctx
  have hold : ∀ c, ctx.chart = some c → c < pg.nextChart := hel ctx hmem
  rw [call_existing k1 pg canvasId d1 t1 ctx hctx]
  have hctx1 : getElementById
      { elements := assignChart canvasId (some pg.nextChart) pg.elements
        charts := pg.charts ++ [(pg.nextChart, k1.config d1 t1)]
        destroyed := pg.destroyed ++ ctx.chart.toList
        nextChart := pg.nextChart + 1
        console := pg.console } canvasId = some { ctx with chart := some pg.nextChart } := by
    unfold getElementById at hctx ⊢
    simp only [find?_assignChart, hctx, Option.map_some']
  rw [call_existing k2 _ canvasId d2 t2 _ hctx1]
  refine ⟨pg.nextChart, pg.nextChart + 1, rfl, rfl, by omega, ?_, ?_, ?_, ?_⟩
  · simp only [boundChart, getElementById, find?_assignChart]
    unfold getElementById at hctx
    simp [hctx]
  · constructor
    · simp
    · simp only [Option.toList_some, List.mem_append, List.mem_singleton, not_or]
      refine ⟨⟨fun hm => ?_, fun hm => ?_⟩, by omega⟩
      · have := hde _ hm
        omega
      · cases hch : ctx.chart with
        | none => simp [hch] at hm
        | some c =>
          have := hold c hch
          simp [hch] at hm
          omega
  · have h1 : pg.destroyed.count pg.nextChart = 0 := by
      rw [List.count_eq_zero]
      intro hm
      have := hde _ hm
      omega
    have h2 : ctx.chart.toList.count pg.nextChart = 0 := by
      rw [List.count_eq_zero]
      intro hm
      cases hch : ctx.chart with
      | none => simp [hch] at hm
      | some c =>
        have := hold c hch
        simp [hch] at hm
        omega
    simp [List.count_append, h1, h2]
  · intro hl
    exact hl.2 (by simp)

theorem second_construction_replaces_first_witness :
    samplePage.Consistent ∧ (∃ e ∈ samplePage.elements, e.id = "revenueChart") ∧
    ∃ c1 c2, (Constructor.pie.call "revenueChart" {} "a" samplePage).1 = some c1 ∧
      (Constructor.line.call "revenueChart" {} "b"
        (Constructor.pie.call "revenueChart" {} "a" samplePage).2).1 = some c2 ∧
      c1 ≠ c2 ∧
      boundChart (Constructor.line.call "revenueChart" {} "b"
        (Constructor.pie.call "revenueChart" {} "a" samplePage).2).2 "revenueChart" = some c2 ∧
      Live (Constructor.line.call "revenueChart" {} "b"
        (Constructor.pie.call "revenueChart" {} "a" samplePage).2).2 c2 ∧
      (Constructor.line.call "revenueChart" {} "b"
        (Constructor.pie.call "revenueChart" {} "a" samplePage).2).2.destroyed.count c1 = 1 ∧
      ¬ Live (Constructor.line.call "revenueChart" {} "b"
        (Constructor.pie.call "revenueChart" {} "a" samplePage).2).2 c1 :=
  have hc : samplePage.Consistent := by
    refine ⟨?_, ?_, ?_⟩ <;> simp [samplePage]
  have hex : ∃ e ∈ samplePage.elements, e.id = "revenueChart" :=
    ⟨⟨"revenueChart", true, some 0⟩, by simp [samplePage], rfl⟩
  ⟨hc, hex, second_construction_replaces_first .pie .line samplePage "revenueChart" {} {}
    "a" "b" hc hex⟩

/-! ## Theorems: palette -/

theorem foldl_generateColorsStep (l : List Nat) (acc : ColorSets) :
    l.foldl generateColorsStep acc =
      { colors := acc.colors ++ l.map colorAt
        backgrounds := acc.backgrounds ++ l.map backgroundAt
        borders := acc.borders ++ l.map borderAt } := by
  induction l generalizing acc with
  | nil => simp
  | cons i l ih =>
    rw [List.foldl_cons, ih]
    by_cases h : i < 10
    · simp [generateColorsStep, colorAt, backgroundAt, borderAt, chartColors, h]
    · simp [generateColorsStep, colorAt, backgroundAt, borderAt, chartColors, h]

theorem generateColors_eq (count : Nat) :
    generateColors count =
      { colors := (List.range count).map colorAt
        backgrounds := (List.range count).map backgroundAt
        borders := (List.range count).map borderAt } := by
  simp [generateColors, foldl_generateColorsStep]

theorem take_background (n : Nat) :
    chartColors.background.take n = (List.range (min n 10)).map backgroundAt := by
  have h : chartColors.background.take n = chartColors.background.take (min n 10) := by
    rcases Nat.lt_or_ge n 10 with h | h
    · rw [Nat.min_eq_left (Nat.le_of_lt h)]
    · rw [Nat.min_eq_right h, List.take_of_length_le (by simpa [chartColors] using h)]
      rfl
  rw [h]
  have hm : min n 10 ≤ 10 := Nat.min_le_right _ _
  generalize min n 10 = m at hm
  interval_cases m <;> rfl

theorem take_border (n : Nat) :
    chartColors.border.take n = (List.range (min n 10)).map borderAt := by
  have h : chartColors.border.take n = chartColors.border.take (min n 10) := by
    rcases Nat.lt_or_ge n 10 with h | h
    · rw [Nat.min_eq_left (Nat.le_of_lt h)]
    · rw [Nat.min_eq_right h, List.take_of_length_le (by simpa [chartColors] using h)]
      rfl
  rw [h]
  have hm : min n 10 ≤ 10 := Nat.min_le_right _ _
  generalize min n 10 = m at hm
  interval_cases m <;> rfl

/-- C4, as stated, fails: a pie request with eleven labels gets ten fill colours,
while `generateColors(11)` has eleven backgrounds. -/
theorem pie_colors_not_generated :
    (pieConfig elevenSlices "").datasets.map (fun d => d.backgroundColor) ≠
      [.perIndex (generateColors 11).backgrounds] := by
  intro h
  have h1 : chartColors.background.take 11 = (generateColors 11).backgrounds := by
    simpa [pieConfig, elevenSlices] using h
  have h2 := congrArg List.length h1
  rw [generateColors_eq] at h2
  simp [chartColors] at h2

/-- C4, amended. For every pie or doughnut request with `n` labels the single
dataset has as fill and border colours the fixed ten-entry palette truncated to
`n` entries, which is `generateColors(min(n, 10))`: the palette assignment for
`n` itself when `n ≤ 10`, and only its first ten entries when `n > 10`. -/
theorem pie_doughnut_colors_truncated_palette (data : ChartData) (title : String) :
    (pieConfig data title).datasets.map (fun d => (d.backgroundColor, d.borderColor)) =
      [(.perIndex (generateColors (min (data.labels.getD []).length 10)).backgrounds,
        .perIndex (generateColors (min (data.labels.getD []).length 10)).borders)] ∧
    (doughnutConfig data title).datasets.map (fun d => (d.backgroundColor, d.borderColor)) =
      [(.perIndex (generateColors (min (data.labels.getD []).length 10)).backgrounds,
        .perIndex (generateColors (min (data.labels.getD []).length 10)).borders)] ∧
    (generateColors (min (data.labels.getD []).length 10)).backgrounds =
      (generateColors (data.labels.getD []).length).backgrounds.take 10 ∧
    (generateColors (min (data.labels.getD []).length 10)).borders =
      (generateColors (data.labels.getD []).length).borders.take 10 := by
  refine ⟨?_, ?_, ?_, ?_⟩
  · simp [pieConfig, generateColors_eq, take_background, take_border]
  · simp [doughnutConfig, generateColors_eq, take_background, take_border]
  · simp only [generateColors_eq, ← List.map_take, List.take_range]
    rw [Nat.min_comm]
  · simp only [generateColors_eq, ← List.map_take, List.take_range]
    rw [Nat.min_comm]

/-- C5. For every count above ten and every index `i` with `10 ≤ i < count`,
`generateColors(count)` has at index `i` the colour whose hue is the double
`(i * 137.508) % 360`, printed as JavaScript prints a Number: `colors[i]` and
`borders[i]` are `hsl(<hue>, 70%, 50%)` and `backgrounds[i]` is
`hsla(<hue>, 70%, 50%, 0.1)`. -/
theorem generateColors_golden_angle (count i : Nat) (hcount : 10 < count) (hlo : 10 ≤ i)
    (hhi : i < count) :
    (generateColors count).colors[i]? =
      some ("hsl(" ++ numberToString (jsMod (jsMul (.fin i) goldenAngle) (.fin 360)) ++
        ", 70%, 50%)") ∧
    (generateColors count).borders[i]? =
      some ("hsl(" ++ numberToString (jsMod (jsMul (.fin i) goldenAngle) (.fin 360)) ++
        ", 70%, 50%)") ∧
    (generateColors count).backgrounds[i]? =
      some ("hsla(" ++ numberToString (jsMod (jsMul (.fin i) goldenAngle) (.fin 360)) ++
        ", 70%, 50%, 0.1)") := by
  have hi : ¬ i < 10 := by omega
  have _ := hcount
  simp [generateColors_eq, List.getElem?_range hhi, colorAt, borderAt, backgroundAt, hi, hue]

theorem generateColors_golden_angle_witness :
    10 < 12 ∧ 10 ≤ 11 ∧ 11 < 12 ∧
    (generateColors 12).colors[11]? =
      some ("hsl(" ++ numberToString (jsMod (jsMul (.fin (11 : ℕ)) goldenAngle) (.fin 360)) ++
        ", 70%, 50%)") ∧
    (generateColors 12).borders[11]? =
      some ("hsl(" ++ numberToString (jsMod (jsMul (.fin (11 : ℕ)) goldenAngle) (.fin 360)) ++
        ", 70%, 50%)") ∧
    (generateColors 12).backgrounds[11]? =
      some ("hsla(" ++ numberToString (jsMod (jsMul (.fin (11 : ℕ)) goldenAngle) (.fin 360)) ++
        ", 70%, 50%, 0.1)") :=
  ⟨by decide, by decide, by decide,
    generateColors_golden_angle 12 11 (by decide) (by decide) (by decide)⟩

/-- The first generated colour: at index 10 the double `(10 * 137.508) % 360`
prints as `295.08000000000015`. -/
theorem generateColors_eleventh_color :
    (generateColors 11).colors[10]? = some "hsl(295.08000000000015, 70%, 50%)" := by
  decide!

/-- C6. `generateColors` is deterministic: its three sequences are the images of
`0, ..., count - 1` under fixed functions of the index, so the result depends
on `count` alone and two calls with the same count return identical colours,
backgrounds and borders. -/
theorem generateColors_deterministic (count : Nat) :
    generateColors count =
      { colors := (List.range count).map colorAt
        backgrounds := (List.range count).map backgroundAt
        borders := (List.range count).map borderAt } ∧
    ∀ again : Nat, again = count →
      (generateColors again).colors = (generateColors count).colors ∧
      (generateColors again).backgrounds = (generateColors count).backgrounds ∧
      (generateColors again).borders = (generateColors count).borders := by
  refine ⟨generateColors_eq count, ?_⟩
  rintro again rfl
  exact ⟨rfl, rfl, rfl⟩

/-! ## Theorems: the comparison chart -/

theorem getElem?_mapWithIndex {α β : Type} (f : α → Nat → β) (l : List α) (start i : Nat) :
    (mapWithIndex f l start)[i]? = l[i]?.map (fun x => f x (start + i)) := by
  induction l generalizing start i with
  | nil => simp [mapWithIndex]
  | cons x xs ih =>
    cases i with
    | zero => simp [mapWithIndex]
    | succ i =>
      simp only [mapWithIndex, List.getElem?_cons_succ, ih]
      congr 1
      funext y
      congr 1
      omega

theorem length_mapWithIndex {α β : Type} (f : α → Nat → β) (l : List α) (start : Nat) :
    (mapWithIndex f l start).length = l.length := by
  induction l generalizing start with
  | nil => rfl
  | cons x xs ih => simp [mapWithIndex, ih]

/-- C7, as stated, fails: when the formatted string supplied for index 0 is the
empty string, the tooltip of slice 0 shows the computed currency text and not
that string. -/
theorem comparison_empty_string_not_verbatim :
    (emptyFormatted.formatted_data.getD [])[0]? = some (some "") ∧
    comparisonTooltipLabel emptyFormatted (some "Divinópolis") 0 (.fin 10) =
      "Divinópolis: R$\xa010,00" ∧
    comparisonTooltipLabel emptyFormatted (some "Divinópolis") 0 (.fin 10) ≠
      "Divinópolis: " ++ "" := by
  refine ⟨by decide, by decide!, by decide!⟩

/-- C7, amended. For every comparison-chart request and every index `i`: when
`formatted_data[i]` is a non-empty string `s`, the tooltip text of slice `i` is
`<label>: s` and the legend item `i` gets the text `<its text>: s`; when
`formatted_data[i]` is missing or empty, the tooltip text is `<label>: ` followed
by the computed currency format of the value, and the legend item is left as it
was. The legend keeps one item per original item. -/
theorem comparison_formatted_override (data : ChartData) (label : Option String) (i : Nat)
    (parsed : JSNumber) (originalLabels : List LegendItem) :
    (∀ s, (data.formatted_data.getD [])[i]? = some (some s) → s ≠ "" →
      comparisonTooltipLabel data label i parsed = orEmpty label ++ ": " ++ s ∧
      (comparisonGenerateLabels data originalLabels)[i]? =
        originalLabels[i]?.map
          (fun item => { item with text := some (templateText item.text ++ ": " ++ s) })) ∧
    (((data.formatted_data.getD [])[i]?.join = none ∨
        (data.formatted_data.getD [])[i]? = some (some "")) →
      comparisonTooltipLabel data label i parsed =
        orEmpty label ++ ": " ++ formatCurrency parsed ∧
      (comparisonGenerateLabels data originalLabels)[i]? = originalLabels[i]?) ∧
    (comparisonGenerateLabels data originalLabels).length = originalLabels.length := by
  refine ⟨?_, ?_, length_mapWithIndex _ _ _⟩
  · intro s hs hne
    have hf : formattedAt data i = some s := by
      simp [formattedAt, hs, truthyString, hne]
    constructor
    · simp [comparisonTooltipLabel, hf]
    · simp [comparisonGenerateLabels, getElem?_mapWithIndex, hf]
  · intro h
    have hf : formattedAt data i = none := by
      rcases h with h | h
      · simp only [formattedAt, List.get?_eq_getElem?, h]
      · simp [formattedAt, h, truthyString]
    constructor
    · simp [comparisonTooltipLabel, hf]
    · simp [comparisonGenerateLabels, getElem?_mapWithIndex, hf]

theorem comparison_formatted_override_witness :
    comparisonTooltipLabel bothFormatted (some "Divinópolis") 0 (.fin 10000) =
      "Divinópolis: R$ 10.000,00" ∧
    (comparisonGenerateLabels bothFormatted [⟨some "Divinópolis", 0⟩, ⟨some "BH/Contagem", 0⟩])[1]? =
      some ⟨some "BH/Contagem: R$ 5.000,00", 0⟩ ∧
    comparisonTooltipLabel emptyFormatted (some "Divinópolis") 0 (.fin 10) =
      "Divinópolis: " ++ formatCurrency (.fin 10) :=
  ⟨((comparison_formatted_override bothFormatted (some "Divinópolis") 0 (.fin 10000) []).1
      "R$ 10.000,00" (by decide) (by decide)).1,
    ((comparison_formatted_override bothFormatted none 1 (.fin 5000)
      [⟨some "Divinópolis", 0⟩, ⟨some "BH/Contagem", 0⟩]).1
      "R$ 5.000,00" (by decide) (by decide)).2,
    ((comparison_formatted_override emptyFormatted (some "Divinópolis") 0 (.fin 10) []).2.1
      (Or.inr (by decide))).1⟩

/-! ## Theorems: number formatting -/

theorem length_flatten_of_three (rest : List (List Char)) (h : ∀ g ∈ rest, g.length = 3) :
    rest.flatten.length = 3 * rest.length := by
  induction rest with
  | nil => rfl
  | cons g gs ih =>
    have hg := h g (List.mem_cons_self _ _)
    have := ih (fun x hx => h x (List.mem_cons_of_mem _ hx))
    simp only [List.flatten_cons, List.length_append, List.length_cons, hg, this]
    omega

theorem groupedInThrees_groupDigits (digits : List Char) :
    GroupedInThrees (groupDigits digits) digits := by
  induction digits with
  | nil => exact ⟨[], [], rfl, rfl, by simp, by simp, by simp⟩
  | cons c cs ih =>
    obtain ⟨first, rest, hd, hs, hlen, hne, hrest⟩ := ih
    have hlenEq : cs.length = first.length + 3 * rest.length := by
      rw [hd, List.length_append, length_flatten_of_three rest hrest]
    by_cases hc : cs.length % 3 = 0 ∧ cs ≠ []
    · have h1 := hne hc.2
      have h3 : first.length = 3 := by omega
      refine ⟨[c], first :: rest, ?_, ?_, by simp, by simp, ?_⟩
      · simp [hd]
      · simp [groupDigits, hc, hs]
      · intro g hg
        rcases List.mem_cons.1 hg with rfl | hg
        · exact h3
        · exact hrest g hg
    · have h2 : first.length ≤ 2 := by
        by_contra hcon
        have h3 : first.length = 3 := by omega
        apply hc
        refine ⟨by omega, ?_⟩
        intro hnil
        rw [hnil] at hlenEq
        simp at hlenEq
        omega
      refine ⟨c :: first, rest, ?_, ?_, by simp; omega, by simp, hrest⟩
      · simp [hd]
      · simp [groupDigits, hc, hs]

theorem length_fixedDigits (k f : Nat) : (fixedDigits k f).length = k := by
  induction k generalizing f with
  | zero => rfl
  | succ k ih => simp [fixedDigits, ih]

theorem digitChar_eq_zero {d : Nat} (hd : d < 10) : Nat.digitChar d = '0' ↔ d = 0 := by
  interval_cases d <;> decide

theorem stripTrailingZeros_two_two (n : Nat) :
    stripTrailingZeros 2 (fixedDigits 2 n) = [Nat.digitChar (n / 10 % 10), Nat.digitChar (n % 10)] := by
  simp [stripTrailingZeros, fixedDigits, dropZeros]

theorem stripTrailingZeros_two_three (n : Nat) :
    stripTrailingZeros 2 (fixedDigits 3 n) =
      if n % 10 = 0 then [Nat.digitChar (n / 100 % 10), Nat.digitChar (n / 10 % 10)]
      else [Nat.digitChar (n / 100 % 10), Nat.digitChar (n / 10 % 10), Nat.digitChar (n % 10)] := by
  have h10 : n % 10 < 10 := Nat.mod_lt _ (by decide)
  have e1 : n / 10 / 10 = n / 100 := by omega
  have z : Nat.digitChar 0 = '0' := rfl
  by_cases h : n % 10 = 0
  · simp [stripTrailingZeros, fixedDigits, dropZeros, h, e1, z]
  · have hc : Nat.digitChar (n % 10) ≠ '0' := fun hc => h ((digitChar_eq_zero h10).1 hc)
    simp [stripTrailingZeros, fixedDigits, dropZeros, h, hc, e1, z]

theorem stripTrailingZeros_zero_three (n : Nat) :
    stripTrailingZeros 0 (fixedDigits 3 n) =
      if n % 1000 = 0 then []
      else if n % 100 = 0 then [Nat.digitChar (n / 100 % 10)]
      else if n % 10 = 0 then [Nat.digitChar (n / 100 % 10), Nat.digitChar (n / 10 % 10)]
      else [Nat.digitChar (n / 100 % 10), Nat.digitChar (n / 10 % 10), Nat.digitChar (n % 10)] := by
  have h10 : n % 10 < 10 := Nat.mod_lt _ (by decide)
  have h100 : n / 10 % 10 < 10 := Nat.mod_lt _ (by decide)
  have h1000 : n / 100 % 10 < 10 := Nat.mod_lt _ (by decide)
  have e1 : n / 10 / 10 = n / 100 := by omega
  have z : Nat.digitChar 0 = '0' := rfl
  by_cases h : n % 10 = 0
  · by_cases h' : n / 10 % 10 = 0
    · by_cases h'' : n / 100 % 10 = 0
      · have : n % 1000 = 0 := by omega
        simp [stripTrailingZeros, fixedDigits, dropZeros, h, h', h'', e1, this, z]
      · have n1 : ¬ n % 1000 = 0 := by omega
        have n2 : n % 100 = 0 := by omega
        have hc : Nat.digitChar (n / 100 % 10) ≠ '0' := fun hc => h'' ((digitChar_eq_zero h1000).1 hc)
        simp [stripTrailingZeros, fixedDigits, dropZeros, h, h', hc, e1, n1, n2, z]
    · have n1 : ¬ n % 1000 = 0 := by omega
      have n2 : ¬ n % 100 = 0 := by omega
      have hc : Nat.digitChar (n / 10 % 10) ≠ '0' := fun hc => h' ((digitChar_eq_zero h100).1 hc)
      simp [stripTrailingZeros, fixedDigits, dropZeros, h, hc, e1, n1, n2, z]
  · have n1 : ¬ n % 1000 = 0 := by omega
    have n2 : ¬ n % 100 = 0 := by omega
    have hc : Nat.digitChar (n % 10) ≠ '0' := fun hc => h ((digitChar_eq_zero h10).1 hc)
    simp [stripTrailingZeros, fixedDigits, dropZeros, h, hc, e1, n1, n2, z]

theorem formatDecimalPtBR_two_two (a : ℚ) :
    formatDecimalPtBR 2 2 a =
      groupThousands (⌊a * 100 + 1 / 2⌋₊ / 100) ++
        [',', Nat.digitChar (⌊a * 100 + 1 / 2⌋₊ / 10 % 10),
          Nat.digitChar (⌊a * 100 + 1 / 2⌋₊ % 10)] := by
  have h : (10 : ℚ) ^ 2 = 100 := by norm_num
  simp only [formatDecimalPtBR, roundHalfUp, stripTrailingZeros_two_two, h]
  simp

theorem formatDecimalPtBR_two_three (a : ℚ) :
    formatDecimalPtBR 2 3 a =
      groupThousands (⌊a * 1000 + 1 / 2⌋₊ / 1000) ++
        (if ⌊a * 1000 + 1 / 2⌋₊ % 10 = 0 then
          [',', Nat.digitChar (⌊a * 1000 + 1 / 2⌋₊ / 100 % 10),
            Nat.digitChar (⌊a * 1000 + 1 / 2⌋₊ / 10 % 10)]
        else
          [',', Nat.digitChar (⌊a * 1000 + 1 / 2⌋₊ / 100 % 10),
            Nat.digitChar (⌊a * 1000 + 1 / 2⌋₊ / 10 % 10),
            Nat.digitChar (⌊a * 1000 + 1 / 2⌋₊ % 10)]) := by
  have h : (10 : ℚ) ^ 3 = 1000 := by norm_num
  simp only [formatDecimalPtBR, roundHalfUp, stripTrailingZeros_two_three, h]
  split <;> simp

theorem formatDecimalPtBR_zero_three (a : ℚ) :
    formatDecimalPtBR 0 3 a =
      groupThousands (⌊a * 1000 + 1 / 2⌋₊ / 1000) ++
        (if ⌊a * 1000 + 1 / 2⌋₊ % 1000 = 0 then []
        else if ⌊a * 1000 + 1 / 2⌋₊ % 100 = 0 then
          [',', Nat.digitChar (⌊a * 1000 + 1 / 2⌋₊ / 100 % 10)]
        else if ⌊a * 1000 + 1 / 2⌋₊ % 10 = 0 then
          [',', Nat.digitChar (⌊a * 1000 + 1 / 2⌋₊ / 100 % 10),
            Nat.digitChar (⌊a * 1000 + 1 / 2⌋₊ / 10 % 10)]
        else
          [',', Nat.digitChar (⌊a * 1000 + 1 / 2⌋₊ / 100 % 10),
            Nat.digitChar (⌊a * 1000 + 1 / 2⌋₊ / 10 % 10),
            Nat.digitChar (⌊a * 1000 + 1 / 2⌋₊ % 10)]) := by
  have h : (10 : ℚ) ^ 3 = 1000 := by norm_num
  simp only [formatDecimalPtBR, roundHalfUp, stripTrailingZeros_zero_three, h]
  split
  · simp
  · split
    · simp
    · split <;> simp

theorem floor_thousandths_of_near_cents (q : ℚ) (c : ℕ) (h : |q - c / 100| < 1 / 2000) :
    ⌊q * 1000 + 1 / 2⌋₊ = 10 * c := by
  rw [abs_lt] at h
  obtain ⟨h1, h2⟩ := h
  rw [Nat.floor_eq_iff (by linarith [show (0 : ℚ) ≤ c from Nat.cast_nonneg c])]
  push_cast
  constructor <;> linarith

/-- C8, as stated, fails: the tooltip value text of the bar and line charts shows
three decimal places for 1234.125. -/
theorem tooltip_value_three_decimals :
    barTooltipLabel "Jan" (.fin 1234.125) = "Jan: R$ 1.234,125" ∧
    lineTooltipLabel "Vendas" (.fin 1234.125) = "Vendas: R$ 1.234,125" := by
  constructor <;> decide!

/-- C8, amended. For every non-negative value `q`: `formatCurrency` renders `R$`, a
no-break space, the integer part grouped in threes with full stops, a comma and
exactly two decimal digits of `q` rounded to hundredths; the value text of the
bar, line, pie and doughnut tooltips is `R$ ` followed by the grouped integer
part, a comma and the decimals of `q` rounded to thousandths, two digits when
the thousandths digit is zero and three otherwise; it has exactly two decimals
whenever `q` is within half a thousandth of a whole number of cents. -/
theorem currency_text_decimals (q : ℚ) (hq : 0 ≤ q) :
    formatCurrency (.fin q) =
      "R$\xa0" ++ String.mk (groupThousands (⌊q * 100 + 1 / 2⌋₊ / 100) ++
        [',', Nat.digitChar (⌊q * 100 + 1 / 2⌋₊ / 10 % 10),
          Nat.digitChar (⌊q * 100 + 1 / 2⌋₊ % 10)]) ∧
    toLocaleStringPtBR 2 (orZero (.fin q)) =
      String.mk (groupThousands (⌊q * 1000 + 1 / 2⌋₊ / 1000) ++
        (if ⌊q * 1000 + 1 / 2⌋₊ % 10 = 0 then
          [',', Nat.digitChar (⌊q * 1000 + 1 / 2⌋₊ / 100 % 10),
            Nat.digitChar (⌊q * 1000 + 1 / 2⌋₊ / 10 % 10)]
        else
          [',', Nat.digitChar (⌊q * 1000 + 1 / 2⌋₊ / 100 % 10),
            Nat.digitChar (⌊q * 1000 + 1 / 2⌋₊ / 10 % 10),
            Nat.digitChar (⌊q * 1000 + 1 / 2⌋₊ % 10)])) ∧
    (∀ c : ℕ, |q - c / 100| < 1 / 2000 →
      toLocaleStringPtBR 2 (orZero (.fin q)) =
        String.mk (groupThousands (c / 100) ++
          [',', Nat.digitChar (c / 10 % 10), Nat.digitChar (c % 10)])) ∧
    (∀ n : ℕ, GroupedInThrees (groupThousands n) (natDigits n)) ∧
    (∀ label : String, barTooltipLabel label (.fin q) =
      label ++ ": R$ " ++ toLocaleStringPtBR 2 (orZero (.fin q))) ∧
    (∀ label : String, lineTooltipLabel label (.fin q) =
      label ++ ": R$ " ++ toLocaleStringPtBR 2 (orZero (.fin q))) ∧
    (∀ (label : Option String) (data : List JSNumber),
      pieTooltipLabel label (.fin q) data =
        orEmpty label ++ ": R$ " ++ toLocaleStringPtBR 2 (orZero (.fin q)) ++
          " (" ++ toFixed1 (slicePercentage (.fin q) data) ++ "%)" ∧
      doughnutTooltipLabel label (.fin q) data =
        orEmpty label ++ ": R$ " ++ toLocaleStringPtBR 2 (orZero (.fin q)) ++
          " (" ++ toFixed1 (slicePercentage (.fin q) data) ++ "%)") := by
  have hneg : ¬ q < 0 := not_lt.2 hq
  have habs : |q| = q := abs_of_nonneg hq
  have hloc : toLocaleStringPtBR 2 (orZero (.fin q)) =
      String.mk (formatDecimalPtBR 2 3 q) := by
    simp only [toLocaleStringPtBR, orZero, hneg, if_false, habs]
    rfl
  refine ⟨?_, ?_, ?_, fun n => groupedInThrees_groupDigits _, fun _ => rfl, fun _ => rfl,
    fun _ _ => ⟨rfl, rfl⟩⟩
  · simp only [formatCurrency, hneg, if_false, habs, formatDecimalPtBR_two_two]
    rfl
  · rw [hloc, formatDecimalPtBR_two_three]
  · intro c hc
    rw [hloc, formatDecimalPtBR_two_three, floor_thousandths_of_near_cents q c hc]
    have e1 : 10 * c % 10 = 0 := by omega
    have e2 : 10 * c / 1000 = c / 100 := by omega
    have e3 : 10 * c / 100 % 10 = c / 10 % 10 := by omega
    have e4 : 10 * c / 10 % 10 = c % 10 := by omega
    simp only [e1, e2, e3, e4, if_true]

theorem currency_text_decimals_witness :
    (0 : ℚ) ≤ 1234.5 ∧
    formatCurrency (.fin 1234.5) = "R$\xa01.234,50" ∧
    barTooltipLabel "Jan" (.fin 1234.5) = "Jan: R$ 1.234,50" ∧
    toLocaleStringPtBR 2 (orZero (.fin 1234.5)) =
      String.mk (groupThousands (123450 / 100) ++
        [',', Nat.digitChar (123450 / 10 % 10), Nat.digitChar (123450 % 10)]) :=
  ⟨by norm_num, by decide!, by decide!,
    (currency_text_decimals 1234.5 (by norm_num)).2.2.1 123450 (by norm_num)⟩

/-- C9, as stated, fails: the tick formatter renders 1234.5 with its decimal,
not rounded to an integer. -/
theorem tick_keeps_decimals :
    barTickLabel (.fin 1234.5) = "R$ 1.234,5" ∧ lineTickLabel (.fin 1234.5) = "R$ 1.234,5" ∧
    barTickLabel (.fin 1234.5) ≠ "R$ 1.235" := by
  refine ⟨by decide!, by decide!, by decide!⟩

/-- C9, amended. For every finite tick value `q` the tick formatter of the bar and
line charts renders `R$ `, a minus sign when `q` is negative, the integer part
of `|q|` rounded to thousandths grouped in threes with full stops and, unless
the rounded value is an integer, a comma and its one to three decimals without
trailing zeros; an integer tick value is rendered without decimal places. -/
theorem tick_text (q : ℚ) :
    barTickLabel (.fin q) =
      "R$ " ++ ((if q < 0 then "-" else "") ++
        String.mk (groupThousands (⌊|q| * 1000 + 1 / 2⌋₊ / 1000) ++
        (if ⌊|q| * 1000 + 1 / 2⌋₊ % 1000 = 0 then []
        else if ⌊|q| * 1000 + 1 / 2⌋₊ % 100 = 0 then
          [',', Nat.digitChar (⌊|q| * 1000 + 1 / 2⌋₊ / 100 % 10)]
        else if ⌊|q| * 1000 + 1 / 2⌋₊ % 10 = 0 then
          [',', Nat.digitChar (⌊|q| * 1000 + 1 / 2⌋₊ / 100 % 10),
            Nat.digitChar (⌊|q| * 1000 + 1 / 2⌋₊ / 10 % 10)]
        else
          [',', Nat.digitChar (⌊|q| * 1000 + 1 / 2⌋₊ / 100 % 10),
            Nat.digitChar (⌊|q| * 1000 + 1 / 2⌋₊ / 10 % 10),
            Nat.digitChar (⌊|q| * 1000 + 1 / 2⌋₊ % 10)]))) ∧
    lineTickLabel (.fin q) = barTickLabel (.fin q) ∧
    (∀ n : ℕ, GroupedInThrees (groupThousands n) (natDigits n)) ∧
    (∀ m : ℕ, barTickLabel (.fin m) = "R$ " ++ String.mk (groupThousands m) ∧
      lineTickLabel (.fin m) = "R$ " ++ String.mk (groupThousands m)) := by
  have hloc : ∀ x : ℚ, toLocaleStringPtBR 0 (.fin x) =
      (if x < 0 then "-" else "") ++ String.mk (formatDecimalPtBR 0 3 |x|) := fun _ => rfl
  refine ⟨?_, rfl, fun n => groupedInThrees_groupDigits _, ?_⟩
  · simp only [barTickLabel, hloc, formatDecimalPtBR_zero_three]
  · intro m
    have hm : ¬ ((m : ℚ) < 0) := not_lt.2 (Nat.cast_nonneg m)
    have hfl : ⌊|(m : ℚ)| * 1000 + 1 / 2⌋₊ = 1000 * m := by
      rw [abs_of_nonneg (Nat.cast_nonneg m), Nat.floor_eq_iff (by positivity)]
      push_cast
      constructor <;> linarith
    have e1 : 1000 * m % 1000 = 0 := by omega
    have e2 : 1000 * m / 1000 = m := by omega
    simp only [barTickLabel, lineTickLabel, hloc, formatDecimalPtBR_zero_three, hfl, e1, e2,
      hm, if_true, if_false, List.append_nil]
    exact ⟨rfl, rfl⟩

/-! ## Theorems: percentages -/

theorem roundToDouble_zero : roundToDouble 0 = .fin 0 := by
  simp [roundToDouble]

theorem datasetTotal_zeros (data : List JSNumber) (h : ∀ v ∈ data, v = .fin 0) :
    datasetTotal data = .fin 0 := by
  unfold datasetTotal
  induction data with
  | nil => rfl
  | cons v vs ih =>
    have hv : v = .fin 0 := h v (List.mem_cons_self _ _)
    have hvs : ∀ w ∈ vs, w = .fin 0 := fun w hw => h w (List.mem_cons_of_mem _ hw)
    subst hv
    have hadd : jsAdd (.fin 0) (.fin 0) = .fin 0 := by
      simp [jsAdd, roundToDouble_zero]
    rw [List.foldl_cons, hadd]
    exact ih hvs

/-- C10. For a pie or doughnut dataset all of whose values are zero, the tooltip
label of every slice is computed to the end: the total is zero, the percentage
`(value / total) * 100` is `NaN`, never a finite number, `toFixed(1)` renders
it as the text `NaN`, and the label is `<label>: R$ 0,00 (NaN%)`. -/
theorem zero_total_percentage_is_nan (data : List JSNumber) (label : Option String)
    (parsed : JSNumber) (hzero : ∀ v ∈ data, v = .fin 0) (hparsed : parsed ∈ data) :
    datasetTotal data = .fin 0 ∧
    slicePercentage parsed data = .nan ∧
    (∀ p : ℚ, slicePercentage parsed data ≠ .fin p) ∧
    toFixed1 (slicePercentage parsed data) = "NaN" ∧
    pieTooltipLabel label parsed data = orEmpty label ++ ": R$ 0,00 (NaN%)" ∧
    doughnutTooltipLabel label parsed data = orEmpty label ++ ": R$ 0,00 (NaN%)" := by
  have ht := datasetTotal_zeros data hzero
  have hp : parsed = .fin 0 := hzero parsed hparsed
  subst hp
  have hs : slicePercentage (.fin 0) data = .nan := by
    simp [slicePercentage, ht, orZero, jsDiv, jsMul]
  have hv : toLocaleStringPtBR 2 (orZero (.fin 0)) = "0,00" := by decide!
  refine ⟨ht, hs, ?_, ?_, ?_, ?_⟩
  · intro p hpe
    rw [hs] at hpe
    exact JSNumber.noConfusion hpe
  · rw [hs]
    rfl
  · simp only [pieTooltipLabel, hs, hv, String.append_assoc]
    exact congrArg (fun t => orEmpty label ++ t) (by decide)
  · simp only [doughnutTooltipLabel, hs, hv, String.append_assoc]
    exact congrArg (fun t => orEmpty label ++ t) (by decide)

theorem zero_total_percentage_is_nan_witness :
    (∀ v ∈ [JSNumber.fin 0, JSNumber.fin 0], v = JSNumber.fin 0) ∧
    JSNumber.fin 0 ∈ [JSNumber.fin 0, JSNumber.fin 0] ∧
    pieTooltipLabel (some "Divinópolis") (.fin 0) [.fin 0, .fin 0] =
      "Divinópolis: R$ 0,00 (NaN%)" :=
  ⟨by simp, by simp,
    (zero_total_percentage_is_nan [.fin 0, .fin 0] (some "Divinópolis") (.fin 0)
      (by simp) (by simp)).2.2.2.2.1⟩

/-! ## Theorems: double-precision rounding -/

theorem pow2_eq (e : ℤ) : pow2 e = (2 : ℚ) ^ e := by
  unfold pow2
  split
  · rename_i h
    have he : e = (e.toNat : ℤ) := (Int.toNat_of_nonneg h).symm
    conv_rhs => rw [he]
    rw [zpow_natCast]
    push_cast
    rfl
  · rename_i h
    have hn : 0 ≤ -e := by omega
    have he : e = -((-e).toNat : ℤ) := by
      rw [Int.toNat_of_nonneg hn]
      ring
    conv_rhs => rw [he]
    rw [zpow_neg, zpow_natCast]
    push_cast
    rw [one_div]

theorem bitLength_zero (fuel : ℕ) : bitLength fuel 0 = 0 := by
  cases fuel <;> simp [bitLength]

theorem bitLength_spec (fuel : ℕ) : ∀ n : ℕ, n ≤ fuel → n ≠ 0 →
    ∃ d : ℕ, bitLength fuel n = d + 1 ∧ 2 ^ d ≤ n ∧ n < 2 ^ (d + 1) := by
  induction fuel with
  | zero =>
    intro n hn h0
    omega
  | succ fuel ih =>
    intro n hn h0
    by_cases h2 : n / 2 = 0
    · have h1 : n = 1 := by omega
      subst h1
      refine ⟨0, ?_, by norm_num, by norm_num⟩
      simp [bitLength, bitLength_zero]
    · obtain ⟨d, hd, hlo, hhi⟩ := ih (n / 2) (by omega) h2
      refine ⟨d + 1, ?_, ?_, ?_⟩
      · simp [bitLength, h0, hd]
      · rw [pow_succ]
        omega
      · rw [pow_succ]
        omega

theorem binaryExponent_spec (a : ℚ) (ha : 0 < a) :
    (2 : ℚ) ^ binaryExponent a ≤ a ∧ a < (2 : ℚ) ^ (binaryExponent a + 1) := by
  have hnum : 0 < a.num := Rat.num_pos.2 ha
  have hN : a.num.natAbs ≠ 0 := by omega
  have hD : a.den ≠ 0 := a.den_nz
  obtain ⟨dN, hbN, hNlo, hNhi⟩ := bitLength_spec _ _ (le_refl _) hN
  obtain ⟨dD, hbD, hDlo, hDhi⟩ := bitLength_spec _ _ (le_refl _) hD
  have hcast : (a.num.natAbs : ℚ) = (a.num : ℚ) := by
    rw [Nat.cast_natAbs, abs_of_pos hnum]
  have hdpos : (0 : ℚ) < a.den := by exact_mod_cast Nat.pos_of_ne_zero hD
  have haeq : a = (a.num.natAbs : ℚ) / a.den := by
    rw [hcast, Rat.num_div_den]
  have hNlo' : (2 : ℚ) ^ dN ≤ (a.num.natAbs : ℚ) := by exact_mod_cast hNlo
  have hNhi' : (a.num.natAbs : ℚ) < (2 : ℚ) ^ (dN + 1) := by exact_mod_cast hNhi
  have hDlo' : (2 : ℚ) ^ dD ≤ (a.den : ℚ) := by exact_mod_cast hDlo
  have hDhi' : (a.den : ℚ) < (2 : ℚ) ^ (dD + 1) := by exact_mod_cast hDhi
  have hp1 : (0 : ℚ) < 2 ^ dN := by positivity
  have hp2 : (0 : ℚ) < 2 ^ dD := by positivity
  have hp3 : (0 : ℚ) < 2 ^ (dD + 1) := by positivity
  have hNpos : (0 : ℚ) < a.num.natAbs := lt_of_lt_of_le hp1 hNlo'
  -- the exponent estimate is off by less than one
  have e0 : ((bitLength a.num.natAbs a.num.natAbs : ℤ) - (bitLength a.den a.den : ℤ)) =
      (dN : ℤ) - dD := by
    rw [hbN, hbD]
    push_cast
    ring
  have hup : a < (2 : ℚ) ^ ((dN : ℤ) - dD + 1) := by
    have : (2 : ℚ) ^ ((dN : ℤ) - dD + 1) = 2 ^ (dN + 1) / 2 ^ dD := by
      rw [show (dN : ℤ) - dD + 1 = ((dN + 1 : ℕ) : ℤ) - (dD : ℤ) by push_cast; ring,
        zpow_sub₀ (two_ne_zero), zpow_natCast, zpow_natCast]
    rw [this, haeq, div_lt_div_iff₀ hdpos hp2]
    calc (a.num.natAbs : ℚ) * 2 ^ dD < 2 ^ (dN + 1) * 2 ^ dD :=
          mul_lt_mul_of_pos_right hNhi' hp2
      _ ≤ 2 ^ (dN + 1) * a.den := mul_le_mul_of_nonneg_left hDlo' (by positivity)
  have hdown : (2 : ℚ) ^ ((dN : ℤ) - dD - 1) < a := by
    have : (2 : ℚ) ^ ((dN : ℤ) - dD - 1) = 2 ^ dN / 2 ^ (dD + 1) := by
      rw [show (dN : ℤ) - dD - 1 = (dN : ℤ) - ((dD + 1 : ℕ) : ℤ) by push_cast; ring,
        zpow_sub₀ (two_ne_zero), zpow_natCast, zpow_natCast]
    rw [this, haeq, div_lt_div_iff₀ hp3 hdpos]
    calc (2 : ℚ) ^ dN * a.den < 2 ^ dN * 2 ^ (dD + 1) :=
          mul_lt_mul_of_pos_left hDhi' hp1
      _ ≤ a.num.natAbs * 2 ^ (dD + 1) := mul_le_mul_of_nonneg_right hNlo' (by positivity)
  unfold binaryExponent
  simp only [e0, pow2_eq]
  split
  · rename_i hlt
    refine ⟨le_of_lt hdown, ?_⟩
    rw [show (dN : ℤ) - dD - 1 + 1 = (dN : ℤ) - dD by ring]
    exact hlt
  · rename_i hge
    exact ⟨not_lt.1 hge, hup⟩

theorem roundHalfEven_error (x : ℚ) : |(roundHalfEven x : ℚ) - x| ≤ 1 / 2 := by
  have h1 : (⌊x⌋ : ℚ) ≤ x := Int.floor_le x
  have h2 : x < ⌊x⌋ + 1 := Int.lt_floor_add_one x
  unfold roundHalfEven
  simp only
  split
  · rw [abs_le]
    constructor <;> linarith
  · split
    · rw [abs_le]
      push_cast
      constructor <;> linarith
    · have he : x - ⌊x⌋ = 1 / 2 := by
        rename_i h3 h4
        exact le_antisymm (not_lt.1 h4) (not_lt.1 h3)
      split
      · rw [abs_le]
        constructor <;> linarith
      · rw [abs_le]
        push_cast
        constructor <;> linarith

theorem roundHalfEven_intCast (k : ℤ) : roundHalfEven (k : ℚ) = k := by
  unfold roundHalfEven
  simp

theorem roundHalfEven_nonneg (x : ℚ) (hx : 0 ≤ x) : 0 ≤ roundHalfEven x := by
  have h : 0 ≤ ⌊x⌋ := Int.floor_nonneg.2 hx
  unfold roundHalfEven
  simp only
  split
  · exact h
  · split
    · omega
    · split <;> omega

theorem ulpOf_cases (a : ℚ) (ha : 0 < a) :
    (a < (2 : ℚ) ^ (-1022 : ℤ) ∧ ulpOf a = (2 : ℚ) ^ (-1074 : ℤ)) ∨
    ((2 : ℚ) ^ (-1022 : ℤ) ≤ a ∧ ulpOf a ≤ a / 2 ^ 52 ∧
      ∃ m : ℕ, ulpOf a = 2 ^ m * (2 : ℚ) ^ (-1074 : ℤ)) := by
  obtain ⟨hlo, hhi⟩ := binaryExponent_spec a ha
  unfold ulpOf
  rw [pow2_eq]
  by_cases hb : binaryExponent a < -1022
  · left
    have hmax : max (binaryExponent a) (-1022) = -1022 := max_eq_right (le_of_lt hb)
    rw [hmax]
    refine ⟨lt_of_lt_of_le hhi ?_, by norm_num⟩
    exact zpow_le_zpow_right₀ (by norm_num) (by omega)
  · right
    have hb' : -1022 ≤ binaryExponent a := not_lt.1 hb
    have hmax : max (binaryExponent a) (-1022) = binaryExponent a := max_eq_left hb'
    rw [hmax]
    refine ⟨le_trans (zpow_le_zpow_right₀ (by norm_num) hb') hlo, ?_, ?_⟩
    · rw [zpow_sub₀ (two_ne_zero)]
      have : (2 : ℚ) ^ (52 : ℤ) = 2 ^ 52 := by norm_num
      rw [this]
      exact div_le_div_of_nonneg_right hlo (by positivity)
    · refine ⟨(binaryExponent a + 1022).toNat, ?_⟩
      have hm : ((binaryExponent a + 1022).toNat : ℤ) = binaryExponent a + 1022 :=
        Int.toNat_of_nonneg (by omega)
      rw [← zpow_natCast, hm, ← zpow_add₀ (two_ne_zero)]
      congr 1
      ring

theorem ulpOf_pos (a : ℚ) : 0 < ulpOf a := by
  unfold ulpOf
  rw [pow2_eq]
  positivity

theorem roundToDouble_pos_eq (a : ℚ) (ha : 0 < a) :
    roundToDouble a = if pow2 1024 ≤ roundedValue a then .posInf else .fin (roundedValue a) := by
  have hne : a ≠ 0 := ne_of_gt ha
  have hnl : ¬ a < 0 := not_lt.2 (le_of_lt ha)
  simp only [roundToDouble, roundedValue, hne, if_false, abs_of_pos ha, hnl]

/-- The rounding error of a positive rational, before the overflow test. -/
theorem roundedValue_error (a : ℚ) (ha : 0 < a) :
    0 ≤ roundedValue a ∧
      |roundedValue a - a| ≤ a / 2 ^ 53 + 1 / 2 ^ 1075 ∧
      OnDoubleGrid (roundedValue a) ∧
      (OnDoubleGrid a → |roundedValue a - a| ≤ a / 2 ^ 53) := by
  unfold roundedValue OnDoubleGrid
  have hpos := ulpOf_pos a
  have hm0 : 0 ≤ roundHalfEven (a / ulpOf a) :=
    roundHalfEven_nonneg _ (le_of_lt (div_pos ha hpos))
  have herr := roundHalfEven_error (a / ulpOf a)
  have hdist : |(roundHalfEven (a / ulpOf a) : ℚ) * ulpOf a - a| ≤ ulpOf a / 2 := by
    have e : (roundHalfEven (a / ulpOf a) : ℚ) * ulpOf a - a =
        ((roundHalfEven (a / ulpOf a) : ℚ) - a / ulpOf a) * ulpOf a := by
      field_simp
    rw [e, abs_mul, abs_of_pos hpos]
    calc |(roundHalfEven (a / ulpOf a) : ℚ) - a / ulpOf a| * ulpOf a
        ≤ 1 / 2 * ulpOf a := mul_le_mul_of_nonneg_right herr (le_of_lt hpos)
      _ = ulpOf a / 2 := by ring
  have hr0 : (0 : ℚ) ≤ (roundHalfEven (a / ulpOf a) : ℚ) * ulpOf a :=
    mul_nonneg (by exact_mod_cast hm0) (le_of_lt hpos)
  have hcast : ((roundHalfEven (a / ulpOf a)).toNat : ℚ) = (roundHalfEven (a / ulpOf a) : ℚ) := by
    have : ((roundHalfEven (a / ulpOf a)).toNat : ℤ) = roundHalfEven (a / ulpOf a) :=
      Int.toNat_of_nonneg hm0
    exact_mod_cast this
  refine ⟨hr0, ?_⟩
  rcases ulpOf_cases a ha with ⟨_, hu⟩ | ⟨_, hu, m, hm⟩
  · refine ⟨?_, ⟨(roundHalfEven (a / ulpOf a)).toNat, by rw [hcast, hu]⟩, ?_⟩
    · refine le_trans hdist ?_
      rw [hu]
      have : (2 : ℚ) ^ (-1074 : ℤ) / 2 = 1 / 2 ^ 1075 := by
        rw [show (-1074 : ℤ) = -((1074 : ℕ) : ℤ) by norm_num, zpow_neg, zpow_natCast,
          pow_succ (2 : ℚ) 1074]
        field_simp
      rw [this]
      have : (0 : ℚ) ≤ a / 2 ^ 53 := by positivity
      linarith
    · rintro ⟨k, hk⟩
      have hq : a / ulpOf a = ((k : ℤ) : ℚ) := by
        rw [hu, hk]
        have : (2 : ℚ) ^ (-1074 : ℤ) ≠ 0 := by positivity
        field_simp
      rw [hq, roundHalfEven_intCast, hu, hk, Int.cast_natCast, sub_self, abs_zero]
      exact div_nonneg (mul_nonneg (Nat.cast_nonneg k) (le_of_lt (zpow_pos (by norm_num) _)))
        (by norm_num)
  · have hnormal : |(roundHalfEven (a / ulpOf a) : ℚ) * ulpOf a - a| ≤ a / 2 ^ 53 := by
      calc |(roundHalfEven (a / ulpOf a) : ℚ) * ulpOf a - a| ≤ ulpOf a / 2 := hdist
        _ ≤ a / 2 ^ 52 / 2 := by linarith
        _ = a / 2 ^ 53 := by ring
    refine ⟨?_, ⟨(roundHalfEven (a / ulpOf a)).toNat * 2 ^ m, ?_⟩, fun _ => hnormal⟩
    · have h0 : (0 : ℚ) ≤ 1 / 2 ^ 1075 := by positivity
      linarith
    · push_cast
      rw [hcast, hm]
      ring

/-- A non-negative rational up to `2 ^ 1023` rounds to a finite double. -/
theorem roundToDouble_finite (a : ℚ) (ha : 0 ≤ a) (hle : a ≤ 2 ^ 1023) :
    ∃ r : ℚ, roundToDouble a = .fin r ∧ 0 ≤ r ∧ |r - a| ≤ a / 2 ^ 53 + 1 / 2 ^ 1075 := by
  rcases eq_or_lt_of_le ha with h0 | hpos
  · refine ⟨0, ?_, le_refl _, ?_⟩
    · rw [← h0]
      exact roundToDouble_zero
    · rw [← h0]
      norm_num
  · obtain ⟨hr0, hbound, _, _⟩ := roundedValue_error a hpos
    have hfin : ¬ pow2 1024 ≤ roundedValue a := by
      rw [pow2_eq, not_le]
      have h1 := (abs_le.1 hbound).2
      have h2 : a / 2 ^ 53 ≤ 2 ^ 1023 / 2 ^ 53 := div_le_div_of_nonneg_right hle (by positivity)
      have h3 : (2 : ℚ) ^ (1024 : ℤ) = 2 * 2 ^ 1023 := by norm_num
      have h4 : (2 : ℚ) ^ 1023 / 2 ^ 53 + 1 / 2 ^ 1075 < 2 ^ 1023 := by norm_num
      rw [h3]
      linarith
    exact ⟨roundedValue a, by rw [roundToDouble_pos_eq a hpos, if_neg hfin], hr0, hbound⟩

/-- The sum of two doubles that are not negative is rounded with a relative
error of at most `2 ^ -53`, or overflows. -/
theorem jsAdd_fin_fin (a b : ℚ) (ha : 0 ≤ a) (hb : 0 ≤ b) (hga : OnDoubleGrid a)
    (hgb : OnDoubleGrid b) :
    jsAdd (.fin a) (.fin b) = .posInf ∨
    ∃ t : ℚ, jsAdd (.fin a) (.fin b) = .fin t ∧ 0 ≤ t ∧ OnDoubleGrid t ∧
      |t - (a + b)| ≤ (a + b) / 2 ^ 53 := by
  have hsum : 0 ≤ a + b := add_nonneg ha hb
  have hg : OnDoubleGrid (a + b) := by
    obtain ⟨k, hk⟩ := hga
    obtain ⟨l, hl⟩ := hgb
    exact ⟨k + l, by rw [hk, hl]; push_cast; ring⟩
  show roundToDouble (a + b) = .posInf ∨ _
  rcases eq_or_lt_of_le hsum with h0 | hpos
  · right
    refine ⟨0, ?_, le_refl _, ⟨0, by simp⟩, ?_⟩
    · show roundToDouble (a + b) = .fin 0
      rw [← h0]
      exact roundToDouble_zero
    · rw [← h0]
      norm_num
  · obtain ⟨hr0, _, hgr, hex⟩ := roundedValue_error (a + b) hpos
    by_cases hov : pow2 1024 ≤ roundedValue (a + b)
    · left
      rw [roundToDouble_pos_eq _ hpos, if_pos hov]
    · right
      refine ⟨roundedValue (a + b), ?_, hr0, hgr, hex hg⟩
      show roundToDouble (a + b) = _
      rw [roundToDouble_pos_eq _ hpos, if_neg hov]

theorem double_onGrid (v : ℚ) (hv : 0 ≤ v) (hd : roundToDouble v = .fin v) : OnDoubleGrid v := by
  rcases eq_or_lt_of_le hv with h0 | hpos
  · exact ⟨0, by rw [← h0]; simp⟩
  · rw [roundToDouble_pos_eq v hpos] at hd
    split at hd
    · exact JSNumber.noConfusion hd
    · have he : roundedValue v = v := by
        injection hd
      rw [← he]
      exact (roundedValue_error v hpos).2.2.1

theorem foldl_jsAdd_posInf (l : List ℚ) :
    (l.map JSNumber.fin).foldl jsAdd .posInf = .posInf := by
  induction l with
  | nil => rfl
  | cons v vs ih =>
    rw [List.map_cons, List.foldl_cons]
    exact ih

/-- The accumulated rounding error of the `reduce` that sums a dataset. -/
theorem foldl_jsAdd_bounds (vals : List ℚ) : ∀ t0 T : ℚ, 0 ≤ t0 → OnDoubleGrid t0 →
    (∀ v ∈ vals, 0 ≤ v ∧ OnDoubleGrid v) → vals.length ≤ 2 ^ 52 →
    (vals.map JSNumber.fin).foldl jsAdd (.fin t0) = .fin T →
    0 ≤ T ∧ (t0 + vals.sum) * (1 - vals.length / 2 ^ 53) ≤ T ∧
      T ≤ (t0 + vals.sum) * (1 + 2 * vals.length / 2 ^ 53) := by
  induction vals with
  | nil =>
    intro t0 T ht0 _ _ _ hT
    have : t0 = T := by
      simpa using hT
    subst this
    simp [ht0]
  | cons v vs ih =>
    intro t0 T ht0 hg0 hall hlen hT
    obtain ⟨hv0, hgv⟩ := hall v (List.mem_cons_self _ _)
    have hall' : ∀ w ∈ vs, 0 ≤ w ∧ OnDoubleGrid w :=
      fun w hw => hall w (List.mem_cons_of_mem _ hw)
    have hlen' : vs.length ≤ 2 ^ 52 := by
      simp only [List.length_cons] at hlen
      omega
    rw [List.map_cons, List.foldl_cons] at hT
    rcases jsAdd_fin_fin t0 v ht0 hv0 hg0 hgv with hinf | ⟨t1, ht1, ht10, hgt1, herr⟩
    · rw [hinf, foldl_jsAdd_posInf] at hT
      exact JSNumber.noConfusion hT
    · rw [ht1] at hT
      obtain ⟨hT0, hlo, hhi⟩ := ih t1 T ht10 hgt1 hall' hlen' hT
      have hB : 0 ≤ vs.sum := List.sum_nonneg (fun w hw => (hall' w hw).1)
      have hA : 0 ≤ t0 + v := add_nonneg ht0 hv0
      obtain ⟨he1, he2⟩ := abs_le.1 herr
      have hc0 : (0 : ℚ) ≤ (vs.length : ℚ) / 2 ^ 53 := by positivity
      have hc1 : (vs.length : ℚ) / 2 ^ 53 ≤ 1 / 2 := by
        have : (vs.length : ℚ) ≤ 2 ^ 52 := by exact_mod_cast hlen'
        rw [div_le_iff₀ (by positivity)]
        linarith
      have hu : (0 : ℚ) ≤ 1 / 2 ^ 53 := by positivity
      have e1 : (((v :: vs).length : ℕ) : ℚ) / 2 ^ 53 =
          (vs.length : ℚ) / 2 ^ 53 + 1 / 2 ^ 53 := by
        simp only [List.length_cons, Nat.cast_add, Nat.cast_one]
        ring
      have e2 : 2 * (((v :: vs).length : ℕ) : ℚ) / 2 ^ 53 =
          2 * ((vs.length : ℚ) / 2 ^ 53) + 2 * (1 / 2 ^ 53) := by
        simp only [List.length_cons, Nat.cast_add, Nat.cast_one]
        ring
      have e3 : (t0 + v) / 2 ^ 53 = (t0 + v) * (1 / 2 ^ 53) := by ring
      have e4 : 2 * (vs.length : ℚ) / 2 ^ 53 = 2 * ((vs.length : ℚ) / 2 ^ 53) := by ring
      rw [e3] at he1 he2
      rw [e4] at hhi
      rw [e1, e2, List.sum_cons, ← add_assoc]
      generalize (vs.length : ℚ) / 2 ^ 53 = c at hc0 hc1 hlo hhi ⊢
      generalize (1 : ℚ) / 2 ^ 53 = u at hu he1 he2 ⊢
      generalize t0 + v = A at hA he1 he2 ⊢
      generalize vs.sum = B at hB hlo hhi ⊢
      refine ⟨hT0, ?_, ?_⟩
      · have h1 : 0 ≤ (t1 - A * (1 - u)) * (1 - c) :=
          mul_nonneg (by linarith) (by linarith)
        have h2 : 0 ≤ A * u * c := mul_nonneg (mul_nonneg hA hu) hc0
        have h3 : 0 ≤ B * u := mul_nonneg hB hu
        nlinarith
      · have h1 : 0 ≤ (A * (1 + u) - t1) * (1 + 2 * c) :=
          mul_nonneg (by linarith) (by linarith)
        have h2 : 0 ≤ A * u * (1 - 2 * c) :=
          mul_nonneg (mul_nonneg hA hu) (by linarith)
        have h3 : 0 ≤ B * u := mul_nonneg hB hu
        nlinarith

theorem sum_map_affine {α : Type} (l : List α) (f : α → ℚ) (a b : ℚ) :
    (l.map (fun v => a * f v + b)).sum = a * (l.map f).sum + b * l.length := by
  induction l with
  | nil => simp
  | cons x xs ih =>
    simp only [List.map_cons, List.sum_cons, List.length_cons, Nat.cast_add, Nat.cast_one, ih]
    ring

/-- The percentage of one slice: two roundings away from `100 * v / T`. -/
theorem slicePercentage_error (v T : ℚ) (data : List JSNumber) (hv : 0 ≤ v) (hT : 0 < T)
    (htotal : datasetTotal data = .fin T) (hx : v / T ≤ 2) :
    ∃ p : ℚ, slicePercentage (.fin v) data = .fin p ∧ 0 ≤ p ∧ p ≤ 1000 ∧
      |p - 100 * (v / T)| ≤ 300 * (v / T) * (1 / 2 ^ 53) + 102 * (1 / 2 ^ 1075) := by
  have hx0 : 0 ≤ v / T := div_nonneg hv (le_of_lt hT)
  obtain ⟨r, hr, hr0, hrerr⟩ := roundToDouble_finite (v / T) hx0
    (le_trans hx (by norm_num))
  have hη1 : (1 : ℚ) / 2 ^ 1075 ≤ 1 / 2 ^ 53 := by norm_num
  have hη0 : (0 : ℚ) ≤ 1 / 2 ^ 1075 := by norm_num
  have hu0 : (0 : ℚ) ≤ 1 / 2 ^ 53 := by norm_num
  have hu1 : 100 * ((1 : ℚ) / 2 ^ 53) ≤ 1 := by norm_num
  have e1 : v / T / 2 ^ 53 = v / T * (1 / 2 ^ 53) := by ring
  rw [e1] at hrerr
  obtain ⟨hr1, hr2⟩ := abs_le.1 hrerr
  have hr5 : r * 100 ≤ 2 ^ 1023 := by
    have h3 : v / T * (1 / 2 ^ 53) ≤ 2 * (1 / 2 ^ 53) := mul_le_mul_of_nonneg_right hx hu0
    have : r ≤ 5 := by linarith
    have h5 : (500 : ℚ) ≤ 2 ^ 1023 := by norm_num
    linarith
  obtain ⟨p, hp, hp0, hperr⟩ := roundToDouble_finite (r * 100) (mul_nonneg hr0 (by norm_num)) hr5
  have e2 : r * 100 / 2 ^ 53 = r * 100 * (1 / 2 ^ 53) := by ring
  rw [e2] at hperr
  obtain ⟨hp1, hp2⟩ := abs_le.1 hperr
  have hslice : slicePercentage (.fin v) data = .fin p := by
    have hne : T ≠ 0 := ne_of_gt hT
    simp only [slicePercentage, htotal, orZero, jsDiv, hne, if_false, hr, jsMul, hp]
  generalize (1 : ℚ) / 2 ^ 1075 = η at hη1 hη0 hrerr hr1 hr2 hperr hp1 hp2 ⊢
  generalize (1 : ℚ) / 2 ^ 53 = u at hη1 hu0 hu1 hrerr hr1 hr2 hperr hp1 hp2 ⊢
  generalize v / T = x at hx hx0 hrerr hr1 hr2 ⊢
  have k1 : 0 ≤ x * u := mul_nonneg hx0 hu0
  have k2 : r * u ≤ (x + x * u + η) * u := mul_le_mul_of_nonneg_right (by linarith) hu0
  have k3 : 100 * u * (x * u) ≤ 1 * (x * u) := mul_le_mul_of_nonneg_right hu1 k1
  have k4 : 100 * u * η ≤ 1 * η := mul_le_mul_of_nonneg_right hu1 hη0
  have k5 : 0 ≤ r * u := mul_nonneg hr0 hu0
  have k6 : x * u ≤ 2 * u := mul_le_mul_of_nonneg_right hx hu0
  refine ⟨p, hslice, hp0, ?_, ?_⟩
  · nlinarith
  · rw [abs_le]
    constructor <;> nlinarith

theorem toFixed1_of_small (p : ℚ) (hp0 : 0 ≤ p) (hp1 : p ≤ 1000) :
    toFixed1 (.fin p) = String.mk (natDigits (roundHalfUp p 1 / 10) ++
      ['.', Nat.digitChar (roundHalfUp p 1 % 10)]) := by
  have h21 : ¬ (10 : ℚ) ^ 21 ≤ p := by
    rw [not_le]
    exact lt_of_le_of_lt hp1 (by norm_num)
  have hneg : ¬ p < 0 := not_lt.2 hp0
  simp only [toFixed1, abs_of_nonneg hp0, h21, if_false, hneg, fixedDigits]
  show "" ++ String.mk _ = String.mk _
  rw [String.empty_append]
  congr 1
  simp

/-- C3, as stated, fails: for the values 1 and 2 the two percentages that the
tooltip computes are 33.33333333333333 and 66.66666666666666, and their exact
sum is below 100; and for two values of `2 ^ 1023` the total overflows to
`Infinity`, both percentages are 0 and both are shown as `0.0`. -/
theorem percentages_do_not_sum_exactly :
    datasetTotal [.fin 1, .fin 2] = .fin 3 ∧
    slicePercentages [1, 2] =
      [2345624805922133 / 70368744177664, 2345624805922133 / 35184372088832] ∧
    (slicePercentages [1, 2]).sum < 100 ∧
    roundToDouble (2 ^ 1023) = .fin (2 ^ 1023) ∧
    datasetTotal [.fin (2 ^ 1023), .fin (2 ^ 1023)] = .posInf ∧
    slicePercentage (.fin (2 ^ 1023)) [.fin (2 ^ 1023), .fin (2 ^ 1023)] = .fin 0 ∧
    toFixed1 (slicePercentage (.fin (2 ^ 1023)) [.fin (2 ^ 1023), .fin (2 ^ 1023)]) = "0.0" := by
  have h : slicePercentages [1, 2] =
      [2345624805922133 / 70368744177664, 2345624805922133 / 35184372088832] := by decide!
  refine ⟨by decide!, h, ?_, by decide!, by decide!, by decide!, by decide!⟩
  rw [h]
  norm_num

/-- C3, amended. For every sequence of fewer than `2 ^ 32` doubles that are not
negative and whose total, as the tooltip computes it, is finite and positive:
every slice gets a finite percentage, which `toFixed(1)` renders as the
decimal numeral of the percentage rounded to tenths; the unrounded percentages
sum to 100 up to rounding error, within `(n + 2) / 2 ^ 44` for `n` slices; and
the one-decimal rounded percentages sum to 100 up to 0.05 per slice. -/
theorem percentages_sum_near_100 (vals : List ℚ) (T : ℚ) (hlen : vals.length < 2 ^ 32)
    (hvals : ∀ v ∈ vals, 0 ≤ v ∧ roundToDouble v = .fin v)
    (htotal : datasetTotal (vals.map JSNumber.fin) = .fin T) (hT : 0 < T) :
    (∀ v ∈ vals, ∃ p : ℚ, slicePercentage (.fin v) (vals.map JSNumber.fin) = .fin p ∧ 0 ≤ p ∧
      toFixed1 (.fin p) = String.mk (natDigits (roundHalfUp p 1 / 10) ++
        ['.', Nat.digitChar (roundHalfUp p 1 % 10)])) ∧
    |(slicePercentages vals).sum - 100| ≤ ((vals.length : ℚ) + 2) / 2 ^ 44 ∧
    |((roundedTenths vals).sum : ℚ) / 10 - 100| ≤ 5 / 100 * (vals.length : ℚ) := by
  have hgrid : ∀ v ∈ vals, 0 ≤ v ∧ OnDoubleGrid v :=
    fun v hv => ⟨(hvals v hv).1, double_onGrid v (hvals v hv).1 (hvals v hv).2⟩
  have hlen52 : vals.length ≤ 2 ^ 52 := by omega
  obtain ⟨_, hlo, hhi⟩ := foldl_jsAdd_bounds vals 0 T (le_refl _) ⟨0, by simp⟩ hgrid hlen52 htotal
  rw [zero_add] at hlo hhi
  have hS0 : 0 ≤ vals.sum := List.sum_nonneg (fun v hv => (hvals v hv).1)
  have hn0 : (0 : ℚ) ≤ (vals.length : ℚ) := Nat.cast_nonneg _
  have hn : (vals.length : ℚ) ≤ 2 ^ 32 := by exact_mod_cast le_of_lt hlen
  have hnu : (vals.length : ℚ) * (1 / 2 ^ 53) ≤ 1 / 2 ^ 21 := by
    calc (vals.length : ℚ) * (1 / 2 ^ 53) ≤ 2 ^ 32 * (1 / 2 ^ 53) :=
          mul_le_mul_of_nonneg_right hn (by norm_num)
      _ = 1 / 2 ^ 21 := by norm_num
  have e1 : (vals.length : ℚ) / 2 ^ 53 = (vals.length : ℚ) * (1 / 2 ^ 53) := by ring
  have e2 : 2 * (vals.length : ℚ) / 2 ^ 53 = 2 * ((vals.length : ℚ) * (1 / 2 ^ 53)) := by ring
  rw [e1] at hlo
  rw [e2] at hhi
  have hc0 : 0 ≤ (vals.length : ℚ) * (1 / 2 ^ 53) := by positivity
  -- the ratio of the exact total to the computed total
  have hρ : 1 - 2 * ((vals.length : ℚ) * (1 / 2 ^ 53)) ≤ vals.sum / T ∧
      vals.sum / T ≤ 1 + 2 * ((vals.length : ℚ) * (1 / 2 ^ 53)) := by
    rw [le_div_iff₀ hT, div_le_iff₀ hT]
    generalize (vals.length : ℚ) * (1 / 2 ^ 53) = c at hnu hlo hhi hc0
    have hc1 : c ≤ 1 / 2 := le_trans hnu (by norm_num)
    have h1 : 0 ≤ vals.sum * (c * (1 - 2 * c)) :=
      mul_nonneg hS0 (mul_nonneg hc0 (by linarith))
    have h2 : 0 ≤ vals.sum * (c * c) := mul_nonneg hS0 (mul_nonneg hc0 hc0)
    have h3 : 0 ≤ (T - vals.sum * (1 - c)) * (1 + 2 * c) :=
      mul_nonneg (by linarith) (by linarith)
    have h4 : 0 ≤ (vals.sum * (1 + 2 * c) - T) * (1 - 2 * c) :=
      mul_nonneg (by linarith) (by linarith)
    constructor <;> nlinarith
  obtain ⟨hρ1, hρ2⟩ := hρ
  have hρ3 : vals.sum / T ≤ 2 := by
    have : (1 : ℚ) / 2 ^ 21 ≤ 1 / 2 := by norm_num
    linarith
  -- every slice
  have hslice : ∀ v ∈ vals, ∃ p : ℚ,
      slicePercentage (.fin v) (vals.map JSNumber.fin) = .fin p ∧ 0 ≤ p ∧ p ≤ 1000 ∧
      |p - 100 * (v / T)| ≤ 300 * (v / T) * (1 / 2 ^ 53) + 102 * (1 / 2 ^ 1075) := by
    intro v hv
    have hvS : v ≤ vals.sum := List.single_le_sum (fun w hw => (hvals w hw).1) v hv
    have hx : v / T ≤ 2 := le_trans (div_le_div_of_nonneg_right hvS (le_of_lt hT)) hρ3
    exact slicePercentage_error v T _ (hvals v hv).1 hT htotal hx
  have hP : ∀ v ∈ vals,
      slicePercentage (.fin v) (vals.map JSNumber.fin) =
        .fin (finiteValue (slicePercentage (.fin v) (vals.map JSNumber.fin))) ∧
      0 ≤ finiteValue (slicePercentage (.fin v) (vals.map JSNumber.fin)) ∧
      finiteValue (slicePercentage (.fin v) (vals.map JSNumber.fin)) ≤ 1000 ∧
      |finiteValue (slicePercentage (.fin v) (vals.map JSNumber.fin)) - 100 * (v / T)| ≤
        300 * (v / T) * (1 / 2 ^ 53) + 102 * (1 / 2 ^ 1075) := by
    intro v hv
    obtain ⟨p, hp, hp0, hp1, hperr⟩ := hslice v hv
    rw [hp]
    exact ⟨rfl, hp0, hp1, hperr⟩
  -- the sum of the unrounded percentages
  have hsum : |(slicePercentages vals).sum - 100| ≤ ((vals.length : ℚ) + 2) / 2 ^ 44 := by
    have hup : (slicePercentages vals).sum ≤
        (100 + 300 * (1 / 2 ^ 53)) * (vals.sum / T) +
          102 * (1 / 2 ^ 1075) * (vals.length : ℚ) := by
      have h1 : (slicePercentages vals).sum ≤
          (vals.map (fun v => (100 / T + 300 * (1 / 2 ^ 53) / T) * (fun w : ℚ => w) v +
            102 * (1 / 2 ^ 1075))).sum := by
        unfold slicePercentages
        apply List.sum_le_sum
        intro v hv
        have h := (abs_le.1 (hP v hv).2.2.2).2
        have e : (100 / T + 300 * (1 / 2 ^ 53) / T) * v =
            100 * (v / T) + 300 * (v / T) * (1 / 2 ^ 53) := by ring
        simp only [e]
        linarith
      rw [sum_map_affine, List.map_id'] at h1
      have e : (100 / T + 300 * (1 / 2 ^ 53) / T) * vals.sum =
          (100 + 300 * (1 / 2 ^ 53)) * (vals.sum / T) := by ring
      rw [e] at h1
      exact h1
    have hdown : (100 - 300 * (1 / 2 ^ 53)) * (vals.sum / T) -
          102 * (1 / 2 ^ 1075) * (vals.length : ℚ) ≤ (slicePercentages vals).sum := by
      have h1 : (vals.map (fun v => (100 / T - 300 * (1 / 2 ^ 53) / T) * (fun w : ℚ => w) v +
            -(102 * (1 / 2 ^ 1075)))).sum ≤ (slicePercentages vals).sum := by
        unfold slicePercentages
        apply List.sum_le_sum
        intro v hv
        have h := (abs_le.1 (hP v hv).2.2.2).1
        have e : (100 / T - 300 * (1 / 2 ^ 53) / T) * v =
            100 * (v / T) - 300 * (v / T) * (1 / 2 ^ 53) := by ring
        simp only [e]
        linarith
      rw [sum_map_affine, List.map_id'] at h1
      have e : (100 / T - 300 * (1 / 2 ^ 53) / T) * vals.sum =
          (100 - 300 * (1 / 2 ^ 53)) * (vals.sum / T) := by ring
      rw [e] at h1
      linarith
    have hη1 : (1 : ℚ) / 2 ^ 1075 ≤ 1 / 2 ^ 53 := by norm_num
    have hη0 : (0 : ℚ) ≤ 1 / 2 ^ 1075 := by norm_num
    have hu0 : (0 : ℚ) ≤ 1 / 2 ^ 53 := by norm_num
    have hu1 : (1 : ℚ) / 2 ^ 53 ≤ 1 / 300 := by norm_num
    have etarget : ((vals.length : ℚ) + 2) / 2 ^ 44 =
        512 * ((vals.length : ℚ) * (1 / 2 ^ 53)) + 1024 * (1 / 2 ^ 53) := by
      have : (1 : ℚ) / 2 ^ 44 = 512 * (1 / 2 ^ 53) := by norm_num
      calc ((vals.length : ℚ) + 2) / 2 ^ 44 = ((vals.length : ℚ) + 2) * (1 / 2 ^ 44) := by ring
        _ = ((vals.length : ℚ) + 2) * (512 * (1 / 2 ^ 53)) := by rw [this]
        _ = _ := by ring
    rw [etarget]
    have hnu' : 600 * ((vals.length : ℚ) * (1 / 2 ^ 53)) ≤ 1 :=
      le_trans (mul_le_mul_of_nonneg_left hnu (by norm_num)) (by norm_num)
    generalize (1 : ℚ) / 2 ^ 1075 = η at hη1 hη0 hup hdown
    generalize (slicePercentages vals).sum = total at hup hdown ⊢
    generalize vals.sum / T = ρ at hρ1 hρ2 hup hdown
    have k1 : η * (vals.length : ℚ) ≤ (vals.length : ℚ) * (1 / 2 ^ 53) := by
      rw [mul_comm (vals.length : ℚ)]
      exact mul_le_mul_of_nonneg_right hη1 hn0
    have k2 : 600 * ((vals.length : ℚ) * (1 / 2 ^ 53)) * (1 / 2 ^ 53) ≤ 1 * (1 / 2 ^ 53) :=
      mul_le_mul_of_nonneg_right hnu' hu0
    have k3 : (100 + 300 * (1 / 2 ^ 53)) * ρ ≤
        (100 + 300 * (1 / 2 ^ 53)) * (1 + 2 * ((vals.length : ℚ) * (1 / 2 ^ 53))) :=
      mul_le_mul_of_nonneg_left hρ2 (by linarith)
    have k4 : (100 - 300 * (1 / 2 ^ 53)) * (1 - 2 * ((vals.length : ℚ) * (1 / 2 ^ 53))) ≤
        (100 - 300 * (1 / 2 ^ 53)) * ρ :=
      mul_le_mul_of_nonneg_left hρ1 (by linarith)
    have k5 : 0 ≤ η * (vals.length : ℚ) := mul_nonneg hη0 hn0
    generalize (vals.length : ℚ) * (1 / 2 ^ 53) = c at hnu hc0 hnu' k1 k2 k3 k4 ⊢
    have e5 : 102 * η * (vals.length : ℚ) = 102 * (η * (vals.length : ℚ)) := by ring
    rw [e5] at hup hdown
    generalize η * (vals.length : ℚ) = z at k1 k5 hup hdown
    rw [abs_le]
    constructor <;> linarith
  refine ⟨?_, hsum, ?_⟩
  · intro v hv
    obtain ⟨p, hp, hp0, hp1, _⟩ := hslice v hv
    refine ⟨p, hp, hp0, ?_⟩
    exact toFixed1_of_small p hp0 hp1
  · -- the rounded percentages, in tenths
    have hcast : (((roundedTenths vals).sum : ℕ) : ℚ) =
        (vals.map (fun v => ((roundHalfUp
          (finiteValue (slicePercentage (.fin v) (vals.map JSNumber.fin))) 1 : ℕ) : ℚ))).sum := by
      unfold roundedTenths slicePercentages
      rw [Nat.cast_list_sum, List.map_map, List.map_map]
      rfl
    have hup : (((roundedTenths vals).sum : ℕ) : ℚ) ≤
        10 * (slicePercentages vals).sum + 1 / 2 * (vals.length : ℚ) := by
      rw [hcast]
      unfold slicePercentages
      rw [← sum_map_affine]
      apply List.sum_le_sum
      intro v hv
      have hp0 := (hP v hv).2.1
      have h := Nat.floor_le (show (0 : ℚ) ≤
        finiteValue (slicePercentage (.fin v) (vals.map JSNumber.fin)) * 10 ^ 1 + 1 / 2 by
          positivity)
      simp only [roundHalfUp]
      linarith
    have hdown : 10 * (slicePercentages vals).sum + -(1 / 2) * (vals.length : ℚ) ≤
        (((roundedTenths vals).sum : ℕ) : ℚ) := by
      rw [hcast]
      unfold slicePercentages
      rw [← sum_map_affine]
      apply List.sum_le_sum
      intro v hv
      have h := Nat.lt_floor_add_one
        (finiteValue (slicePercentage (.fin v) (vals.map JSNumber.fin)) * 10 ^ 1 + 1 / 2)
      simp only [roundHalfUp]
      linarith
    obtain ⟨hs1, hs2⟩ := abs_le.1 hsum
    have hsmall : ((vals.length : ℚ) + 2) / 2 ^ 44 < 1 / 20 := by
      rw [div_lt_iff₀ (by positivity)]
      have : (2 : ℚ) ^ 32 + 2 < 1 / 20 * 2 ^ 44 := by norm_num
      linarith
    have h1 : 2 * (((roundedTenths vals).sum : ℕ) : ℚ) < 2000 + (vals.length : ℚ) + 1 := by
      linarith
    have h2 : (2000 : ℚ) < 2 * (((roundedTenths vals).sum : ℕ) : ℚ) + (vals.length : ℚ) + 1 := by
      linarith
    have h1' : 2 * (roundedTenths vals).sum < 2000 + vals.length + 1 := by exact_mod_cast h1
    have h2' : 2000 < 2 * (roundedTenths vals).sum + vals.length + 1 := by exact_mod_cast h2
    have h3 : 2 * (roundedTenths vals).sum ≤ 2000 + vals.length := by omega
    have h4 : 2000 ≤ 2 * (roundedTenths vals).sum + vals.length := by omega
    have h3' : 2 * (((roundedTenths vals).sum : ℕ) : ℚ) ≤ 2000 + (vals.length : ℚ) := by
      exact_mod_cast h3
    have h4' : (2000 : ℚ) ≤ 2 * (((roundedTenths vals).sum : ℕ) : ℚ) + (vals.length : ℚ) := by
      exact_mod_cast h4
    rw [abs_le]
    constructor <;> linarith

theorem percentages_sum_near_100_witness :
    ([1, 2] : List ℚ).length < 2 ^ 32 ∧
    (∀ v ∈ ([1, 2] : List ℚ), 0 ≤ v ∧ roundToDouble v = .fin v) ∧
    datasetTotal (([1, 2] : List ℚ).map JSNumber.fin) = .fin 3 ∧
    |(slicePercentages [1, 2]).sum - 100| ≤ (((([1, 2] : List ℚ).length : ℕ) : ℚ) + 2) / 2 ^ 44 ∧
    |((roundedTenths [1, 2]).sum : ℚ) / 10 - 100| ≤
      5 / 100 * ((([1, 2] : List ℚ).length : ℕ) : ℚ) :=
  have hlen : ([1, 2] : List ℚ).length < 2 ^ 32 := by decide
  have hvals : ∀ v ∈ ([1, 2] : List ℚ), 0 ≤ v ∧ roundToDouble v = .fin v := by
    intro v hv
    simp only [List.mem_cons, List.mem_singleton, List.not_mem_nil, or_false] at hv
    rcases hv with rfl | rfl
    · exact ⟨by norm_num, by decide!⟩
    · exact ⟨by norm_num, by decide!⟩
  have htotal : datasetTotal (([1, 2] : List ℚ).map JSNumber.fin) = .fin 3 := by decide!
  ⟨hlen, hvals, htotal,
    (percentages_sum_near_100 [1, 2] 3 hlen hvals htotal (by norm_num)).2⟩

/-! ## Theorems: line series and palette lengths -/

theorem lineDataset_colors (s : Series) (i : Nat) :
    ∃ c b : String, chartColors.primary[i % 10]? = some c ∧
      chartColors.background[i % 10]? = some b ∧
      (lineDataset s i).borderColor = .single c ∧
      (lineDataset s i).pointBackgroundColor = some c ∧
      (lineDataset s i).pointHoverBorderColor = some c ∧
      (lineDataset s i).backgroundColor = .single b := by
  have h : i % 10 < 10 := Nat.mod_lt _ (by decide)
  have hp : chartColors.primary.length = 10 := rfl
  have hb : chartColors.background.length = 10 := rfl
  simp only [lineDataset, hp, hb, List.get?_eq_getElem?]
  generalize i % 10 = k at h
  interval_cases k <;> exact ⟨_, _, rfl, rfl, rfl, rfl, rfl, rfl⟩

/-- C11. For every line-chart request the configuration has exactly one dataset
per input series, in the same order (dataset `i` carries the data of series
`i`); the dataset at position `i` takes palette slot `i mod 10`: its border,
point and point-hover-border colours are `primary[i mod 10]` and its
background is `background[i mod 10]`; so the datasets at positions `i` and
`i + 10` have identical colours. -/
theorem line_series_palette_slot (data : ChartData) (title : String) :
    (lineConfig data title).datasets.length = (data.datasets.getD []).length ∧
    (∀ (i : Nat) (s : Series), (data.datasets.getD [])[i]? = some s →
      ∃ d : Dataset, ∃ c b : String, (lineConfig data title).datasets[i]? = some d ∧
        d.data = s.data.getD [] ∧
        chartColors.primary[i % 10]? = some c ∧ chartColors.background[i % 10]? = some b ∧
        d.borderColor = .single c ∧ d.pointBackgroundColor = some c ∧
        d.pointHoverBorderColor = some c ∧ d.backgroundColor = .single b) ∧
    (∀ (i : Nat) (d d' : Dataset), (lineConfig data title).datasets[i]? = some d →
      (lineConfig data title).datasets[i + 10]? = some d' →
      d.borderColor = d'.borderColor ∧ d.backgroundColor = d'.backgroundColor ∧
      d.pointBackgroundColor = d'.pointBackgroundColor ∧
      d.pointHoverBorderColor = d'.pointHoverBorderColor) := by
  have hcfg : (lineConfig data title).datasets =
      mapWithIndex lineDataset (data.datasets.getD []) 0 := by
    unfold lineConfig
    cases data.datasets <;> rfl
  rw [hcfg]
  refine ⟨length_mapWithIndex _ _ _, ?_, ?_⟩
  · intro i s hs
    obtain ⟨c, b, h1, h2, h3, h4, h5, h6⟩ := lineDataset_colors s i
    refine ⟨lineDataset s i, c, b, ?_, rfl, h1, h2, h3, h4, h5, h6⟩
    simp [getElem?_mapWithIndex, hs]
  · intro i d d' hd hd'
    rw [getElem?_mapWithIndex] at hd hd'
    cases hs : (data.datasets.getD [])[i]? with
    | none => simp [hs] at hd
    | some s =>
      cases hs' : (data.datasets.getD [])[i + 10]? with
      | none => simp [hs'] at hd'
      | some s' =>
        simp only [hs, hs', Option.map_some', Option.some.injEq, Nat.zero_add] at hd hd'
        subst hd
        subst hd'
        obtain ⟨c, b, h1, h2, h3, h4, h5, h6⟩ := lineDataset_colors s i
        obtain ⟨c', b', h1', h2', h3', h4', h5', h6'⟩ := lineDataset_colors s' (i + 10)
        have hm : (i + 10) % 10 = i % 10 := by omega
        rw [hm] at h1' h2'
        have hc : c' = c := by
          rw [h1] at h1'
          exact (Option.some.inj h1').symm
        have hb : b' = b := by
          rw [h2] at h2'
          exact (Option.some.inj h2').symm
        subst hc
        subst hb
        exact ⟨h3.trans h3'.symm, h6.trans h6'.symm, h4.trans h4'.symm, h5.trans h5'.symm⟩

theorem line_series_palette_slot_witness :
    (lineConfig twelveSeries "Vendas").datasets.length = 12 ∧
    ∃ d : Dataset, ∃ c b : String, (lineConfig twelveSeries "Vendas").datasets[11]? = some d ∧
      d.data = (some [JSNumber.fin 1, JSNumber.fin 2]).getD [] ∧
      chartColors.primary[11 % 10]? = some c ∧ chartColors.background[11 % 10]? = some b ∧
      d.borderColor = .single c ∧ d.pointBackgroundColor = some c ∧
      d.pointHoverBorderColor = some c ∧ d.backgroundColor = .single b :=
  ⟨(line_series_palette_slot twelveSeries "Vendas").1,
    (line_series_palette_slot twelveSeries "Vendas").2.1 11
      ⟨some "Filial", some [.fin 1, .fin 2]⟩ rfl⟩

/-- C15. For every count `n`, `generateColors(n)` returns three sequences of
length exactly `n`; for every `i < min(n, 10)` their entries at `i` are the
entries at `i` of the fixed palette (`primary[i]`, `background[i]`,
`border[i]`); and for `m ≤ n` the result for `m` is the prefix of length `m` of
the result for `n`. -/
theorem generateColors_lengths_and_take (n : Nat) :
    ((generateColors n).colors.length = n ∧ (generateColors n).backgrounds.length = n ∧
      (generateColors n).borders.length = n) ∧
    (∀ i : Nat, i < min n 10 →
      ∃ c b r : String, chartColors.primary[i]? = some c ∧
        chartColors.background[i]? = some b ∧ chartColors.border[i]? = some r ∧
        (generateColors n).colors[i]? = some c ∧ (generateColors n).backgrounds[i]? = some b ∧
        (generateColors n).borders[i]? = some r) ∧
    (∀ m : Nat, m ≤ n →
      (generateColors m).colors = (generateColors n).colors.take m ∧
      (generateColors m).backgrounds = (generateColors n).backgrounds.take m ∧
      (generateColors m).borders = (generateColors n).borders.take m) := by
  refine ⟨?_, ?_, ?_⟩
  · simp [generateColors_eq]
  · intro i hi
    have hin : i < n := lt_of_lt_of_le hi (Nat.min_le_left _ _)
    have hi10 : i < 10 := lt_of_lt_of_le hi (Nat.min_le_right _ _)
    simp only [generateColors_eq, List.getElem?_map, List.getElem?_range hin, Option.map_some',
      colorAt, backgroundAt, borderAt, hi10, if_true]
    interval_cases i <;> exact ⟨_, _, _, rfl, rfl, rfl, rfl, rfl, rfl⟩
  · intro m hm
    simp [generateColors_eq, ← List.map_take, List.take_range, Nat.min_eq_left hm]

theorem generateColors_lengths_and_take_witness :
    3 < min 12 10 ∧ 11 ≤ 12 ∧
    (∃ c b r : String, chartColors.primary[3]? = some c ∧
      chartColors.background[3]? = some b ∧ chartColors.border[3]? = some r ∧
      (generateColors 12).colors[3]? = some c ∧ (generateColors 12).backgrounds[3]? = some b ∧
      (generateColors 12).borders[3]? = some r) ∧
    (generateColors 11).colors = (generateColors 12).colors.take 11 :=
  ⟨by decide, by decide, (generateColors_lengths_and_take 12).2.1 3 (by decide),
    ((generateColors_lengths_and_take 12).2.2 11 (by decide)).1⟩

/-! ## Theorems: global teardown -/

/-- What the loop of `destroyAllCharts` does to one element. -/
theorem destroyCanvases_eq (es : List Element) (destroyed : List Nat) :
    destroyCanvases es destroyed =
      (es.map (fun e => if e.isCanvas then { e with chart := none } else e),
        destroyed ++ es.filterMap canvasChart) := by
  induction es generalizing destroyed with
  | nil => simp [destroyCanvases]
  | cons e es ih =>
    obtain ⟨id, isCanvas, chart⟩ := e
    cases isCanvas <;> cases chart <;>
      simp [destroyCanvases, ih, canvasChart, List.filterMap_cons]

theorem filterMap_canvasChart_cleared (es : List Element) :
    (es.map (fun e => if e.isCanvas then { e with chart := none } else e)).filterMap
      canvasChart = [] := by
  induction es with
  | nil => rfl
  | cons e es ih =>
    obtain ⟨id, isCanvas, chart⟩ := e
    cases isCanvas <;> simp [canvasChart, List.filterMap_cons, ih]

theorem map_cleared_idem (es : List Element) :
    (es.map (fun e => if e.isCanvas then { e with chart := none } else e)).map
      (fun e => if e.isCanvas then { e with chart := none } else e) =
    es.map (fun e => if e.isCanvas then { e with chart := none } else e) := by
  rw [List.map_map]
  apply List.map_congr_left
  intro e _
  obtain ⟨id, isCanvas, chart⟩ := e
  cases isCanvas <;> simp

theorem canvasChart_sublist (es : List Element) :
    (es.filterMap canvasChart).Sublist (es.filterMap (fun e => e.chart)) := by
  induction es with
  | nil => simp
  | cons e es ih =>
    obtain ⟨id, isCanvas, chart⟩ := e
    cases isCanvas <;> cases chart <;>
      simp [canvasChart, List.filterMap_cons, ih]

theorem owned_canvases (pg : Page) (hown : pg.Owned) :
    (pg.elements.filterMap canvasChart).Nodup ∧
    ∀ c ∈ pg.elements.filterMap canvasChart, c ∉ pg.destroyed :=
  ⟨(canvasChart_sublist pg.elements).nodup hown.1,
    fun c hc => hown.2 c ((canvasChart_sublist pg.elements).subset hc)⟩

/-- C12. In a page where every chart bound to an element is bound to that element
only and has not been destroyed, `destroyAllCharts` calls `destroy()` exactly
once on every chart that was bound to a canvas and on nothing else, after
which each of these charts has been destroyed exactly once; no canvas has a
chart bound to it any more; an element that had no chart (or is no canvas) is
left as it was, and every element keeps its id; a second call destroys nothing
and changes nothing. -/
theorem destroyAllCharts_unbinds_all (pg : Page) (hown : pg.Owned) :
    (destroyAllCharts pg).destroyed = pg.destroyed ++ pg.elements.filterMap canvasChart ∧
    (∀ c : Nat, (∃ e ∈ pg.elements, e.isCanvas = true ∧ e.chart = some c) →
      (pg.elements.filterMap canvasChart).count c = 1 ∧
      (destroyAllCharts pg).destroyed.count c = 1) ∧
    (∀ c ∈ pg.elements.filterMap canvasChart,
      ∃ e ∈ pg.elements, e.isCanvas = true ∧ e.chart = some c) ∧
    (∀ e ∈ (destroyAllCharts pg).elements, e.isCanvas = true → e.chart = none) ∧
    (∀ (i : Nat) (e : Element), pg.elements[i]? = some e →
      (e.chart = none ∨ e.isCanvas = false) → (destroyAllCharts pg).elements[i]? = some e) ∧
    (∀ (i : Nat) (e : Element), pg.elements[i]? = some e →
      ∃ e' : Element, (destroyAllCharts pg).elements[i]? = some e' ∧ e'.id = e.id ∧
        e'.isCanvas = e.isCanvas) ∧
    (destroyAllCharts (destroyAllCharts pg)).destroyed = (destroyAllCharts pg).destroyed ∧
    (destroyAllCharts (destroyAllCharts pg)).elements = (destroyAllCharts pg).elements := by
  obtain ⟨hnodup, hlive⟩ := owned_canvases pg hown
  have hmem : ∀ c : Nat, c ∈ pg.elements.filterMap canvasChart ↔
      ∃ e ∈ pg.elements, e.isCanvas = true ∧ e.chart = some c := by
    intro c
    rw [List.mem_filterMap]
    constructor
    · rintro ⟨e, he, hc⟩
      unfold canvasChart at hc
      split at hc
      · exact ⟨e, he, by assumption, hc⟩
      · exact absurd hc (by simp)
    · rintro ⟨e, he, hcv, hc⟩
      exact ⟨e, he, by simp [canvasChart, hcv, hc]⟩
  simp only [destroyAllCharts, destroyCanvases_eq, filterMap_canvasChart_cleared,
    map_cleared_idem, List.append_nil, true_and, and_true]
  refine ⟨?_, ?_, ?_, ?_, ?_⟩
  · intro c hc
    have hin := (hmem c).2 hc
    have h1 : (pg.elements.filterMap canvasChart).count c = 1 :=
      List.count_eq_one_of_mem hnodup hin
    refine ⟨h1, ?_⟩
    rw [List.count_append, h1, List.count_eq_zero.2 (hlive c hin)]
  · intro c hc
    exact (hmem c).1 hc
  · intro e he hcv
    rw [List.mem_map] at he
    obtain ⟨e0, _, rfl⟩ := he
    obtain ⟨id, isCanvas, chart⟩ := e0
    cases isCanvas
    · simp at hcv
    · simp
  · intro i e he hcase
    rw [List.getElem?_map, he]
    obtain ⟨id, isCanvas, chart⟩ := e
    rcases hcase with h | h
    · simp only at h
      subst h
      cases isCanvas <;> simp
    · simp only at h
      subst h
      simp
  · intro i e he
    rw [List.getElem?_map, he]
    obtain ⟨id, isCanvas, chart⟩ := e
    cases isCanvas <;> simp

theorem destroyAllCharts_unbinds_all_witness :
    dashboardPage.Owned ∧
    (destroyAllCharts dashboardPage).destroyed = [1, 0, 2] ∧
    (∀ e ∈ (destroyAllCharts dashboardPage).elements, e.isCanvas = true → e.chart = none) ∧
    (destroyAllCharts (destroyAllCharts dashboardPage)).destroyed =
      (destroyAllCharts dashboardPage).destroyed :=
  have hown : dashboardPage.Owned := ⟨by decide, by decide⟩
  ⟨hown, (destroyAllCharts_unbinds_all dashboardPage hown).1,
    (destroyAllCharts_unbinds_all dashboardPage hown).2.2.2.1,
    (destroyAllCharts_unbinds_all dashboardPage hown).2.2.2.2.2.2.1⟩

/-! The two conditions on the page that the theorems on chart bindings assume
hold on a page without charts and are kept by every constructor call and by
`destroyAllCharts`. -/

theorem freshPage_invariants (elements : List Element) :
    (freshPage elements).Consistent ∧ (freshPage elements).Owned := by
  have hnone : (elements.map (fun e : Element => ({ e with chart := none } : Element))).filterMap
      (fun e => e.chart) = [] := by
    induction elements with
    | nil => rfl
    | cons e es ih => simp [List.filterMap_cons, ih]
  refine ⟨⟨?_, ?_, ?_⟩, ?_, ?_⟩
  · intro e he c hc
    simp only [freshPage, List.mem_map] at he
    obtain ⟨e0, _, rfl⟩ := he
    simp at hc
  · simp [freshPage]
  · simp [freshPage]
  · simp only [freshPage, hnone]
    exact List.nodup_nil
  · simp only [freshPage, hnone]
    simp

theorem assignChart_append (canvasId : String) (c : Option Nat) (pre post : List Element)
    (ctx : Element) (hid : ctx.id = canvasId) (hpre : ∀ a ∈ pre, a.id ≠ canvasId) :
    assignChart canvasId c (pre ++ ctx :: post) = pre ++ { ctx with chart := c } :: post := by
  induction pre with
  | nil => simp [assignChart, hid]
  | cons a as ih =>
    have ha : a.id ≠ canvasId := hpre a (List.mem_cons_self _ _)
    simp [assignChart, ha, ih (fun x hx => hpre x (List.mem_cons_of_mem _ hx))]

theorem nodup_replace (A B o : List Nat) (n : Nat) (h : (A ++ (o ++ B)).Nodup)
    (hlt : ∀ c ∈ A ++ (o ++ B), c < n) :
    (A ++ (n :: B)).Nodup ∧ ∀ c ∈ A ++ (n :: B), c ∉ o := by
  have hA : ∀ c ∈ A, c < n := fun c hc => hlt c (by simp [hc])
  have hB : ∀ c ∈ B, c < n := fun c hc => hlt c (by simp [hc])
  have ho : ∀ c ∈ o, c < n := fun c hc => hlt c (by simp [hc])
  rw [List.nodup_append] at h
  obtain ⟨h1, h2, h3⟩ := h
  rw [List.nodup_append] at h2
  obtain ⟨h4, h5, h6⟩ := h2
  constructor
  · rw [List.nodup_append, List.nodup_cons]
    refine ⟨h1, ⟨fun hn => absurd (hB n hn) (by omega), h5⟩, ?_⟩
    intro a ha hb
    rcases List.mem_cons.1 hb with rfl | hb
    · exact absurd (hA a ha) (by omega)
    · exact h3 ha (List.mem_append_right _ hb)
  · intro c hc hco
    rcases List.mem_append.1 hc with hcA | hcB
    · exact h3 hcA (List.mem_append_left _ hco)
    · rcases List.mem_cons.1 hcB with rfl | hcB
      · exact absurd (ho c hco) (by omega)
      · exact h6 hco hcB

theorem filterMap_chart_split (pre post : List Element) (e : Element) :
    (pre ++ e :: post).filterMap (fun x => x.chart) =
      pre.filterMap (fun x => x.chart) ++
        (e.chart.toList ++ post.filterMap (fun x => x.chart)) := by
  cases h : e.chart <;> simp [List.filterMap_append, List.filterMap_cons, h]

theorem call_preserves_invariants (k : Constructor) (pg : Page) (canvasId : String)
    (data : ChartData) (title : String) (hc : pg.Consistent) (ho : pg.Owned) :
    (k.call canvasId data title pg).2.Consistent ∧ (k.call canvasId data title pg).2.Owned := by
  cases hf : getElementById pg canvasId with
  | none =>
    rw [call_missing k pg canvasId data title hf]
    exact ⟨hc, ho⟩
  | some ctx =>
    rw [call_existing k pg canvasId data title ctx hf]
    obtain ⟨hel, hde, hch⟩ := hc
    obtain ⟨hnd, hlv⟩ := ho
    unfold getElementById at hf
    obtain ⟨hid, pre, post, hsplit, hpre⟩ := List.find?_eq_some.1 hf
    have hid' : ctx.id = canvasId := by simpa using hid
    have hpre' : ∀ a ∈ pre, a.id ≠ canvasId := by
      intro a ha
      simpa using hpre a ha
    have hassign := assignChart_append canvasId (some pg.nextChart) pre post ctx hid' hpre'
    have hbound : ∀ c ∈ pg.elements.filterMap (fun e => e.chart), c < pg.nextChart := by
      intro c hcm
      obtain ⟨e, he, hce⟩ := List.mem_filterMap.1 hcm
      exact hel e he c hce
    have hctx : ∀ c ∈ ctx.chart.toList, c < pg.nextChart := by
      intro c hcm
      apply hbound
      rw [hsplit, filterMap_chart_split]
      simp [hcm]
    rw [hsplit, filterMap_chart_split] at hnd hlv hbound
    obtain ⟨hnd', hfresh⟩ := nodup_replace _ _ _ pg.nextChart hnd hbound
    have hnew : (pre ++ ({ ctx with chart := some pg.nextChart } : Element) :: post).filterMap
        (fun e => e.chart) = pre.filterMap (fun e => e.chart) ++
          (pg.nextChart :: post.filterMap (fun e => e.chart)) := by
      rw [filterMap_chart_split]
      rfl
    simp only [Page.Consistent, Page.Owned]
    rw [hsplit, hassign, hnew]
    refine ⟨⟨?_, ?_, ?_⟩, hnd', ?_⟩
    · intro e he c hce
      rcases List.mem_append.1 he with he | he
      · have := hel e (by rw [hsplit]; exact List.mem_append_left _ he) c hce
        omega
      · rcases List.mem_cons.1 he with rfl | he
        · simp only [Option.some.injEq] at hce
          omega
        · have := hel e (by rw [hsplit]; simp [he]) c hce
          omega
    · intro c hcm
      rcases List.mem_append.1 hcm with h | h
      · have := hde c h
        omega
      · have := hctx c h
        omega
    · intro p hp
      rcases List.mem_append.1 hp with h | h
      · have := hch p h
        omega
      · simp only [List.mem_singleton] at h
        subst h
        simp
    · intro c hcm hcd
      rcases List.mem_append.1 hcd with hd | hd
      · rcases List.mem_append.1 hcm with h | h
        · exact hlv c (List.mem_append_left _ h) hd
        · rcases List.mem_cons.1 h with rfl | h
          · have := hde _ hd
            omega
          · exact hlv c (by simp [h]) hd
      · exact hfresh c hcm hd

theorem cleared_sublist (es : List Element) :
    ((es.map (fun e => if e.isCanvas then { e with chart := none } else e)).filterMap
      (fun e => e.chart)).Sublist (es.filterMap (fun e => e.chart)) := by
  induction es with
  | nil => simp
  | cons e es ih =>
    obtain ⟨id, isCanvas, chart⟩ := e
    cases isCanvas <;> cases chart <;>
      simp only [List.map_cons, List.filterMap_cons, Bool.false_eq_true, if_false, if_true] <;>
      first
        | exact ih
        | exact ih.cons₂ _
        | exact List.Sublist.cons _ ih

theorem cleared_disjoint (es : List Element)
    (hnd : (es.filterMap (fun e => e.chart)).Nodup) :
    ∀ c ∈ es.filterMap canvasChart,
      c ∉ (es.map (fun e => if e.isCanvas then { e with chart := none } else e)).filterMap
        (fun e => e.chart) := by
  induction es with
  | nil => simp
  | cons e es ih =>
    obtain ⟨id, isCanvas, chart⟩ := e
    cases chart with
    | none =>
      have hnd' : (es.filterMap (fun e => e.chart)).Nodup := by
        simpa [List.filterMap_cons] using hnd
      cases isCanvas <;> simpa [canvasChart, List.filterMap_cons] using ih hnd'
    | some c0 =>
      have hnd' : c0 ∉ es.filterMap (fun e => e.chart) ∧
          (es.filterMap (fun e => e.chart)).Nodup := by
        simpa [List.filterMap_cons, List.nodup_cons] using hnd
      cases isCanvas with
      | true =>
        intro c hc hcm
        have hcm' : c ∈ (es.map (fun e => if e.isCanvas then { e with chart := none }
            else e)).filterMap (fun e => e.chart) := by
          simpa [List.filterMap_cons] using hcm
        have hc' : c = c0 ∨ c ∈ es.filterMap canvasChart := by
          simpa [canvasChart, List.filterMap_cons] using hc
        rcases hc' with rfl | hc'
        · exact hnd'.1 ((cleared_sublist es).subset hcm')
        · exact ih hnd'.2 c hc' hcm'
      | false =>
        intro c hc hcm
        have hc' : c ∈ es.filterMap canvasChart := by
          simpa [canvasChart, List.filterMap_cons] using hc
        have hcm' : c = c0 ∨ c ∈ (es.map (fun e => if e.isCanvas then { e with chart := none }
            else e)).filterMap (fun e => e.chart) := by
          simpa [List.filterMap_cons] using hcm
        rcases hcm' with rfl | hcm'
        · exact hnd'.1 ((canvasChart_sublist es).subset hc')
        · exact ih hnd'.2 c hc' hcm'

theorem destroyAllCharts_preserves_invariants (pg : Page) (hc : pg.Consistent)
    (ho : pg.Owned) : (destroyAllCharts pg).Consistent ∧ (destroyAllCharts pg).Owned := by
  obtain ⟨hel, hde, hch⟩ := hc
  obtain ⟨hnd, hlv⟩ := ho
  have hbound : ∀ c ∈ pg.elements.filterMap (fun e => e.chart), c < pg.nextChart := by
    intro c hcm
    obtain ⟨e, he, hce⟩ := List.mem_filterMap.1 hcm
    exact hel e he c hce
  simp only [Page.Consistent, Page.Owned, destroyAllCharts, destroyCanvases_eq]
  refine ⟨⟨?_, ?_, hch⟩, (cleared_sublist pg.elements).nodup hnd, ?_⟩
  · intro e he c hce
    apply hbound
    apply (cleared_sublist pg.elements).subset
    exact List.mem_filterMap.2 ⟨e, he, hce⟩
  · intro c hcm
    rcases List.mem_append.1 hcm with h | h
    · exact hde c h
    · exact hbound c ((canvasChart_sublist pg.elements).subset h)
  · intro c hcm hcd
    rcases List.mem_append.1 hcd with h | h
    · exact hlv c ((cleared_sublist pg.elements).subset hcm) h
    · exact cleared_disjoint pg.elements hnd c h hcm

/-! ## Theorems: status badge and button spinner -/

/-- C16. The code breaks the claim: after a call with an unknown status and a
call with `completed`, the badge carries two status background classes,
`bg-secondary` and `bg-success`, because `bg-secondary` is not in the list of
classes that the function removes. -/
theorem updateStatusBadge_keeps_secondary :
    (updateStatusBadge (updateStatusBadge ⟨["badge"], ""⟩ "pending") "completed").classList =
      ["badge", "bg-secondary", "bg-success"] ∧
    (updateStatusBadge (updateStatusBadge ⟨["badge"], ""⟩ "pending") "completed").statusClasses =
      ["bg-secondary", "bg-success"] := by
  constructor <;> decide

/-- C19. The code breaks the claim: for an enabled button with empty content,
`showButtonLoading` followed by `hideButtonLoading` leaves the button disabled
and showing the spinner, because the saved empty text is falsy. -/
theorem hideButtonLoading_empty_content_stuck :
    hideButtonLoading (showButtonLoading ⟨"", false, none⟩ none) =
      ⟨"<span class=\"spinner-border spinner-border-sm me-2\"></span>Carregando...", true,
        some ""⟩ ∧
    (hideButtonLoading (showButtonLoading ⟨"", false, none⟩ none)).disabled = true := by
  constructor <;> decide

/-- For content that is not empty, `showButtonLoading` followed by
`hideButtonLoading` restores the content and enables the button. -/
theorem hideButtonLoading_restores_nonempty (button : Button) (text : Option String)
    (h : button.innerHTML ≠ "") :
    (hideButtonLoading (showButtonLoading button text)).innerHTML = button.innerHTML ∧
    (hideButtonLoading (showButtonLoading button text)).disabled = false := by
  simp [hideButtonLoading, showButtonLoading, truthyString, h]

/-! ## Theorems: email format -/

theorem matchItems_one (cls : Char → Bool) (rest : List RegexItem) (cs : List Char) :
    matchItems (.one cls :: rest) cs = true ↔
      ∃ c tl, cs = c :: tl ∧ cls c = true ∧ matchItems rest tl = true := by
  cases cs with
  | nil => simp [matchItems]
  | cons c tl =>
    simp only [matchItems, Bool.and_eq_true, List.cons.injEq]
    constructor
    · rintro ⟨h1, h2⟩
      exact ⟨c, tl, ⟨rfl, rfl⟩, h1, h2⟩
    · rintro ⟨c', tl', ⟨rfl, rfl⟩, h1, h2⟩
      exact ⟨h1, h2⟩

theorem matchItems_plus (cls : Char → Bool) (rest : List RegexItem) (cs : List Char) :
    matchItems (.plus cls :: rest) cs = true ↔
      ∃ X Y, X ≠ [] ∧ cs = X ++ Y ∧ (∀ c ∈ X, cls c = true) ∧ matchItems rest Y = true := by
  induction cs with
  | nil =>
    simp only [matchItems]
    constructor
    · intro h
      exact absurd h (by simp)
    · rintro ⟨X, Y, hne, hcs, _, _⟩
      cases X with
      | nil => exact absurd rfl hne
      | cons x X' => simp at hcs
  | cons c tl ih =>
    simp only [matchItems, Bool.and_eq_true, Bool.or_eq_true, ih]
    constructor
    · rintro ⟨hc, h | ⟨X, Y, _, rfl, hX, hY⟩⟩
      · exact ⟨[c], tl, by simp, rfl, by simpa using hc, h⟩
      · refine ⟨c :: X, Y, by simp, rfl, ?_, hY⟩
        intro d hd
        rcases List.mem_cons.1 hd with rfl | hd
        · exact hc
        · exact hX d hd
    · rintro ⟨X, Y, hne, hcs, hX, hY⟩
      cases X with
      | nil => exact absurd rfl hne
      | cons x X' =>
        simp only [List.cons_append, List.cons.injEq] at hcs
        obtain ⟨rfl, rfl⟩ := hcs
        refine ⟨hX c (List.mem_cons_self _ _), ?_⟩
        cases X' with
        | nil => exact Or.inl hY
        | cons y X'' =>
          exact Or.inr ⟨y :: X'', Y, by simp, rfl,
            fun d hd => hX d (List.mem_cons_of_mem _ hd), hY⟩

theorem matchItems_nil (cs : List Char) : matchItems [] cs = true ↔ cs = [] := by
  cases cs <;> simp [matchItems]

/-- The strings that the regular expression of `isValidEmail` matches. -/
theorem isValidEmail_iff_parts (email : String) :
    isValidEmail email = true ↔
      ∃ X Y Z : List Char, email.data = X ++ '@' :: (Y ++ '.' :: Z) ∧
        X ≠ [] ∧ Y ≠ [] ∧ Z ≠ [] ∧
        (∀ c ∈ X, notSpaceOrAt c = true) ∧ (∀ c ∈ Y, notSpaceOrAt c = true) ∧
        (∀ c ∈ Z, notSpaceOrAt c = true) := by
  unfold isValidEmail emailRegex
  simp only [matchItems_plus, matchItems_one, matchItems_nil]
  constructor
  · rintro ⟨X, r1, hX, h1, hXc, c1, r2, rfl, hc1, Y, r3, hY, rfl, hYc, c2, r4, rfl, hc2,
      Z, e, hZ, rfl, hZc, rfl⟩
    have e1 : c1 = '@' := by simpa using hc1
    have e2 : c2 = '.' := by simpa using hc2
    subst e1
    subst e2
    exact ⟨X, Y, Z, by simpa using h1, hX, hY, hZ, hXc, hYc, hZc⟩
  · rintro ⟨X, Y, Z, h, hX, hY, hZ, hXc, hYc, hZc⟩
    exact ⟨X, _, hX, h, hXc, '@', _, rfl, by simp, Y, _, hY, rfl, hYc, '.', _, rfl, by simp,
      Z, [], hZ, by simp, hZc, rfl⟩

theorem notSpaceOrAt_iff (c : Char) :
    notSpaceOrAt c = true ↔ isJsWhitespace c = false ∧ c ≠ '@' := by
  simp [notSpaceOrAt]

/-- C17. `isValidEmail` accepts a string exactly when it contains no white space,
contains exactly one `@`, has a non-empty part before the `@`, and the part
after the `@` contains a `.` with at least one character before it and at
least one character after it; every other string, the empty string included,
is rejected. -/
theorem isValidEmail_iff_shape (email : String) :
    (isValidEmail email = true ↔
      (∀ c ∈ email.data, isJsWhitespace c = false) ∧ email.data.count '@' = 1 ∧
      ∃ name domain : List Char, email.data = name ++ '@' :: domain ∧ name ≠ [] ∧
        ∃ before after : List Char, domain = before ++ '.' :: after ∧
          before ≠ [] ∧ after ≠ []) ∧
    isValidEmail "" = false := by
  refine ⟨?_, by decide⟩
  rw [isValidEmail_iff_parts]
  constructor
  · rintro ⟨X, Y, Z, h, hX, hY, hZ, hXc, hYc, hZc⟩
    have hat : isJsWhitespace '@' = false := by decide
    have hdot : isJsWhitespace '.' = false := by decide
    have cX : X.count '@' = 0 :=
      List.count_eq_zero.2 (fun hm => ((notSpaceOrAt_iff _).1 (hXc _ hm)).2 rfl)
    have cY : Y.count '@' = 0 :=
      List.count_eq_zero.2 (fun hm => ((notSpaceOrAt_iff _).1 (hYc _ hm)).2 rfl)
    have cZ : Z.count '@' = 0 :=
      List.count_eq_zero.2 (fun hm => ((notSpaceOrAt_iff _).1 (hZc _ hm)).2 rfl)
    refine ⟨?_, ?_, X, Y ++ '.' :: Z, h, hX, Y, Z, rfl, hY, hZ⟩
    · intro c hc
      rw [h] at hc
      simp only [List.mem_append, List.mem_cons] at hc
      rcases hc with hc | rfl | hc | rfl | hc
      · exact ((notSpaceOrAt_iff _).1 (hXc c hc)).1
      · exact hat
      · exact ((notSpaceOrAt_iff _).1 (hYc c hc)).1
      · exact hdot
      · exact ((notSpaceOrAt_iff _).1 (hZc c hc)).1
    · rw [h]
      have hne : ('.' : Char) ≠ '@' := by decide
      simp [List.count_append, List.count_cons, cX, cY, cZ, hne]
  · rintro ⟨hws, hcount, name, domain, h, hname, before, after, rfl, hb, ha⟩
    rw [h] at hcount hws
    have hc : name.count '@' = 0 ∧ before.count '@' = 0 ∧ after.count '@' = 0 := by
      have hne : ('.' : Char) ≠ '@' := by decide
      simp only [List.count_append, List.count_cons, beq_self_eq_true, if_true] at hcount
      have hdot : (('.' : Char) == '@') = false := by decide
      simp only [hdot] at hcount
      simp only [Bool.false_eq_true, if_false] at hcount
      omega
    obtain ⟨c1, c2, c3⟩ := hc
    refine ⟨name, before, after, h, hname, hb, ha, ?_, ?_, ?_⟩
    · intro c hm
      refine (notSpaceOrAt_iff c).2 ⟨hws c (by simp [hm]), fun he => ?_⟩
      subst he
      exact List.count_eq_zero.1 c1 hm
    · intro c hm
      refine (notSpaceOrAt_iff c).2 ⟨hws c (by simp [hm]), fun he => ?_⟩
      subst he
      exact List.count_eq_zero.1 c2 hm
    · intro c hm
      refine (notSpaceOrAt_iff c).2 ⟨hws c (by simp [hm]), fun he => ?_⟩
      subst he
      exact List.count_eq_zero.1 c3 hm

/-! ## Theorems: form validation -/

theorem validateRequired_result (fields : List Field) (i : Nat) (st : FormState)
    (isValid : Bool) :
    (validateRequired fields i st isValid).2 = false ↔
      isValid = false ∨ ∃ f ∈ fields, f.required = true ∧ jsTrim f.value = "" := by
  induction fields generalizing i st isValid with
  | nil => simp [validateRequired]
  | cons f fs ih =>
    unfold validateRequired
    split_ifs with hr hb
    · rw [ih]
      simp [hr, hb]
    · rw [ih]
      simp [hr, hb]
    · rw [ih]
      simp [hr]

theorem validateEmails_result (fields : List Field) (i : Nat) (st : FormState)
    (isValid : Bool) :
    (validateEmails fields i st isValid).2 = false ↔
      isValid = false ∨
        ∃ f ∈ fields, f.isEmail = true ∧ f.value ≠ "" ∧ isValidEmail f.value = false := by
  induction fields generalizing i st isValid with
  | nil => simp [validateEmails]
  | cons f fs ih =>
    unfold validateEmails
    split_ifs with hr hb
    · rw [ih]
      simp [hr, hb.1, hb.2]
    · rw [ih]
      have hb2 : ¬ (¬ f.value = "" ∧ isValidEmail f.value = false) := hb
      simp [hr, hb2]
    · rw [ih]
      simp [hr]

theorem validateForm_result (fields : List Field) (st : FormState) :
    (validateForm fields st).1 = false ↔
      (∃ f ∈ fields, f.required = true ∧ jsTrim f.value = "") ∨
      (∃ f ∈ fields, f.isEmail = true ∧ f.value ≠ "" ∧ isValidEmail f.value = false) := by
  unfold validateForm
  simp only [validateEmails_result, validateRequired_result]
  simp

/-- C14. For every form, `validateForm` returns `false` if and only if some
required field has a value that is empty after trimming or some email field
has a non-empty value that `isValidEmail` rejects; the submit handler prevents
the submission in exactly those cases; and validation always returns a
boolean. -/
theorem validateForm_false_iff (fields : List Field) (st : FormState) :
    ((validateForm fields st).1 = false ↔
      (∃ f ∈ fields, f.required = true ∧ jsTrim f.value = "") ∨
      (∃ f ∈ fields, f.isEmail = true ∧ f.value ≠ "" ∧ isValidEmail f.value = false)) ∧
    ((submitHandler fields st).1 = true ↔
      (∃ f ∈ fields, f.required = true ∧ jsTrim f.value = "") ∨
      (∃ f ∈ fields, f.isEmail = true ∧ f.value ≠ "" ∧ isValidEmail f.value = false)) ∧
    ((validateForm fields st).1 = true ∨ (validateForm fields st).1 = false) := by
  refine ⟨validateForm_result fields st, ?_, ?_⟩
  · rw [← validateForm_result fields st]
    simp [submitHandler]
  · cases (validateForm fields st).1 <;> simp

/-! ### The tree of the form -/

theorem feedbacks_eq_nil_iff (d : Dom) : d.feedbacks = [] ↔ d.hasFeedback = false := by
  induction d with
  | nil => simp [Dom.feedbacks, Dom.hasFeedback]
  | input i rest ih => simpa [Dom.feedbacks, Dom.hasFeedback] using ih
  | feedback text rest _ => simp [Dom.feedbacks, Dom.hasFeedback]
  | box children rest ihc ihr => simp [Dom.feedbacks, Dom.hasFeedback, ihc, ihr]

theorem feedbacks_setFirstFeedback (message : String) (d : Dom) :
    (d.setFirstFeedback message).feedbacks =
      (match d.feedbacks with
        | [] => []
        | _ :: rest => message :: rest) := by
  induction d with
  | nil => rfl
  | input i rest ih => simpa [Dom.setFirstFeedback, Dom.feedbacks] using ih
  | feedback text rest _ => rfl
  | box children rest ihc ihr =>
    simp only [Dom.setFirstFeedback]
    split_ifs with h
    · have hne : children.feedbacks ≠ [] := fun e => by
        rw [(feedbacks_eq_nil_iff children).1 e] at h
        exact Bool.false_ne_true h
      simp only [Dom.feedbacks, ihc]
      cases hc : children.feedbacks with
      | nil => exact absurd hc hne
      | cons a l => rfl
    · have hnil : children.feedbacks = [] :=
        (feedbacks_eq_nil_iff children).2 (by simpa using h)
      simp only [Dom.feedbacks, ihr, hnil, List.nil_append]

theorem feedbacks_removeFirstFeedback (d : Dom) :
    d.removeFirstFeedback.feedbacks = d.feedbacks.tail := by
  induction d with
  | nil => rfl
  | input i rest ih => simpa [Dom.removeFirstFeedback, Dom.feedbacks] using ih
  | feedback text rest _ => rfl
  | box children rest ihc ihr =>
    simp only [Dom.removeFirstFeedback]
    split_ifs with h
    · have hne : children.feedbacks ≠ [] := fun e => by
        rw [(feedbacks_eq_nil_iff children).1 e] at h
        exact Bool.false_ne_true h
      simp only [Dom.feedbacks, ihc]
      cases hc : children.feedbacks with
      | nil => exact absurd hc hne
      | cons a l => rfl
    · have hnil : children.feedbacks = [] :=
        (feedbacks_eq_nil_iff children).2 (by simpa using h)
      simp only [Dom.feedbacks, ihr, hnil, List.nil_append]

theorem feedbacks_appendFeedback (message : String) (d : Dom) :
    (d.appendFeedback message).feedbacks = d.feedbacks ++ [message] := by
  induction d with
  | nil => rfl
  | input i rest ih => simpa [Dom.appendFeedback, Dom.feedbacks] using ih
  | feedback text rest ih => simp [Dom.appendFeedback, Dom.feedbacks, ih]
  | box children rest _ ihr => simp [Dom.appendFeedback, Dom.feedbacks, ihr]

/-- The messages under a parent after `showFeedback`: the first one is
replaced, and a parent without messages receives one. -/
theorem feedbacks_showFeedback (message : String) (d : Dom) :
    (d.showFeedback message).feedbacks =
      (match d.feedbacks with
        | [] => [message]
        | _ :: rest => message :: rest) := by
  unfold Dom.showFeedback
  split_ifs with h
  · rw [feedbacks_setFirstFeedback]
    cases hc : d.feedbacks with
    | nil =>
      rw [(feedbacks_eq_nil_iff d).1 hc] at h
      exact absurd h Bool.false_ne_true
    | cons a l => rfl
  · rw [feedbacks_appendFeedback, (feedbacks_eq_nil_iff d).2 (by simpa using h)]
    rfl

theorem skeleton_setFirstFeedback (message : String) (d : Dom) :
    (d.setFirstFeedback message).skeleton = d.skeleton := by
  induction d with
  | nil => rfl
  | input i rest ih => simp [Dom.setFirstFeedback, Dom.skeleton, ih]
  | feedback text rest _ => rfl
  | box children rest ihc ihr =>
    simp only [Dom.setFirstFeedback]
    split_ifs <;> simp [Dom.skeleton, ihc, ihr]

theorem skeleton_removeFirstFeedback (d : Dom) :
    d.removeFirstFeedback.skeleton = d.skeleton := by
  induction d with
  | nil => rfl
  | input i rest ih => simp [Dom.removeFirstFeedback, Dom.skeleton, ih]
  | feedback text rest _ => rfl
  | box children rest ihc ihr =>
    simp only [Dom.removeFirstFeedback]
    split_ifs <;> simp [Dom.skeleton, ihc, ihr]

theorem skeleton_appendFeedback (message : String) (d : Dom) :
    (d.appendFeedback message).skeleton = d.skeleton := by
  induction d with
  | nil => rfl
  | input i rest ih => simp [Dom.appendFeedback, Dom.skeleton, ih]
  | feedback text rest ih => simpa [Dom.appendFeedback, Dom.skeleton] using ih
  | box children rest _ ihr => simp [Dom.appendFeedback, Dom.skeleton, ihr]

theorem skeleton_showFeedback (message : String) (d : Dom) :
    (d.showFeedback message).skeleton = d.skeleton := by
  unfold Dom.showFeedback
  split_ifs
  · exact skeleton_setFirstFeedback message d
  · exact skeleton_appendFeedback message d

theorem skeleton_modifyBox (f : Dom → Dom) (hf : ∀ c : Dom, (f c).skeleton = c.skeleton)
    (d : Dom) (k : Nat) : (d.modifyBox f k).skeleton = d.skeleton := by
  induction d generalizing k with
  | nil => rfl
  | input i rest ih => simp [Dom.modifyBox, Dom.skeleton, ih]
  | feedback text rest ih => simpa [Dom.modifyBox, Dom.skeleton] using ih k
  | box children rest _ ihr =>
    cases k with
    | zero => simp [Dom.modifyBox, Dom.skeleton, hf]
    | succ k => simp [Dom.modifyBox, Dom.skeleton, ihr]

theorem skeleton_modifyAt (op : Dom → Dom) (hop : ∀ c : Dom, (op c).skeleton = c.skeleton)
    (d : Dom) (path : List Nat) : (d.modifyAt op path).skeleton = d.skeleton := by
  induction path generalizing d with
  | nil => exact hop d
  | cons k path ih => exact skeleton_modifyBox _ (fun c => ih c) d k

theorem skeleton_atParent (op : Dom → Dom) (hop : ∀ c : Dom, (op c).skeleton = c.skeleton)
    (d : Dom) (i : Nat) : (d.atParent i op).skeleton = d.skeleton := by
  unfold Dom.atParent
  cases d.parentPath i with
  | none => rfl
  | some path => exact skeleton_modifyAt op hop d path

theorem hasInput_skeleton (d : Dom) (i : Nat) : d.skeleton.hasInput i = d.hasInput i := by
  induction d with
  | nil => rfl
  | input j rest ih => simp [Dom.skeleton, Dom.hasInput, ih]
  | feedback text rest ih => simpa [Dom.skeleton, Dom.hasInput] using ih
  | box children rest _ ihr => simpa [Dom.skeleton, Dom.hasInput] using ihr

theorem findPath_skeleton (d : Dom) (i k : Nat) :
    d.skeleton.findPath i k = d.findPath i k := by
  induction d generalizing k with
  | nil => rfl
  | input j rest ih => simpa [Dom.skeleton, Dom.findPath] using ih k
  | feedback text rest ih => simpa [Dom.skeleton, Dom.findPath] using ih k
  | box children rest ihc ihr =>
    simp only [Dom.skeleton, Dom.findPath, hasInput_skeleton, ihc, ihr]

/-- The path of the parent of a field depends on the tree without its feedback
elements only. -/
theorem parentPath_skeleton (d : Dom) (i : Nat) :
    d.skeleton.parentPath i = d.parentPath i := by
  simp only [Dom.parentPath, hasInput_skeleton, findPath_skeleton]

theorem parentPath_congr (d e : Dom) (h : d.skeleton = e.skeleton) (i : Nat) :
    d.parentPath i = e.parentPath i := by
  rw [← parentPath_skeleton d, ← parentPath_skeleton e, h]

theorem apart_congr (d e : Dom) (h : d.skeleton = e.skeleton) (i j : Nat) :
    d.apart i j = e.apart i j := by
  simp only [Dom.apart, parentPath_congr d e h]

theorem nthBox_modifyBox_same (f : Dom → Dom) (d : Dom) (k : Nat) :
    (d.modifyBox f k).nthBox k = (d.nthBox k).map f := by
  induction d generalizing k with
  | nil => rfl
  | input i rest ih => simpa [Dom.modifyBox, Dom.nthBox] using ih k
  | feedback text rest ih => simpa [Dom.modifyBox, Dom.nthBox] using ih k
  | box children rest _ ihr =>
    cases k with
    | zero => rfl
    | succ k => simpa [Dom.modifyBox, Dom.nthBox] using ihr k

theorem nthBox_modifyBox_ne (f : Dom → Dom) (d : Dom) (j k : Nat) (h : j ≠ k) :
    (d.modifyBox f k).nthBox j = d.nthBox j := by
  induction d generalizing j k with
  | nil => rfl
  | input i rest ih => simpa [Dom.modifyBox, Dom.nthBox] using ih j k h
  | feedback text rest ih => simpa [Dom.modifyBox, Dom.nthBox] using ih j k h
  | box children rest _ ihr =>
    cases k with
    | zero =>
      cases j with
      | zero => exact absurd rfl h
      | succ j => rfl
    | succ k =>
      cases j with
      | zero => rfl
      | succ j => simpa [Dom.modifyBox, Dom.nthBox] using ihr j k (fun e => h (by rw [e]))

theorem getAt_modifyAt_same (op : Dom → Dom) (d : Dom) (path : List Nat) :
    (d.modifyAt op path).getAt path = (d.getAt path).map op := by
  induction path generalizing d with
  | nil => rfl
  | cons k path ih =>
    simp only [Dom.modifyAt, Dom.getAt, nthBox_modifyBox_same]
    cases d.nthBox k with
    | none => rfl
    | some c => simpa using ih c

/-- A change under one element leaves alone what lies under an element that is
neither inside it nor around it. -/
theorem getAt_modifyAt_apart (op : Dom → Dom) (d : Dom) (p q : List Nat)
    (hpq : isAncestorOrSelf p q = false) (hqp : isAncestorOrSelf q p = false) :
    (d.modifyAt op p).getAt q = d.getAt q := by
  induction p generalizing d q with
  | nil => simp [isAncestorOrSelf] at hpq
  | cons a p ih =>
    cases q with
    | nil => simp [isAncestorOrSelf] at hqp
    | cons b q =>
      by_cases hab : b = a
      · subst hab
        simp only [isAncestorOrSelf, beq_self_eq_true, Bool.true_and] at hpq hqp
        simp only [Dom.modifyAt, Dom.getAt, nthBox_modifyBox_same]
        cases d.nthBox b with
        | none => rfl
        | some c => simpa using ih c q hpq hqp
      · simp only [Dom.modifyAt, Dom.getAt, nthBox_modifyBox_ne _ _ _ _ hab]

theorem findPath_getAt (d : Dom) (i k : Nat) (path : List Nat)
    (h : d.findPath i k = some path) :
    ∃ (j : Nat) (inner : List Nat), path = (k + j) :: inner ∧
      ((d.nthBox j).bind (fun c => c.getAt inner)).isSome = true := by
  induction d generalizing k path with
  | nil => simp [Dom.findPath] at h
  | input a rest ih => exact ih k path (by simpa [Dom.findPath] using h)
  | feedback text rest ih => exact ih k path (by simpa [Dom.findPath] using h)
  | box children rest ihc ihr =>
    simp only [Dom.findPath] at h
    split_ifs at h with hc
    · refine ⟨0, [], ?_, rfl⟩
      simpa using h.symm
    · cases hf : children.findPath i 0 with
      | some inner =>
        rw [hf] at h
        obtain ⟨j, deeper, hpath, hsome⟩ := ihc 0 inner hf
        refine ⟨0, inner, by simpa using h.symm, ?_⟩
        rw [hpath]
        simpa [Dom.nthBox, Dom.getAt] using hsome
      | none =>
        rw [hf] at h
        obtain ⟨j, inner, hpath, hsome⟩ := ihr (k + 1) path h
        refine ⟨j + 1, inner, ?_, ?_⟩
        · rw [hpath]
          congr 1
          omega
        · simpa [Dom.nthBox] using hsome

/-- The path of the parent of a field leads to an element of the tree. -/
theorem parentPath_getAt (d : Dom) (i : Nat) (path : List Nat)
    (h : d.parentPath i = some path) : ∃ c : Dom, d.getAt path = some c := by
  unfold Dom.parentPath at h
  split_ifs at h
  · exact ⟨d, by rw [← Option.some.inj h]; rfl⟩
  · obtain ⟨j, inner, hpath, hsome⟩ := findPath_getAt d i 0 path h
    rw [hpath, Nat.zero_add]
    exact Option.isSome_iff_exists.1 hsome

theorem parentPath_atParent (op : Dom → Dom) (hop : ∀ c : Dom, (op c).skeleton = c.skeleton)
    (d : Dom) (i j : Nat) : (d.atParent j op).parentPath i = d.parentPath i :=
  parentPath_congr _ _ (skeleton_atParent op hop d j) i

/-- The messages next to a field after an operation on the children of its own
parent. -/
theorem messages_atParent_self (op : Dom → Dom)
    (hop : ∀ c : Dom, (op c).skeleton = c.skeleton) (d : Dom) (n : Nat) (path : List Nat)
    (c : Dom) (hpath : d.parentPath n = some path) (hc : d.getAt path = some c) :
    (d.atParent n op).messages n = (op c).feedbacks ∧ d.messages n = c.feedbacks := by
  constructor
  · unfold Dom.messages
    rw [parentPath_atParent op hop, hpath]
    simp only [Dom.atParent, hpath, getAt_modifyAt_same, hc, Option.map_some']
  · simp only [Dom.messages, hpath, hc]

/-- The messages next to a field after an operation on the children of the
parent of a field that is apart from it. -/
theorem messages_atParent_apart (op : Dom → Dom)
    (hop : ∀ c : Dom, (op c).skeleton = c.skeleton) (d : Dom) (n j : Nat)
    (hap : d.apart n j = true) : (d.atParent j op).messages n = d.messages n := by
  unfold Dom.messages
  rw [parentPath_atParent op hop]
  unfold Dom.atParent
  cases hj : d.parentPath j with
  | none => rfl
  | some p =>
    cases hn : d.parentPath n with
    | none => rfl
    | some q =>
      simp only [Dom.apart, hj, hn, Bool.and_eq_true, Bool.not_eq_true'] at hap
      simp only [getAt_modifyAt_apart op d p q hap.2 hap.1]

theorem messages_showFieldError_self (st : FormState) (n : Nat) (message : String)
    (hin : (st.dom.parentPath n).isSome = true) :
    (showFieldError st n message).messages n =
      (match st.messages n with
        | [] => [message]
        | _ :: rest => message :: rest) := by
  obtain ⟨path, hpath⟩ := Option.isSome_iff_exists.1 hin
  obtain ⟨c, hc⟩ := parentPath_getAt st.dom n path hpath
  obtain ⟨h1, h2⟩ := messages_atParent_self (Dom.showFeedback message)
    (skeleton_showFeedback message) st.dom n path c hpath hc
  show (st.dom.atParent n (Dom.showFeedback message)).messages n = _
  rw [h1, FormState.messages, h2]
  exact feedbacks_showFeedback message c

theorem messages_clearFieldError_self (st : FormState) (n : Nat) :
    (clearFieldError st n).messages n = (st.messages n).tail := by
  show (st.dom.atParent n Dom.removeFirstFeedback).messages n = (st.dom.messages n).tail
  cases hpath : st.dom.parentPath n with
  | none => simp [Dom.atParent, Dom.messages, hpath]
  | some path =>
    obtain ⟨c, hc⟩ := parentPath_getAt st.dom n path hpath
    obtain ⟨h1, h2⟩ := messages_atParent_self Dom.removeFirstFeedback
      skeleton_removeFirstFeedback st.dom n path c hpath hc
    rw [h1, h2]
    exact feedbacks_removeFirstFeedback c

theorem messages_showFieldError_apart (st : FormState) (n j : Nat) (message : String)
    (hap : st.dom.apart n j = true) :
    (showFieldError st j message).messages n = st.messages n :=
  messages_atParent_apart _ (skeleton_showFeedback message) st.dom n j hap

theorem messages_clearFieldError_apart (st : FormState) (n j : Nat)
    (hap : st.dom.apart n j = true) :
    (clearFieldError st j).messages n = st.messages n :=
  messages_atParent_apart _ skeleton_removeFirstFeedback st.dom n j hap

theorem skeleton_showFieldError (st : FormState) (j : Nat) (message : String) :
    (showFieldError st j message).dom.skeleton = st.dom.skeleton :=
  skeleton_atParent _ (skeleton_showFeedback message) st.dom j

theorem skeleton_clearFieldError (st : FormState) (j : Nat) :
    (clearFieldError st j).dom.skeleton = st.dom.skeleton :=
  skeleton_atParent _ skeleton_removeFirstFeedback st.dom j

/-- Validation adds, changes and removes feedback elements only. -/
theorem validateRequired_skeleton (fs : List Field) (i : Nat) (st : FormState)
    (isValid : Bool) :
    (validateRequired fs i st isValid).1.dom.skeleton = st.dom.skeleton := by
  induction fs generalizing i st isValid with
  | nil => rfl
  | cons g gs ih =>
    simp only [validateRequired]
    split_ifs
    · rw [ih, skeleton_showFieldError]
    · rw [ih, skeleton_clearFieldError]
    · exact ih _ _ _

theorem validateEmails_skeleton (fs : List Field) (i : Nat) (st : FormState)
    (isValid : Bool) :
    (validateEmails fs i st isValid).1.dom.skeleton = st.dom.skeleton := by
  induction fs generalizing i st isValid with
  | nil => rfl
  | cons g gs ih =>
    simp only [validateEmails]
    split_ifs
    · rw [ih, skeleton_showFieldError]
    · exact ih _ _ _
    · exact ih _ _ _

theorem validateForm_skeleton (fields : List Field) (st : FormState) :
    (validateForm fields st).2.dom.skeleton = st.dom.skeleton := by
  simp only [validateForm]
  rw [validateEmails_skeleton, validateRequired_skeleton]

theorem validateRequired_append (pre rest : List Field) (i : Nat) (st : FormState)
    (isValid : Bool) :
    validateRequired (pre ++ rest) i st isValid =
      validateRequired rest (i + pre.length) (validateRequired pre i st isValid).1
        (validateRequired pre i st isValid).2 := by
  induction pre generalizing i st isValid with
  | nil => simp [validateRequired]
  | cons g gs ih =>
    have hidx : i + (g :: gs).length = i + 1 + gs.length := by
      simp only [List.length_cons]
      omega
    rw [hidx]
    simp only [List.cons_append, validateRequired]
    split_ifs <;> exact ih _ _ _

theorem validateEmails_append (pre rest : List Field) (i : Nat) (st : FormState)
    (isValid : Bool) :
    validateEmails (pre ++ rest) i st isValid =
      validateEmails rest (i + pre.length) (validateEmails pre i st isValid).1
        (validateEmails pre i st isValid).2 := by
  induction pre generalizing i st isValid with
  | nil => simp [validateEmails]
  | cons g gs ih =>
    have hidx : i + (g :: gs).length = i + 1 + gs.length := by
      simp only [List.length_cons]
      omega
    rw [hidx]
    simp only [List.cons_append, validateEmails]
    split_ifs <;> exact ih _ _ _

/-- The required-field loop touches the mark of a position only when it visits
that position. -/
theorem validateRequired_invalid_frame (fs : List Field) (i : Nat) (st : FormState)
    (isValid : Bool) (j : Nat) (hj : j < i ∨ i + fs.length ≤ j) :
    (validateRequired fs i st isValid).1.invalid j = st.invalid j := by
  induction fs generalizing i st isValid with
  | nil => simp [validateRequired]
  | cons g gs ih =>
    have hne : j ≠ i := by
      simp only [List.length_cons] at hj
      omega
    have hj2 : j < i + 1 ∨ i + 1 + gs.length ≤ j := by
      simp only [List.length_cons] at hj
      omega
    simp only [validateRequired]
    split_ifs
    · rw [ih _ _ _ hj2]
      simp [showFieldError, Function.update_noteq hne]
    · rw [ih _ _ _ hj2]
      simp [clearFieldError, Function.update_noteq hne]
    · exact ih _ _ _ hj2

theorem validateEmails_invalid_frame (fs : List Field) (i : Nat) (st : FormState)
    (isValid : Bool) (j : Nat) (hj : j < i ∨ i + fs.length ≤ j) :
    (validateEmails fs i st isValid).1.invalid j = st.invalid j := by
  induction fs generalizing i st isValid with
  | nil => simp [validateEmails]
  | cons g gs ih =>
    have hne : j ≠ i := by
      simp only [List.length_cons] at hj
      omega
    have hj2 : j < i + 1 ∨ i + 1 + gs.length ≤ j := by
      simp only [List.length_cons] at hj
      omega
    simp only [validateEmails]
    split_ifs
    · rw [ih _ _ _ hj2]
      simp [showFieldError, Function.update_noteq hne]
    · exact ih _ _ _ hj2
    · exact ih _ _ _ hj2

/-- The required-field loop leaves the messages next to field `n` alone while
every required field it visits is apart from field `n`. -/
theorem validateRequired_messages_frame (fs : List Field) (i : Nat) (st : FormState)
    (isValid : Bool) (n : Nat)
    (hap : ∀ (k : Nat) (g : Field), fs[k]? = some g → g.required = true →
      st.dom.apart n (i + k) = true) :
    (validateRequired fs i st isValid).1.messages n = st.messages n := by
  induction fs generalizing i st isValid with
  | nil => simp [validateRequired]
  | cons g gs ih =>
    have hrest : ∀ st2 : FormState, st2.dom.skeleton = st.dom.skeleton →
        ∀ (k : Nat) (h : Field), gs[k]? = some h → h.required = true →
          st2.dom.apart n (i + 1 + k) = true := by
      intro st2 hsk k h hk hr
      rw [apart_congr _ _ hsk, Nat.add_assoc, Nat.add_comm 1 k]
      exact hap (k + 1) h (by simpa using hk) hr
    simp only [validateRequired]
    split_ifs with hr hb
    · rw [ih _ _ _ (hrest _ (skeleton_showFieldError st i _))]
      exact messages_showFieldError_apart st n i _ (hap 0 g (by simp) hr)
    · rw [ih _ _ _ (hrest _ (skeleton_clearFieldError st i))]
      exact messages_clearFieldError_apart st n i (hap 0 g (by simp) hr)
    · exact ih _ _ _ (hrest st rfl)

theorem validateEmails_messages_frame (fs : List Field) (i : Nat) (st : FormState)
    (isValid : Bool) (n : Nat)
    (hap : ∀ (k : Nat) (g : Field), fs[k]? = some g → g.isEmail = true →
      st.dom.apart n (i + k) = true) :
    (validateEmails fs i st isValid).1.messages n = st.messages n := by
  induction fs generalizing i st isValid with
  | nil => simp [validateEmails]
  | cons g gs ih =>
    have hrest : ∀ st2 : FormState, st2.dom.skeleton = st.dom.skeleton →
        ∀ (k : Nat) (h : Field), gs[k]? = some h → h.isEmail = true →
          st2.dom.apart n (i + 1 + k) = true := by
      intro st2 hsk k h hk hr
      rw [apart_congr _ _ hsk, Nat.add_assoc, Nat.add_comm 1 k]
      exact hap (k + 1) h (by simpa using hk) hr
    simp only [validateEmails]
    split_ifs with hr hb
    · rw [ih _ _ _ (hrest _ (skeleton_showFieldError st i _))]
      exact messages_showFieldError_apart st n i _ (hap 0 g (by simp) hr)
    · exact ih _ _ _ (hrest st rfl)
    · exact ih _ _ _ (hrest st rfl)

/-- A value that trims to the empty string is never a valid email. -/
theorem isValidEmail_of_blank (value : String) (hblank : jsTrim value = "") :
    isValidEmail value = false := by
  cases hv : isValidEmail value with
  | false => rfl
  | true =>
    exfalso
    obtain ⟨X, Y, Z, h, hX, -, -, hXc, -, -⟩ := (isValidEmail_iff_parts value).1 hv
    obtain ⟨c, X1, rfl⟩ := List.exists_cons_of_ne_nil hX
    have hc : isJsWhitespace c = false :=
      ((notSpaceOrAt_iff c).1 (hXc c (List.mem_cons_self _ _))).1
    have hnil : ((value.data.dropWhile isJsWhitespace).reverse.dropWhile
        isJsWhitespace).reverse = [] := by
      have := congrArg String.data hblank
      simpa [jsTrim] using this
    rw [List.reverse_eq_nil_iff, List.dropWhile_eq_nil_iff] at hnil
    rw [h] at hnil
    have := hnil c (by simp [List.dropWhile, hc])
    rw [hc] at this
    exact Bool.false_ne_true this

/-- What the required-field loop leaves at the position of one field and next
to it, when every other required field is apart from it. -/
theorem validateRequired_at (pre post : List Field) (f : Field) (st : FormState)
    (isValid : Bool) (hin : (st.dom.parentPath pre.length).isSome = true)
    (hap : ∀ (j : Nat) (g : Field), (pre ++ f :: post)[j]? = some g → j ≠ pre.length →
      g.required = true → st.dom.apart pre.length j = true) :
    (validateRequired (pre ++ f :: post) 0 st isValid).1.invalid pre.length =
        (if f.required = true then decide (jsTrim f.value = "")
          else st.invalid pre.length) ∧
    (validateRequired (pre ++ f :: post) 0 st isValid).1.messages pre.length =
        (if f.required = true then
          if jsTrim f.value = "" then
            (match st.messages pre.length with
              | [] => ["Este campo é obrigatório"]
              | _ :: rest => "Este campo é obrigatório" :: rest)
          else (st.messages pre.length).tail
        else st.messages pre.length) := by
  have hpre : ∀ (k : Nat) (g : Field), pre[k]? = some g → g.required = true →
      st.dom.apart pre.length (0 + k) = true := by
    intro k g hk hr
    have hlt : k < pre.length := (List.getElem?_eq_some_iff.1 hk).1
    rw [Nat.zero_add]
    exact hap k g (by rw [List.getElem?_append_left hlt]; exact hk) (by omega) hr
  have hpost : ∀ st2 : FormState, st2.dom.skeleton = st.dom.skeleton →
      ∀ (k : Nat) (g : Field), post[k]? = some g → g.required = true →
        st2.dom.apart pre.length (pre.length + 1 + k) = true := by
    intro st2 hsk k g hk hr
    rw [apart_congr _ _ hsk]
    refine hap _ g ?_ (by omega) hr
    rw [List.getElem?_append_right (by omega)]
    have e : pre.length + 1 + k - pre.length = k + 1 := by omega
    rw [e]
    simpa using hk
  have hi := validateRequired_invalid_frame pre 0 st isValid pre.length (Or.inr (by omega))
  have hm := validateRequired_messages_frame pre 0 st isValid pre.length hpre
  have hsk := validateRequired_skeleton pre 0 st isValid
  have hin2 : ((validateRequired pre 0 st isValid).1.dom.parentPath pre.length).isSome = true := by
    rw [parentPath_congr _ _ hsk]
    exact hin
  rw [validateRequired_append]
  simp only [validateRequired, Nat.zero_add]
  split_ifs with hr hb
  · rw [validateRequired_invalid_frame _ _ _ _ _ (Or.inl (by omega)),
      validateRequired_messages_frame _ _ _ _ _
        (hpost _ ((skeleton_showFieldError _ _ _).trans hsk)),
      messages_showFieldError_self _ _ _ hin2, hm]
    refine ⟨by simp [showFieldError, hb], ?_⟩
    cases st.messages pre.length <;> rfl
  · rw [validateRequired_invalid_frame _ _ _ _ _ (Or.inl (by omega)),
      validateRequired_messages_frame _ _ _ _ _
        (hpost _ ((skeleton_clearFieldError _ _).trans hsk)),
      messages_clearFieldError_self, hm]
    exact ⟨by simp [clearFieldError, hb], rfl⟩
  · rw [validateRequired_invalid_frame _ _ _ _ _ (Or.inl (by omega)),
      validateRequired_messages_frame _ _ _ _ _ (hpost _ hsk)]
    exact ⟨hi, hm⟩

/-- What the email loop leaves at the position of one field and next to it,
when every other email field is apart from it. -/
theorem validateEmails_at (pre post : List Field) (f : Field) (st : FormState)
    (isValid : Bool) (hin : (st.dom.parentPath pre.length).isSome = true)
    (hap : ∀ (j : Nat) (g : Field), (pre ++ f :: post)[j]? = some g → j ≠ pre.length →
      g.isEmail = true → st.dom.apart pre.length j = true) :
    (validateEmails (pre ++ f :: post) 0 st isValid).1.invalid pre.length =
        (if f.isEmail = true then
          if f.value ≠ "" ∧ isValidEmail f.value = false then true
          else st.invalid pre.length
        else st.invalid pre.length) ∧
    (validateEmails (pre ++ f :: post) 0 st isValid).1.messages pre.length =
        (if f.isEmail = true then
          if f.value ≠ "" ∧ isValidEmail f.value = false then
            (match st.messages pre.length with
              | [] => ["Email inválido"]
              | _ :: rest => "Email inválido" :: rest)
          else st.messages pre.length
        else st.messages pre.length) := by
  have hpre : ∀ (k : Nat) (g : Field), pre[k]? = some g → g.isEmail = true →
      st.dom.apart pre.length (0 + k) = true := by
    intro k g hk hr
    have hlt : k < pre.length := (List.getElem?_eq_some_iff.1 hk).1
    rw [Nat.zero_add]
    exact hap k g (by rw [List.getElem?_append_left hlt]; exact hk) (by omega) hr
  have hpost : ∀ st2 : FormState, st2.dom.skeleton = st.dom.skeleton →
      ∀ (k : Nat) (g : Field), post[k]? = some g → g.isEmail = true →
        st2.dom.apart pre.length (pre.length + 1 + k) = true := by
    intro st2 hsk k g hk hr
    rw [apart_congr _ _ hsk]
    refine hap _ g ?_ (by omega) hr
    rw [List.getElem?_append_right (by omega)]
    have e : pre.length + 1 + k - pre.length = k + 1 := by omega
    rw [e]
    simpa using hk
  have hi := validateEmails_invalid_frame pre 0 st isValid pre.length (Or.inr (by omega))
  have hm := validateEmails_messages_frame pre 0 st isValid pre.length hpre
  have hsk := validateEmails_skeleton pre 0 st isValid
  have hin2 : ((validateEmails pre 0 st isValid).1.dom.parentPath pre.length).isSome = true := by
    rw [parentPath_congr _ _ hsk]
    exact hin
  rw [validateEmails_append]
  simp only [validateEmails, Nat.zero_add]
  split_ifs with hr hb
  · rw [validateEmails_invalid_frame _ _ _ _ _ (Or.inl (by omega)),
      validateEmails_messages_frame _ _ _ _ _
        (hpost _ ((skeleton_showFieldError _ _ _).trans hsk)),
      messages_showFieldError_self _ _ _ hin2, hm]
    refine ⟨by simp [showFieldError], ?_⟩
    cases st.messages pre.length <;> rfl
  · rw [validateEmails_invalid_frame _ _ _ _ _ (Or.inl (by omega)),
      validateEmails_messages_frame _ _ _ _ _ (hpost _ hsk)]
    exact ⟨hi, hm⟩
  · rw [validateEmails_invalid_frame _ _ _ _ _ (Or.inl (by omega)),
      validateEmails_messages_frame _ _ _ _ _ (hpost _ hsk)]
    exact ⟨hi, hm⟩

/-- One validation pass over a form whose required field `f` is blank, when every
other required or email field is apart from `f` and at most one message is
attached next to `f`. -/
theorem validateForm_blank (pre post : List Field) (f : Field) (st : FormState)
    (hreq : f.required = true) (hblank : jsTrim f.value = "")
    (hin : (st.dom.parentPath pre.length).isSome = true)
    (hap : ∀ (j : Nat) (g : Field), (pre ++ f :: post)[j]? = some g → j ≠ pre.length →
      g.required = true ∨ g.isEmail = true → st.dom.apart pre.length j = true)
    (hfb : (st.messages pre.length).length ≤ 1) :
    (validateForm (pre ++ f :: post) st).2.invalid pre.length = true ∧
    (validateForm (pre ++ f :: post) st).2.messages pre.length =
      [if f.isEmail = true ∧ f.value ≠ "" then "Email inválido"
        else "Este campo é obrigatório"] := by
  have hsk := validateRequired_skeleton (pre ++ f :: post) 0 st true
  have hR := validateRequired_at pre post f st true hin
    (fun j g hj hne h => hap j g hj hne (Or.inl h))
  have hE := validateEmails_at pre post f (validateRequired (pre ++ f :: post) 0 st true).1
    (validateRequired (pre ++ f :: post) 0 st true).2
    (by rw [parentPath_congr _ _ hsk]; exact hin)
    (fun j g hj hne h => by
      rw [apart_congr _ _ hsk]
      exact hap j g hj hne (Or.inr h))
  have hbad := isValidEmail_of_blank f.value hblank
  simp only [validateForm]
  rw [hE.1, hE.2, hR.1, hR.2]
  simp only [hreq, hblank, hbad, if_true, decide_True, and_true]
  match hst : st.messages pre.length, hfb with
  | [], _ => by_cases h1 : f.isEmail = true <;> by_cases h2 : f.value = "" <;> simp [h1, h2]
  | [m], _ => by_cases h1 : f.isEmail = true <;> by_cases h2 : f.value = "" <;> simp [h1, h2]
  | _ :: _ :: _, h => simp at h

/-- The pass that follows the correction of the required field `f`. -/
theorem validateForm_corrected (pre post : List Field) (f : Field) (st : FormState)
    (value : String) (hreq : f.required = true) (hvalue : jsTrim value ≠ "")
    (hemail : f.isEmail = true → isValidEmail value = true)
    (hin : (st.dom.parentPath pre.length).isSome = true)
    (hap : ∀ (j : Nat) (g : Field), (pre ++ f :: post)[j]? = some g → j ≠ pre.length →
      g.required = true ∨ g.isEmail = true → st.dom.apart pre.length j = true)
    (hfb : (st.messages pre.length).length ≤ 1) :
    (validateForm (pre ++ { f with value := value } :: post) st).2.invalid pre.length = false ∧
    (validateForm (pre ++ { f with value := value } :: post) st).2.messages pre.length = [] := by
  have hap2 : ∀ (j : Nat) (g : Field),
      (pre ++ { f with value := value } :: post)[j]? = some g → j ≠ pre.length →
      g.required = true ∨ g.isEmail = true → st.dom.apart pre.length j = true := by
    intro j g hj hne h
    refine hap j g ?_ hne h
    rcases Nat.lt_or_gt_of_ne hne with hlt | hgt
    · rw [List.getElem?_append_left hlt] at hj ⊢
      exact hj
    · rw [List.getElem?_append_right (by omega)] at hj ⊢
      obtain ⟨m, hm⟩ : ∃ m, j - pre.length = m + 1 := ⟨j - pre.length - 1, by omega⟩
      rw [hm] at hj ⊢
      simpa using hj
  have hsk := validateRequired_skeleton (pre ++ { f with value := value } :: post) 0 st true
  have hR := validateRequired_at pre post { f with value := value } st true hin
    (fun j g hj hne h => hap2 j g hj hne (Or.inl h))
  have hE := validateEmails_at pre post { f with value := value }
    (validateRequired (pre ++ { f with value := value } :: post) 0 st true).1
    (validateRequired (pre ++ { f with value := value } :: post) 0 st true).2
    (by rw [parentPath_congr _ _ hsk]; exact hin)
    (fun j g hj hne h => by
      rw [apart_congr _ _ hsk]
      exact hap2 j g hj hne (Or.inr h))
  simp only [validateForm]
  simp only [] at hR hE
  rw [hE.1, hE.2, hR.1, hR.2]
  have htail : (st.messages pre.length).tail = [] := by
    match hst : st.messages pre.length, hfb with
    | [], _ => rfl
    | [m], _ => rfl
    | _ :: _ :: _, h => simp at h
  by_cases h1 : f.isEmail = true
  · simp [hreq, hvalue, h1, hemail h1, htail]
  · simp [hreq, hvalue, h1, htail]

theorem validatePasses_succ (fields : List Field) (passes : Nat) (st : FormState) :
    validatePasses fields (passes + 1) st =
      (validateForm fields (validatePasses fields passes st)).2 := by
  induction passes generalizing st with
  | zero => rfl
  | succ k ih =>
    show validatePasses fields (k + 1) (validateForm fields st).2 = _
    rw [ih]
    rfl

theorem validatePasses_skeleton (fields : List Field) (passes : Nat) (st : FormState) :
    (validatePasses fields passes st).dom.skeleton = st.dom.skeleton := by
  induction passes with
  | zero => rfl
  | succ k ih => rw [validatePasses_succ, validateForm_skeleton, ih]

/-- However many passes have run, at most one message is attached next to the
blank required field. -/
theorem validatePasses_messages_le (pre post : List Field) (f : Field) (st : FormState)
    (hreq : f.required = true) (hblank : jsTrim f.value = "")
    (hin : (st.dom.parentPath pre.length).isSome = true)
    (hap : ∀ (j : Nat) (g : Field), (pre ++ f :: post)[j]? = some g → j ≠ pre.length →
      g.required = true ∨ g.isEmail = true → st.dom.apart pre.length j = true)
    (hfb : (st.messages pre.length).length ≤ 1) (passes : Nat) :
    ((validatePasses (pre ++ f :: post) passes st).messages pre.length).length ≤ 1 := by
  induction passes with
  | zero => exact hfb
  | succ k ih =>
    have hsk := validatePasses_skeleton (pre ++ f :: post) k st
    rw [validatePasses_succ, (validateForm_blank pre post f _ hreq hblank
      (by rw [parentPath_congr _ _ hsk]; exact hin)
      (fun j g hj hne h => by rw [apart_congr _ _ hsk]; exact hap j g hj hne h) ih).2]
    simp

/-- C13, as stated, fails in four ways. A filled required field that shares
the parent of an empty required field removes the message of the empty one,
so the empty field is marked invalid with no message next to it. The same
happens when the empty field has a `div` of its own and the filled one is a
child of the form, because the search for the message covers all descendants
of the parent. A required email field corrected from empty to the non-blank
`abc` keeps its invalid mark. A parent that already holds two messages holds
two after the pass. -/
theorem required_message_not_exactly_one :
    ((validateForm twoRequired (unmarked sharedParent)).1 = false ∧
      (validateForm twoRequired (unmarked sharedParent)).2.invalid 0 = true ∧
      (validateForm twoRequired (unmarked sharedParent)).2.messages 0 = []) ∧
    ((validateForm twoRequired (unmarked nestedParent)).1 = false ∧
      (validateForm twoRequired (unmarked nestedParent)).2.invalid 0 = true ∧
      (validateForm twoRequired (unmarked nestedParent)).2.messages 0 = []) ∧
    (jsTrim "abc" ≠ "" ∧
      (validateForm [⟨true, true, "abc"⟩]
        (validateForm [⟨true, true, ""⟩] (unmarked (.input 0 .nil))).2).2.invalid 0 = true ∧
      (validateForm [⟨true, true, "abc"⟩]
        (validateForm [⟨true, true, ""⟩] (unmarked (.input 0 .nil))).2).2.messages 0 =
          ["Email inválido"]) ∧
    (validateForm [⟨true, false, ""⟩]
        (unmarked (.input 0 (.feedback "a" (.feedback "b" .nil))))).2.messages 0 =
      ["Este campo é obrigatório", "b"] := by
  decide

/-- C13, amended. Take a form with a required field `f` whose value is empty or
white space only, such that the parent of every other required or email field
is neither the parent of `f`, nor an element around it, nor an element inside
it, and such that at most one feedback element lies inside the parent of `f`
at the start. Then every validation pass returns `false` and the submit
handler prevents the submission; after any number of passes, at least one, the
field is marked invalid and exactly one message lies inside its parent; and
once the value is corrected to one that is not blank (and, for an email field,
that `isValidEmail` accepts), the next pass removes the mark and leaves no
message. -/
theorem required_blank_single_message (pre post : List Field) (f : Field) (st : FormState)
    (value : String) (passes : Nat)
    (hreq : f.required = true) (hblank : jsTrim f.value = "")
    (hin : (st.dom.parentPath pre.length).isSome = true)
    (hap : ∀ (j : Nat) (g : Field), (pre ++ f :: post)[j]? = some g → j ≠ pre.length →
      g.required = true ∨ g.isEmail = true → st.dom.apart pre.length j = true)
    (hfb : (st.messages pre.length).length ≤ 1)
    (hvalue : jsTrim value ≠ "") (hemail : f.isEmail = true → isValidEmail value = true) :
    (validateForm (pre ++ f :: post) (validatePasses (pre ++ f :: post) passes st)).1 = false ∧
    (submitHandler (pre ++ f :: post) (validatePasses (pre ++ f :: post) passes st)).1 = true ∧
    (validatePasses (pre ++ f :: post) (passes + 1) st).invalid pre.length = true ∧
    (validatePasses (pre ++ f :: post) (passes + 1) st).messages pre.length =
      [if f.isEmail = true ∧ f.value ≠ "" then "Email inválido"
        else "Este campo é obrigatório"] ∧
    (validateForm (pre ++ { f with value := value } :: post)
      (validatePasses (pre ++ f :: post) (passes + 1) st)).2.invalid pre.length = false ∧
    (validateForm (pre ++ { f with value := value } :: post)
      (validatePasses (pre ++ f :: post) (passes + 1) st)).2.messages pre.length = [] := by
  have hfalse : ∀ s, (validateForm (pre ++ f :: post) s).1 = false := fun s =>
    (validateForm_result _ s).2 (Or.inl ⟨f, by simp, hreq, hblank⟩)
  have hle := validatePasses_messages_le pre post f st hreq hblank hin hap hfb
  have hin2 : ∀ k, ((validatePasses (pre ++ f :: post) k st).dom.parentPath
      pre.length).isSome = true := fun k => by
    rw [parentPath_congr _ _ (validatePasses_skeleton _ k st)]
    exact hin
  have hap2 : ∀ k (j : Nat) (g : Field), (pre ++ f :: post)[j]? = some g → j ≠ pre.length →
      g.required = true ∨ g.isEmail = true →
      (validatePasses (pre ++ f :: post) k st).dom.apart pre.length j = true :=
    fun k j g hj hne h => by
      rw [apart_congr _ _ (validatePasses_skeleton _ k st)]
      exact hap j g hj hne h
  have hpass := validateForm_blank pre post f _ hreq hblank (hin2 passes) (hap2 passes)
    (hle passes)
  have hfix := validateForm_corrected pre post f _ value hreq hvalue hemail
    (hin2 (passes + 1)) (hap2 (passes + 1)) (hle (passes + 1))
  refine ⟨hfalse _, ?_, ?_, ?_, hfix.1, hfix.2⟩
  · simp [submitHandler, hfalse]
  · rw [validatePasses_succ]
    exact hpass.1
  · rw [validatePasses_succ]
    exact hpass.2

theorem required_blank_single_message_witness :
    jsTrim "  " = "" ∧ ownParents.apart 0 1 = true ∧
    (validateForm signupForm (validatePasses signupForm 2 (unmarked ownParents))).1 = false ∧
    (validatePasses signupForm 3 (unmarked ownParents)).invalid 0 = true ∧
    (validatePasses signupForm 3 (unmarked ownParents)).messages 0 =
      ["Este campo é obrigatório"] ∧
    (validateForm [⟨true, false, "Ana"⟩, ⟨false, true, "ana@example.com"⟩]
      (validatePasses signupForm 3 (unmarked ownParents))).2.messages 0 = [] :=
  have h := required_blank_single_message [] [⟨false, true, "ana@example.com"⟩]
    ⟨true, false, "  "⟩ (unmarked ownParents) "Ana" 2 rfl (by decide) (by decide)
    (fun j g hj hne _ =>
      match j, hj, hne with
      | 0, _, hne => absurd rfl hne
      | 1, _, _ => by decide
      | _ + 2, hj, _ => by simp at hj)
    (by decide) (by decide) (by decide)
  ⟨by decide, by decide, h.1, h.2.2.1, h.2.2.2.1, h.2.2.2.2.2⟩

/-! ## Theorems: file sizes -/

theorem roundHalfEven_mono (x y : ℚ) (h : x ≤ y) : roundHalfEven x ≤ roundHalfEven y := by
  have hfl : ⌊x⌋ ≤ ⌊y⌋ := Int.floor_mono h
  have hx1 : roundHalfEven x ≤ ⌊x⌋ + 1 := by
    unfold roundHalfEven
    simp only []
    split_ifs <;> omega
  have hy0 : ⌊y⌋ ≤ roundHalfEven y := by
    unfold roundHalfEven
    simp only []
    split_ifs <;> omega
  rcases lt_or_eq_of_le hfl with hlt | heq
  · omega
  · have hfrac : x - ⌊x⌋ ≤ y - ⌊y⌋ := by
      rw [heq]
      linarith
    unfold roundHalfEven
    simp only []
    rw [heq] at hfrac ⊢
    split_ifs with h1 h2 h3 h4 h5 h6 h7 h8 <;> first | omega | (exfalso; linarith)

theorem binaryExponent_mono (a b : ℚ) (ha : 0 < a) (hab : a ≤ b) :
    binaryExponent a ≤ binaryExponent b := by
  have h1 := (binaryExponent_spec a ha).1
  have h2 := (binaryExponent_spec b (lt_of_lt_of_le ha hab)).2
  have h3 : (2 : ℚ) ^ binaryExponent a < (2 : ℚ) ^ (binaryExponent b + 1) :=
    lt_of_le_of_lt (le_trans h1 hab) h2
  have := (zpow_lt_zpow_iff_right₀ (by norm_num : (1 : ℚ) < 2)).1 h3
  omega

theorem ulpOf_eq (a : ℚ) :
    ulpOf a = (2 : ℚ) ^ (max (binaryExponent a) (-1022) - 52) := by
  unfold ulpOf
  rw [pow2_eq]

/-- Rounding to a double keeps the order of positive numbers. -/
theorem roundedValue_mono (a b : ℚ) (ha : 0 < a) (hab : a ≤ b) :
    roundedValue a ≤ roundedValue b := by
  have hb : 0 < b := lt_of_lt_of_le ha hab
  have he := binaryExponent_mono a b ha hab
  have hE : max (binaryExponent a) (-1022) ≤ max (binaryExponent b) (-1022) :=
    max_le_max he le_rfl
  have h2 : (0 : ℚ) < 2 := by norm_num
  have h12 : (1 : ℚ) < 2 := by norm_num
  rcases eq_or_lt_of_le hE with heq | hlt
  · have hu : ulpOf a = ulpOf b := by rw [ulpOf_eq, ulpOf_eq, heq]
    unfold roundedValue
    rw [hu]
    have hpos := ulpOf_pos b
    have hdiv : a / ulpOf b ≤ b / ulpOf b := div_le_div_of_nonneg_right hab (le_of_lt hpos)
    have := roundHalfEven_mono _ _ hdiv
    exact mul_le_mul_of_nonneg_right (by exact_mod_cast this) (le_of_lt hpos)
  · set Ea := max (binaryExponent a) (-1022) with hEa
    set Eb := max (binaryExponent b) (-1022) with hEb
    have hEbe : Eb = binaryExponent b := by
      have : -1022 ≤ Ea := le_max_right _ _
      rw [hEb]
      apply max_eq_left
      by_contra hc
      have : Eb = -1022 := by
        rw [hEb]
        exact max_eq_right (by omega)
      omega
    have hua : ulpOf a = (2 : ℚ) ^ (Ea - 52) := ulpOf_eq a
    have hub : ulpOf b = (2 : ℚ) ^ (Eb - 52) := ulpOf_eq b
    have hpa : (0 : ℚ) < (2 : ℚ) ^ (Ea - 52) := zpow_pos h2 _
    have hpb : (0 : ℚ) < (2 : ℚ) ^ (Eb - 52) := zpow_pos h2 _
    -- the rounded value of `a` is at most `2 ^ (Ea + 1)`
    have ha_lt : a ≤ (2 : ℚ) ^ (Ea + 1) := by
      have h1 := (binaryExponent_spec a ha).2
      have h3 : (2 : ℚ) ^ (binaryExponent a + 1) ≤ (2 : ℚ) ^ (Ea + 1) :=
        zpow_le_zpow_right₀ (le_of_lt h12) (by have := le_max_left (binaryExponent a) (-1022); omega)
      exact le_trans (le_of_lt h1) h3
    have hsplit_a : (2 : ℚ) ^ (Ea + 1) = ((2 ^ 53 : ℤ) : ℚ) * (2 : ℚ) ^ (Ea - 52) := by
      have : Ea + 1 = 53 + (Ea - 52) := by ring
      rw [this, zpow_add₀ (ne_of_gt h2)]
      norm_num
    have hra : roundedValue a ≤ (2 : ℚ) ^ (Ea + 1) := by
      unfold roundedValue
      rw [hua, hsplit_a]
      have hdiv : a / (2 : ℚ) ^ (Ea - 52) ≤ ((2 ^ 53 : ℤ) : ℚ) := by
        rw [div_le_iff₀ hpa, ← hsplit_a]
        exact ha_lt
      have := roundHalfEven_mono _ _ hdiv
      rw [roundHalfEven_intCast] at this
      exact mul_le_mul_of_nonneg_right (by exact_mod_cast this) (le_of_lt hpa)
    -- the rounded value of `b` is at least `2 ^ Eb`
    have hb_ge : (2 : ℚ) ^ Eb ≤ b := by
      rw [hEbe]
      exact (binaryExponent_spec b hb).1
    have hsplit_b : (2 : ℚ) ^ Eb = ((2 ^ 52 : ℤ) : ℚ) * (2 : ℚ) ^ (Eb - 52) := by
      have : Eb = 52 + (Eb - 52) := by ring
      nth_rewrite 1 [this]
      rw [zpow_add₀ (ne_of_gt h2)]
      norm_num
    have hrb : (2 : ℚ) ^ Eb ≤ roundedValue b := by
      unfold roundedValue
      rw [hub, hsplit_b]
      have hdiv : ((2 ^ 52 : ℤ) : ℚ) ≤ b / (2 : ℚ) ^ (Eb - 52) := by
        rw [le_div_iff₀ hpb, ← hsplit_b]
        exact hb_ge
      have := roundHalfEven_mono _ _ hdiv
      rw [roundHalfEven_intCast] at this
      exact mul_le_mul_of_nonneg_right (by exact_mod_cast this) (le_of_lt hpb)
    have hmid : (2 : ℚ) ^ (Ea + 1) ≤ (2 : ℚ) ^ Eb :=
      zpow_le_zpow_right₀ (le_of_lt h12) (by omega)
    exact le_trans hra (le_trans hmid hrb)

/-- Rounding a quotient to a double keeps the order: when the larger number
rounds to a finite double, so does the smaller one, to a double that is not
larger. -/
theorem roundToDouble_mono (a b rb : ℚ) (ha : 0 ≤ a) (hab : a ≤ b)
    (hb : roundToDouble b = .fin rb) :
    ∃ ra : ℚ, roundToDouble a = .fin ra ∧ 0 ≤ ra ∧ ra ≤ rb := by
  rcases eq_or_lt_of_le ha with h0 | hpos
  · subst h0
    refine ⟨0, roundToDouble_zero, le_rfl, ?_⟩
    rcases eq_or_lt_of_le hab with h0b | hbpos
    · rw [← h0b, roundToDouble_zero] at hb
      exact le_of_eq (JSNumber.fin.inj hb)
    · rw [roundToDouble_pos_eq b hbpos] at hb
      split_ifs at hb
      rw [← JSNumber.fin.inj hb]
      exact (roundedValue_error b hbpos).1
  · have hbpos : 0 < b := lt_of_lt_of_le hpos hab
    rw [roundToDouble_pos_eq b hbpos] at hb
    split_ifs at hb with hover
    have hrb : rb = roundedValue b := (JSNumber.fin.inj hb).symm
    have hle := roundedValue_mono a b hpos hab
    refine ⟨roundedValue a, ?_, (roundedValue_error a hpos).1, by rw [hrb]; exact hle⟩
    rw [roundToDouble_pos_eq a hpos, if_neg]
    exact fun h => hover (le_trans h hle)

/-- A positive number with at most 53 significant binary digits and a moderate
exponent is a double: rounding leaves it as it is. -/
theorem roundToDouble_dyadic (m s : ℕ) (hm0 : 0 < m) (hm : m < 2 ^ 53) (hs : s ≤ 1022) :
    roundToDouble ((m : ℚ) / 2 ^ s) = .fin ((m : ℚ) / 2 ^ s) := by
  have h2 : (0 : ℚ) < 2 := by norm_num
  have h12 : (1 : ℚ) < 2 := by norm_num
  have hpow : (0 : ℚ) < 2 ^ s := pow_pos h2 s
  have hmq : (0 : ℚ) < m := by exact_mod_cast hm0
  set a : ℚ := (m : ℚ) / 2 ^ s with ha
  have hapos : 0 < a := div_pos hmq hpow
  obtain ⟨hlo, hhi⟩ := binaryExponent_spec a hapos
  set e := binaryExponent a with he
  -- the exponent lies between `-s` and `52 - s`
  have hage : (2 : ℚ) ^ (-(s : ℤ)) ≤ a := by
    rw [ha, zpow_neg, zpow_natCast, ← one_div]
    exact div_le_div_of_nonneg_right (by exact_mod_cast hm0) (le_of_lt hpow)
  have he1 : -(s : ℤ) ≤ e := by
    have := (zpow_lt_zpow_iff_right₀ h12).1 (lt_of_le_of_lt hage hhi)
    omega
  have halt : a < (2 : ℚ) ^ ((53 : ℤ) - s) := by
    rw [ha, zpow_sub₀ (ne_of_gt h2), zpow_natCast]
    apply div_lt_div_of_pos_right _ hpow
    exact_mod_cast hm
  have he2 : e + s ≤ 52 := by
    have := (zpow_lt_zpow_iff_right₀ h12).1 (lt_of_le_of_lt hlo halt)
    omega
  have hmax : max e (-1022) = e := max_eq_left (by omega)
  have hulp : ulpOf a = (2 : ℚ) ^ (e - 52) := by rw [ulpOf_eq, ← he, hmax]
  obtain ⟨t, ht⟩ : ∃ t : ℕ, (t : ℤ) = 52 - s - e := ⟨(52 - s - e).toNat, by omega⟩
  have hquot : a / (2 : ℚ) ^ (e - 52) = (((m * 2 ^ t : ℕ) : ℤ) : ℚ) := by
    have hup : (0 : ℚ) < (2 : ℚ) ^ (e - 52) := zpow_pos h2 _
    rw [div_eq_iff (ne_of_gt hup), ha, div_eq_iff (ne_of_gt hpow)]
    push_cast
    have e1 : ((2 : ℚ) ^ t) = (2 : ℚ) ^ ((52 : ℤ) - s - e) := by rw [← ht, zpow_natCast]
    have e2 : ((2 : ℚ) ^ s) = (2 : ℚ) ^ (s : ℤ) := (zpow_natCast _ _).symm
    rw [e1, e2, mul_assoc, mul_assoc, ← zpow_add₀ (ne_of_gt h2), ← zpow_add₀ (ne_of_gt h2)]
    have : (52 : ℤ) - s - e + (e - 52 + s) = 0 := by ring
    rw [this, zpow_zero, mul_one]
  have hval : roundedValue a = a := by
    unfold roundedValue
    rw [hulp, hquot, roundHalfEven_intCast, ← hquot]
    exact div_mul_cancel₀ _ (ne_of_gt (zpow_pos h2 _))
  rw [roundToDouble_pos_eq a hapos, hval, if_neg]
  rw [pow2_eq, not_le]
  have h53 : (2 : ℚ) ^ ((53 : ℤ) - s) ≤ (2 : ℚ) ^ (1024 : ℤ) :=
    zpow_le_zpow_right₀ (le_of_lt h12) (by omega)
  exact lt_of_lt_of_le halt h53

theorem roundToDouble_natCast (m : ℕ) (hm : m < 2 ^ 53) :
    roundToDouble (m : ℚ) = .fin (m : ℚ) := by
  rcases Nat.eq_zero_or_pos m with h0 | hpos
  · subst h0
    simpa using roundToDouble_zero
  · simpa using roundToDouble_dyadic m 0 hpos hm (by norm_num)

/-- The ten decimal digit characters. -/
theorem digitChar_facts (k : ℕ) (hk : k < 10) :
    (Nat.digitChar k).isDigit = true ∧ isJsWhitespace (Nat.digitChar k) = false ∧
    Nat.digitChar k ≠ '-' ∧ Nat.digitChar k ≠ '+' ∧ Nat.digitChar k ≠ 'I' ∧
    (Nat.digitChar k).toNat - '0'.toNat = k := by
  interval_cases k <;> decide

theorem toDigitsCore_spec (fuel : ℕ) : ∀ (n : ℕ) (ds : List Char), n < fuel →
    ∃ pre : List Char, Nat.toDigitsCore 10 fuel n ds = pre ++ ds ∧ pre ≠ [] ∧
      (∀ c ∈ pre, ∃ k : ℕ, k < 10 ∧ c = Nat.digitChar k) ∧ digitsValue 0 pre = n := by
  induction fuel with
  | zero => intro n ds h; omega
  | succ fuel ih =>
    intro n ds hn
    have hd := (digitChar_facts (n % 10) (Nat.mod_lt _ (by norm_num))).2.2.2.2.2
    simp only [Nat.toDigitsCore]
    split_ifs with h0
    · refine ⟨[Nat.digitChar (n % 10)], rfl, by simp, ?_, ?_⟩
      · intro c hc
        exact ⟨n % 10, Nat.mod_lt _ (by norm_num), by simpa using hc⟩
      · simp only [digitsValue, List.foldl_cons, List.foldl_nil, hd]
        omega
    · obtain ⟨pre, hpre, -, hdig, hval⟩ := ih (n / 10) (Nat.digitChar (n % 10) :: ds) (by omega)
      refine ⟨pre ++ [Nat.digitChar (n % 10)], by rw [hpre]; simp, by simp, ?_, ?_⟩
      · intro c hc
        rcases List.mem_append.1 hc with h | h
        · exact hdig c h
        · exact ⟨n % 10, Nat.mod_lt _ (by norm_num), by simpa using h⟩
      · unfold digitsValue at hval ⊢
        rw [List.foldl_append, hval]
        simp only [List.foldl_cons, List.foldl_nil, hd]
        omega

/-- The decimal digits of a natural number: not empty, digits only, and they
read back as the number. -/
theorem natDigits_spec (n : ℕ) :
    natDigits n ≠ [] ∧ (∀ c ∈ natDigits n, ∃ k : ℕ, k < 10 ∧ c = Nat.digitChar k) ∧
      digitsValue 0 (natDigits n) = n := by
  obtain ⟨pre, hpre, hne, hdig, hval⟩ := toDigitsCore_spec (n + 1) n [] (Nat.lt_succ_self n)
  have : natDigits n = pre := by
    simp only [natDigits, Nat.repr, Nat.toDigits, hpre, List.append_nil, List.asString]
  rw [this]
  exact ⟨hne, hdig, hval⟩

theorem takeWhile_dropWhile_append (p : Char → Bool) (pre : List Char) (x : Char)
    (rest : List Char) (hpre : ∀ c ∈ pre, p c = true) (hx : p x = false) :
    (pre ++ x :: rest).takeWhile p = pre ∧ (pre ++ x :: rest).dropWhile p = x :: rest := by
  induction pre with
  | nil => simp [List.takeWhile, List.dropWhile, hx]
  | cons c cs ih =>
    have hc : p c = true := hpre c (List.mem_cons_self _ _)
    have := ih (fun d hd => hpre d (List.mem_cons_of_mem _ hd))
    simp [List.takeWhile, List.dropWhile, hc, this]

/-- Reading back a number written with two decimals. -/
theorem parseFloat_two_decimals (pre : List Char) (k1 k2 : ℕ) (hk1 : k1 < 10) (hk2 : k2 < 10)
    (hne : pre ≠ []) (hdig : ∀ c ∈ pre, ∃ k : ℕ, k < 10 ∧ c = Nat.digitChar k) :
    parseFloat (String.mk (pre ++ ['.'] ++ [Nat.digitChar k1, Nat.digitChar k2])) =
      roundToDouble (((100 * digitsValue 0 pre + 10 * k1 + k2 : ℕ) : ℚ) / 100) := by
  obtain ⟨c, cs, rfl⟩ := List.exists_cons_of_ne_nil hne
  obtain ⟨k, hk, hck⟩ := hdig c (List.mem_cons_self _ _)
  obtain ⟨hc1, hc2, hc3, hc4, hc5, -⟩ := digitChar_facts k hk
  rw [← hck] at hc1 hc2 hc3 hc4 hc5
  have hall : ∀ d ∈ c :: cs, Char.isDigit d = true := by
    intro d hd
    obtain ⟨j, hj, hdj⟩ := hdig d hd
    rw [hdj]
    exact (digitChar_facts j hj).1
  have hdot : Char.isDigit '.' = false := by decide
  obtain ⟨htw, hdw⟩ := takeWhile_dropWhile_append Char.isDigit (c :: cs) '.'
    [Nat.digitChar k1, Nat.digitChar k2] hall hdot
  have hd1 := digitChar_facts k1 hk1
  have hd2 := digitChar_facts k2 hk2
  have hfr : [Nat.digitChar k1, Nat.digitChar k2].takeWhile Char.isDigit =
      [Nat.digitChar k1, Nat.digitChar k2] := by
    simp [List.takeWhile, hd1.1, hd2.1]
  have hfd : [Nat.digitChar k1, Nat.digitChar k2].dropWhile Char.isDigit = [] := by
    simp [List.dropWhile, hd1.1, hd2.1]
  have hdata : c :: cs ++ ['.'] ++ [Nat.digitChar k1, Nat.digitChar k2] =
      (c :: cs) ++ '.' :: [Nat.digitChar k1, Nat.digitChar k2] := by simp
  rw [hdata]
  generalize hL : (c :: cs) ++ '.' :: [Nat.digitChar k1, Nat.digitChar k2] = L at htw hdw
  have hhead : L.head? = some c := by rw [← hL]; rfl
  have htrim : L.dropWhile isJsWhitespace = L := by
    rw [← hL]
    simp [List.dropWhile, hc2]
  have hinf : L.take 8 ≠ "Infinity".data := by
    intro h
    have := congrArg List.head? h
    rw [← hL] at this
    exact hc5 (by simpa using this)
  have hval : digitsValue 0 (c :: cs ++ [Nat.digitChar k1, Nat.digitChar k2]) =
      100 * digitsValue 0 (c :: cs) + 10 * k1 + k2 := by
    unfold digitsValue
    rw [List.foldl_append]
    simp only [List.foldl_cons, List.foldl_nil, hd1.2.2.2.2.2, hd2.2.2.2.2.2]
    ring
  have hsign : ¬ (some c = some '-' ∨ some c = some '+') := by
    simp [hc3, hc4]
  unfold parseFloat
  simp only [htrim, hhead, hsign, if_false, hinf, htw, hdw, hfr, hfd, exponentValue,
    List.cons_ne_nil, false_and, List.length_cons, List.length_nil]
  rw [hval]
  congr 1
  simp only [pow10, hc3, if_false]
  norm_num
  intro h
  exact absurd h hc3

/-- Reading back the text that `toFixed(2)` gives for a number that is not
negative: the number rounded to two decimals, as a double. -/
theorem parseFloat_toFixed2 (q : ℚ) (h0 : 0 ≤ q) (h1 : q < 10 ^ 18) :
    parseFloat (toFixed2 (.fin q)) = roundToDouble ((roundHalfUp q 2 : ℚ) / 100) := by
  have h21 : ¬ (10 : ℚ) ^ 21 ≤ q := not_le.2 (lt_trans h1 (by norm_num))
  have hneg : ¬ q < 0 := not_lt.2 h0
  obtain ⟨hne, hdig, hval⟩ := natDigits_spec (roundHalfUp q 2 / 100)
  have htext : toFixed2 (.fin q) = String.mk (natDigits (roundHalfUp q 2 / 100) ++ ['.'] ++
      [Nat.digitChar (roundHalfUp q 2 / 10 % 10), Nat.digitChar (roundHalfUp q 2 % 10)]) := by
    simp only [toFixed2, abs_of_nonneg h0, h21, if_false, hneg, fixedDigits]
    show "" ++ String.mk _ = String.mk _
    rw [String.empty_append]
    congr 1
  rw [htext, parseFloat_two_decimals _ _ _ (Nat.mod_lt _ (by norm_num))
    (Nat.mod_lt _ (by norm_num)) hne hdig, hval]
  congr 2
  have : 100 * (roundHalfUp q 2 / 100) + 10 * (roundHalfUp q 2 / 10 % 10) +
      roundHalfUp q 2 % 10 = roundHalfUp q 2 := by omega
  rw [this]

theorem mathFloor_eq_fin (x : JSNumber) (k : ℚ) (h : mathFloor x = .fin k) :
    ∃ r : ℚ, x = .fin r ∧ ((⌊r⌋ : ℤ) : ℚ) = k := by
  cases x with
  | nan => simp [mathFloor] at h
  | posInf => simp [mathFloor] at h
  | negInf => simp [mathFloor] at h
  | fin r => exact ⟨r, rfl, by simpa [mathFloor] using h⟩

/-- The unit index that `formatFileSize` computes, for a `Math.log` that does
not decrease on the byte counts below `1024 ^ 4`, is `+0` at 1, and puts the
quotient by `Math.log(1024)` on the right side of each power of 1024. -/
theorem unit_index (math : MathObject) (b : ℕ) (hb1 : 1 ≤ b) (hb2 : b < 1024 ^ 4)
    (hone : math.log (.fin 1) = .fin 0)
    (hmono : ∀ x y : ℕ, 1 ≤ x → x ≤ y → y < 1024 ^ 4 →
      ∃ p q : ℚ, math.log (.fin x) = .fin p ∧ math.log (.fin y) = .fin q ∧ p ≤ q)
    (hat : ∀ k : ℕ, 1 ≤ k → k ≤ 3 →
      mathFloor (jsDiv (math.log (.fin ((1024 ^ k : ℕ) : ℚ))) (math.log (.fin 1024))) =
        .fin (k : ℚ))
    (hbelow : ∀ k : ℕ, 1 ≤ k → k ≤ 4 →
      mathFloor (jsDiv (math.log (.fin ((1024 ^ k - 1 : ℕ) : ℚ))) (math.log (.fin 1024))) =
        .fin ((k - 1 : ℕ) : ℚ)) :
    Nat.log 1024 b ≤ 3 ∧
    mathFloor (jsDiv (math.log (.fin (b : ℚ))) (math.log (.fin 1024))) =
      .fin ((Nat.log 1024 b : ℕ) : ℚ) := by
  have hb0 : b ≠ 0 := by omega
  have hlow : 1024 ^ Nat.log 1024 b ≤ b := Nat.pow_log_le_self 1024 hb0
  have hhigh : b < 1024 ^ (Nat.log 1024 b + 1) := Nat.lt_pow_succ_log_self (by norm_num) b
  have hK : Nat.log 1024 b ≤ 3 := by
    have : 1024 ^ Nat.log 1024 b < 1024 ^ 4 := lt_of_le_of_lt hlow hb2
    have := (Nat.pow_lt_pow_iff_right (by norm_num : 1 < 1024)).1 this
    omega
  refine ⟨hK, ?_⟩
  set K := Nat.log 1024 b with hKdef
  -- the logarithm of 1024 is a positive finite number
  obtain ⟨p1, d, hp1, hd, hp1d⟩ := hmono 1 1024 le_rfl (by norm_num) (by norm_num)
  simp only [Nat.cast_one, Nat.cast_ofNat] at hp1 hd
  have hp10 : p1 = 0 := by
    rw [hone] at hp1
    exact (JSNumber.fin.inj hp1).symm
  have hd0 : 0 ≤ d := by rw [← hp10]; exact hp1d
  have hdne : d ≠ 0 := by
    intro h0
    have := hat 1 le_rfl (by norm_num)
    simp only [pow_one, Nat.cast_ofNat, hd, h0, jsDiv, if_true, mathFloor] at this
    exact JSNumber.noConfusion this
  have hdpos : 0 < d := lt_of_le_of_ne hd0 (Ne.symm hdne)
  -- the logarithm of the byte count
  obtain ⟨p0, pb, hp0, hpb, hp0b⟩ := hmono 1 b le_rfl hb1 hb2
  simp only [Nat.cast_one] at hp0
  have hpb0 : 0 ≤ pb := by
    rw [hone] at hp0
    rw [(JSNumber.fin.inj hp0)]
    exact hp0b
  -- the upper anchor
  have hU1 : 1 ≤ 1024 ^ (K + 1) - 1 := by
    have : 1024 ^ 1 ≤ 1024 ^ (K + 1) := Nat.pow_le_pow_right (by norm_num) (by omega)
    omega
  have hU2 : 1024 ^ (K + 1) - 1 < 1024 ^ 4 := by
    have : 1024 ^ (K + 1) ≤ 1024 ^ 4 := Nat.pow_le_pow_right (by norm_num) (by omega)
    omega
  obtain ⟨pb2, pU, hpb2, hpU, hbU⟩ := hmono b (1024 ^ (K + 1) - 1) hb1 (by omega) hU2
  have hpb2e : pb2 = pb := by
    rw [hpb] at hpb2
    exact (JSNumber.fin.inj hpb2).symm
  rw [hpb2e] at hbU
  obtain ⟨rU, hrU, hfU⟩ := mathFloor_eq_fin _ _ (hbelow (K + 1) (by omega) (by omega))
  rw [hpU, hd] at hrU
  simp only [jsDiv, hdne, if_false] at hrU
  obtain ⟨rb, hrb, hrb0, hrbU⟩ := roundToDouble_mono (pb / d) (pU / d) rU
    (div_nonneg hpb0 hd0) (div_le_div_of_nonneg_right hbU hd0) hrU
  have hup : ⌊rb⌋ ≤ (K : ℤ) := by
    have h1 : ⌊rb⌋ ≤ ⌊rU⌋ := Int.floor_mono hrbU
    have h2 : ⌊rU⌋ = (K : ℤ) := by
      have : ((⌊rU⌋ : ℤ) : ℚ) = ((K : ℤ) : ℚ) := by
        rw [hfU]
        simp
      exact_mod_cast this
    omega
  have hdown : (K : ℤ) ≤ ⌊rb⌋ := by
    rcases Nat.eq_zero_or_pos K with hz | hpos
    · rw [hz]
      exact_mod_cast Int.floor_nonneg.2 hrb0
    · obtain ⟨pL, pb3, hpL, hpb3, hLb⟩ := hmono (1024 ^ K) b
        (Nat.one_le_pow _ _ (by norm_num)) hlow hb2
      have hpb3e : pb3 = pb := by
        rw [hpb] at hpb3
        exact (JSNumber.fin.inj hpb3).symm
      rw [hpb3e] at hLb
      obtain ⟨rL, hrL, hfL⟩ := mathFloor_eq_fin _ _ (hat K hpos hK)
      rw [hpL, hd] at hrL
      simp only [jsDiv, hdne, if_false] at hrL
      have hpL0 : 0 ≤ pL := by
        obtain ⟨p0', pL', hp0', hpL', hle⟩ := hmono 1 (1024 ^ K) le_rfl
          (Nat.one_le_pow _ _ (by norm_num)) (lt_of_le_of_lt hlow hb2)
        simp only [Nat.cast_one] at hp0'
        rw [hone] at hp0'
        rw [hpL] at hpL'
        have e1 : pL = pL' := JSNumber.fin.inj hpL'
        have e2 : (0 : ℚ) = p0' := JSNumber.fin.inj hp0'
        rw [e1, e2]
        exact hle
      obtain ⟨ra, hra, -, hrab⟩ := roundToDouble_mono (pL / d) (pb / d) rb
        (div_nonneg hpL0 hd0) (div_le_div_of_nonneg_right hLb hd0) hrb
      rw [hrL] at hra
      rw [← JSNumber.fin.inj hra] at hrab
      have h1 : ⌊rL⌋ ≤ ⌊rb⌋ := Int.floor_mono hrab
      have h2 : ⌊rL⌋ = (K : ℤ) := by
        have : ((⌊rL⌋ : ℤ) : ℚ) = ((K : ℤ) : ℚ) := by
          rw [hfL]
          simp
        exact_mod_cast this
      omega
  rw [hpb, hd]
  simp only [jsDiv, hdne, if_false, hrb, mathFloor]
  congr 1
  have : ⌊rb⌋ = (K : ℤ) := le_antisymm hup hdown
  rw [this]
  simp

/-- C18. `formatFileSize(0)` is `0 Bytes`. `Math.log` and `Math.pow` are left to
the engine by ECMA-262, so the other byte counts are settled for an engine
whose `Math.log` is `+0` at 1, does not decrease on the byte counts below
`1024 ^ 4`, and puts the quotient by `Math.log(1024)` at or above `k` at
`1024 ^ k` and below `k` at `1024 ^ k - 1`, and whose `Math.pow` is exact for
the first four powers of 1024. For every byte count `b` with
`1 ≤ b < 1024 ^ 4` the unit index is then `floor(log_1024 b)`, it is at most
3 and the lookup in `sizes` succeeds, and the text is the double nearest to
`b / 1024 ^ i` rounded to two decimals, a number between 1 and 1024, followed
by a space and the unit. -/
theorem formatFileSize_unit (math : MathObject) (b : ℕ) (hb1 : 1 ≤ b) (hb2 : b < 1024 ^ 4)
    (hone : math.log (.fin 1) = .fin 0)
    (hmono : ∀ x y : ℕ, 1 ≤ x → x ≤ y → y < 1024 ^ 4 →
      ∃ p q : ℚ, math.log (.fin x) = .fin p ∧ math.log (.fin y) = .fin q ∧ p ≤ q)
    (hat : ∀ k : ℕ, 1 ≤ k → k ≤ 3 →
      mathFloor (jsDiv (math.log (.fin ((1024 ^ k : ℕ) : ℚ))) (math.log (.fin 1024))) =
        .fin (k : ℚ))
    (hbelow : ∀ k : ℕ, 1 ≤ k → k ≤ 4 →
      mathFloor (jsDiv (math.log (.fin ((1024 ^ k - 1 : ℕ) : ℚ))) (math.log (.fin 1024))) =
        .fin ((k - 1 : ℕ) : ℚ))
    (hpow : ∀ k : ℕ, k ≤ 3 →
      math.pow (.fin 1024) (.fin (k : ℚ)) = .fin ((1024 ^ k : ℕ) : ℚ)) :
    formatFileSize math (.fin 0) = "0 Bytes" ∧
    Nat.log 1024 b ≤ 3 ∧
    mathFloor (jsDiv (math.log (.fin (b : ℚ))) (math.log (.fin 1024))) =
      .fin ((Nat.log 1024 b : ℕ) : ℚ) ∧
    ∃ (unit : String) (v : ℚ), sizes[Nat.log 1024 b]? = some unit ∧
      roundToDouble ((roundHalfUp ((b : ℚ) / 1024 ^ Nat.log 1024 b) 2 : ℚ) / 100) = .fin v ∧
      1 ≤ v ∧ v ≤ 1024 ∧
      formatFileSize math (.fin (b : ℚ)) = numberToString (.fin v) ++ " " ++ unit := by
  obtain ⟨hK, hidx⟩ := unit_index math b hb1 hb2 hone hmono hat hbelow
  refine ⟨by simp [formatFileSize], hK, hidx, ?_⟩
  have hb0 : b ≠ 0 := by omega
  have hlow : 1024 ^ Nat.log 1024 b ≤ b := Nat.pow_log_le_self 1024 hb0
  have hhigh : b < 1024 ^ (Nat.log 1024 b + 1) := Nat.lt_pow_succ_log_self (by norm_num) b
  set K := Nat.log 1024 b with hKdef
  set q : ℚ := (b : ℚ) / 1024 ^ K with hq
  have hpowpos : (0 : ℚ) < 1024 ^ K := by positivity
  -- the quotient lies between 1 and 1024
  have hq1 : 1 ≤ q := by
    rw [hq, le_div_iff₀ hpowpos, one_mul]
    exact_mod_cast hlow
  have hq2 : q < 1024 := by
    rw [hq, div_lt_iff₀ hpowpos]
    have : (b : ℚ) < ((1024 ^ (K + 1) : ℕ) : ℚ) := by exact_mod_cast hhigh
    rw [pow_succ] at this
    push_cast at this
    linarith
  -- the division is exact
  have hdiv : jsDiv (.fin (b : ℚ)) (.fin ((1024 ^ K : ℕ) : ℚ)) = .fin q := by
    have hne : ((1024 ^ K : ℕ) : ℚ) ≠ 0 := by positivity
    simp only [jsDiv, hne, if_false]
    have hb53 : b < 2 ^ 53 := lt_of_lt_of_le hb2 (by norm_num)
    have h := roundToDouble_dyadic b (10 * K) (by omega) hb53 (by omega)
    have e : ((1024 ^ K : ℕ) : ℚ) = 2 ^ (10 * K) := by
      rw [pow_mul]
      norm_num
    have e2 : (1024 : ℚ) ^ K = 2 ^ (10 * K) := by
      rw [pow_mul]
      norm_num
    rw [e, h, hq, e2]
  -- the rounding to two decimals
  set n := roundHalfUp q 2 with hn
  have hn1 : 100 ≤ n := by
    rw [hn]
    unfold roundHalfUp
    apply Nat.le_floor
    push_cast
    linarith
  have hn2 : n ≤ 102400 := by
    rw [hn]
    unfold roundHalfUp
    have : ⌊q * 10 ^ 2 + 1 / 2⌋₊ < 102401 := by
      rw [Nat.floor_lt (by positivity)]
      push_cast
      linarith
    omega
  have hparse := parseFloat_toFixed2 q (by linarith) (lt_of_lt_of_le hq2 (by norm_num))
  rw [← hn] at hparse
  -- the double nearest to it lies between 1 and 1024
  have h1024 : roundToDouble 1024 = .fin 1024 := by
    simpa using roundToDouble_natCast 1024 (by norm_num)
  have h1 : roundToDouble 1 = .fin 1 := by
    simpa using roundToDouble_natCast 1 (by norm_num)
  have hnq1 : (1 : ℚ) ≤ (n : ℚ) / 100 := by
    rw [le_div_iff₀ (by norm_num)]
    exact_mod_cast (by omega : 1 * 100 ≤ n)
  have hnq2 : (n : ℚ) / 100 ≤ 1024 := by
    rw [div_le_iff₀ (by norm_num)]
    exact_mod_cast (by omega : n ≤ 1024 * 100)
  obtain ⟨v, hv, -, hv2⟩ := roundToDouble_mono ((n : ℚ) / 100) 1024 1024 (by linarith) hnq2 h1024
  obtain ⟨one, hone', -, hv1⟩ := roundToDouble_mono 1 ((n : ℚ) / 100) v (by norm_num) hnq1 hv
  rw [h1] at hone'
  rw [← JSNumber.fin.inj hone'] at hv1
  -- the unit
  have hunit : sizes[K]? = some (sizeAt (.fin ((K : ℕ) : ℚ))) := by
    have hK' : K ≤ 3 := hK
    interval_cases K <;> decide
  refine ⟨sizeAt (.fin ((K : ℕ) : ℚ)), v, hunit, hv, hv1, hv2, ?_⟩
  have hbne : JSNumber.fin (b : ℚ) ≠ .fin 0 := by
    intro h
    have := JSNumber.fin.inj h
    exact hb0 (by exact_mod_cast this)
  simp only [formatFileSize, hbne, if_false, hidx, hpow K hK, hdiv, hparse, hv]

theorem binaryLog_natCast (x : ℕ) (hx : 1 ≤ x) :
    binaryLog (.fin (x : ℚ)) = .fin ((bitLength x x - 1 : ℕ) : ℚ) := by
  have h1 : (1 : ℚ) ≤ (x : ℚ) := by exact_mod_cast hx
  simp only [binaryLog, h1, if_true, Nat.floor_natCast]

theorem bitLength_mono (x y : ℕ) (hx : 1 ≤ x) (hxy : x ≤ y) :
    bitLength x x ≤ bitLength y y := by
  obtain ⟨d, hd, hlo, -⟩ := bitLength_spec x x le_rfl (by omega)
  obtain ⟨e, he, -, hhi⟩ := bitLength_spec y y le_rfl (by omega)
  have : 2 ^ d < 2 ^ (e + 1) := lt_of_le_of_lt (le_trans hlo hxy) hhi
  have := (Nat.pow_lt_pow_iff_right (by norm_num : 1 < 2)).1 this
  omega

/-- The stand-in logarithm meets the conditions on `Math.log`, and the exact
power those on `Math.pow`. -/
theorem sampleMath_conditions :
    sampleMath.log (.fin 1) = .fin 0 ∧
    (∀ x y : ℕ, 1 ≤ x → x ≤ y → y < 1024 ^ 4 →
      ∃ p q : ℚ, sampleMath.log (.fin x) = .fin p ∧ sampleMath.log (.fin y) = .fin q ∧ p ≤ q) ∧
    (∀ k : ℕ, 1 ≤ k → k ≤ 3 →
      mathFloor (jsDiv (sampleMath.log (.fin ((1024 ^ k : ℕ) : ℚ)))
        (sampleMath.log (.fin 1024))) = .fin (k : ℚ)) ∧
    (∀ k : ℕ, 1 ≤ k → k ≤ 4 →
      mathFloor (jsDiv (sampleMath.log (.fin ((1024 ^ k - 1 : ℕ) : ℚ)))
        (sampleMath.log (.fin 1024))) = .fin ((k - 1 : ℕ) : ℚ)) ∧
    (∀ k : ℕ, k ≤ 3 →
      sampleMath.pow (.fin 1024) (.fin (k : ℚ)) = .fin ((1024 ^ k : ℕ) : ℚ)) := by
  refine ⟨by decide!, ?_, ?_, ?_, ?_⟩
  · intro x y hx hxy _
    refine ⟨_, _, binaryLog_natCast x hx, binaryLog_natCast y (le_trans hx hxy), ?_⟩
    have := bitLength_mono x y hx hxy
    exact_mod_cast Nat.sub_le_sub_right this 1
  · intro k h1 h3
    interval_cases k <;> decide!
  · intro k h1 h4
    interval_cases k <;> decide!
  · intro k h3
    interval_cases k <;> decide!

theorem formatFileSize_unit_witness :
    1 ≤ 1536 ∧ 1536 < 1024 ^ 4 ∧ Nat.log 1024 1536 ≤ 3 ∧
    mathFloor (jsDiv (sampleMath.log (.fin ((1536 : ℕ) : ℚ))) (sampleMath.log (.fin 1024))) =
      .fin ((Nat.log 1024 1536 : ℕ) : ℚ) ∧
    formatFileSize sampleMath (.fin 1536) = "1.5 KB" :=
  have h := formatFileSize_unit sampleMath 1536 (by norm_num) (by norm_num)
    sampleMath_conditions.1 sampleMath_conditions.2.1 sampleMath_conditions.2.2.1
    sampleMath_conditions.2.2.2.1 sampleMath_conditions.2.2.2.2
  ⟨by norm_num, by norm_num, h.2.1, h.2.2.1, by decide!⟩

end SaviCharts
